import Mathlib

/-!
# SiFive PLIC (hw/riscv/sifive_plic.c): shallow embedding

The device state is an explicit record and every C function becomes a pure
function on it.  Conventions of the embedding:

* C arrays (`pending`, `claimed`, `enable`, `source_priority`,
  `target_priority`, `addr_config`, `soc->harts`) are total maps from the
  index to the stored value.  An index past the allocated length reads or
  writes the cell at that index; array bounds are separate proof
  obligations on the index arithmetic.
* `uint32_t`/`uint64_t` values are natural numbers; a `% 2 ^ 32` or
  `% 2 ^ 64` is written wherever the C arithmetic can wrap.
* `x & ~m` is `clear_bits x m`, which is the same number at every register
  width.
* `error_report`, `qemu_irq_raise` and `qemu_irq_lower` are returned as a
  list of effects, in program order.
-/

namespace PLIC

/-! ## Data model -/

/-- Modelled from the spec: the enumeration `PLICMode`, declared in
`hw/riscv/sifive_plic.h`, which is not among the sources; the four privilege modes of a
target. -/
inductive PLICMode where
  | U
  | S
  | H
  | M
deriving DecidableEq, Repr

/-- Modelled from the spec: the record `PLICAddr`, declared in `hw/riscv/sifive_plic.h`,
which is not among the sources; one address slot of the controller, with the fields the
parser stores. -/
structure PLICAddr where
  addrid : Nat
  hartid : Nat
  mode : PLICMode
deriving DecidableEq, Repr

/-- Messages passed to `error_report`. -/
inductive PlicError where
  | invalid_mode (mode : PLICMode)
  | invalid_register_read (addr : Nat)
  | invalid_pending_write (addr : Nat)
  | invalid_register_write (addr : Nat)
deriving DecidableEq, Repr

/-- Observable calls made by the device, in program order. -/
inductive Effect where
  | irq_raise (hartid : Nat) (mode : PLICMode)
  | irq_lower (hartid : Nat) (mode : PLICMode)
  | error_report (e : PlicError)
deriving DecidableEq, Repr

/-- Modelled from the spec: the hart array `RISCVHartArrayState`, declared in
`hw/riscv/riscv_hart.h`, which is not among the sources, reduced to what the controller
uses: the number of harts, and `mip h` for `harts[h].env.mip`. -/
structure RISCVHartArrayState where
  num_harts : Nat
  mip : Nat → Nat

/-- Modelled from the spec: the device record `SiFivePLICState`, declared in
`hw/riscv/sifive_plic.h`, which is not among the sources, with the fields the functions of
`sifive_plic.c` read and write (all `uint32_t` or arrays of `uint32_t`). -/
structure SiFivePLICState where
  soc : RISCVHartArrayState
  num_addrs : Nat
  bitfield_words : Nat
  addr_config : Nat → PLICAddr
  source_priority : Nat → Nat
  target_priority : Nat → Nat
  pending : Nat → Nat
  claimed : Nat → Nat
  enable : Nat → Nat
  num_sources : Nat
  num_priorities : Nat
  priority_base : Nat
  pending_base : Nat
  enable_base : Nat
  enable_stride : Nat
  context_base : Nat
  context_stride : Nat

/-- Bit `IRQ_S_EXT` of `mip`. -/
def MIP_SEIP : Nat := 1 <<< 9

/-- Bit `IRQ_M_EXT` of `mip`. -/
def MIP_MEIP : Nat := 1 <<< 11

/-- The C expression `x & ~m`. -/
def clear_bits (x m : Nat) : Nat := x ^^^ (x &&& m)

/-! ## Bitset accessors (lines 94-116) -/

/-- Set or clear the pending bit of `irq`. -/
def sifive_plic_set_pending (plic : SiFivePLICState) (irq : Nat) (pending : Bool) :
    SiFivePLICState :=
  let word := irq >>> 5
  if pending then
    { plic with pending :=
        Function.update plic.pending word (plic.pending word ||| (1 <<< (irq &&& 31))) }
  else
    { plic with pending :=
        Function.update plic.pending word (clear_bits (plic.pending word) (1 <<< (irq &&& 31))) }

/-- Set or clear the claimed bit of `irq`. -/
def sifive_plic_set_claimed (plic : SiFivePLICState) (irq : Nat) (claimed : Bool) :
    SiFivePLICState :=
  let word := irq >>> 5
  if claimed then
    { plic with claimed :=
        Function.update plic.claimed word (plic.claimed word ||| (1 <<< (irq &&& 31))) }
  else
    { plic with claimed :=
        Function.update plic.claimed word (clear_bits (plic.claimed word) (1 <<< (irq &&& 31))) }

/-! ## Eligibility scans (lines 118-136 and 222-242) -/

/-- Word `i` of the mask `(pending & ~claimed) & enable` of target `addrid`. -/
def pending_enabled_not_claimed (plic : SiFivePLICState) (addrid i : Nat) : Nat :=
  (clear_bits (plic.pending i) (plic.claimed i)) &&&
    plic.enable (addrid * plic.bitfield_words + i)

/-- Body of the outer loop of `sifive_plic_num_irqs_pending` for word `i`. -/
def num_irqs_word (plic : SiFivePLICState) (addrid : Nat) (count i : Nat) : Nat :=
  let mask := pending_enabled_not_claimed plic addrid i
  if mask = 0 then count
  else
    (List.range 32).foldl
      (fun count j =>
        let irq := (i <<< 5) + j
        let prio := plic.source_priority irq
        let enabled := mask &&& (1 <<< j)
        if enabled ≠ 0 ∧ prio > plic.target_priority addrid then count + 1 else count)
      count

/-- Number of sources that keep the line of target `addrid` asserted. -/
def sifive_plic_num_irqs_pending (plic : SiFivePLICState) (addrid : Nat) : Nat :=
  (List.range plic.bitfield_words).foldl (num_irqs_word plic addrid) 0

/-- Inner loop of `sifive_plic_claim` for word `i`: the first hit, if any. -/
def claim_word (plic : SiFivePLICState) (addrid i : Nat) : Option Nat :=
  let mask := pending_enabled_not_claimed plic addrid i
  if mask = 0 then none
  else
    (List.range 32).findSome?
      (fun j =>
        let irq := (i <<< 5) + j
        let prio := plic.source_priority irq
        let enabled := mask &&& (1 <<< j)
        if enabled ≠ 0 ∧ prio ≥ plic.target_priority addrid then some irq else none)

/-- Claim scan: returns the claimed id (0 when nothing is found) and the new state. -/
def sifive_plic_claim (plic : SiFivePLICState) (addrid : Nat) : Nat × SiFivePLICState :=
  match (List.range plic.bitfield_words).findSome? (claim_word plic addrid) with
  | some irq =>
    (irq, sifive_plic_set_claimed (sifive_plic_set_pending plic irq false) irq true)
  | none => (0, plic)

/-! ## Line driver (lines 138-220) -/

/-- Replace the `mip` register of one hart. -/
def set_mip (plic : SiFivePLICState) (hartid value : Nat) : SiFivePLICState :=
  { plic with soc := { plic.soc with mip := Function.update plic.soc.mip hartid value } }

/-- Body of the target loop of `sifive_plic_raise_irq`. -/
def raise_target (acc : SiFivePLICState × List Effect) (addrid : Nat) :
    SiFivePLICState × List Effect :=
  let plic := acc.1
  let hartid := (plic.addr_config addrid).hartid
  let mode := (plic.addr_config addrid).mode
  let mip := plic.soc.mip hartid
  if sifive_plic_num_irqs_pending plic addrid = 0 then acc
  else
    match mode with
    | PLICMode.M =>
      if mip &&& MIP_MEIP = 0 then
        (set_mip plic hartid (mip ||| MIP_MEIP), acc.2 ++ [Effect.irq_raise hartid PLICMode.M])
      else acc
    | PLICMode.S =>
      if mip &&& MIP_SEIP = 0 then
        (set_mip plic hartid (mip ||| MIP_SEIP), acc.2 ++ [Effect.irq_raise hartid PLICMode.S])
      else acc
    | _ => (plic, acc.2 ++ [Effect.error_report (PlicError.invalid_mode mode)])

/-- Raise source `irq`: set it pending and assert the lines of targets with work. -/
def sifive_plic_raise_irq (plic : SiFivePLICState) (irq : Nat) :
    SiFivePLICState × List Effect :=
  if irq = 0 ∨ irq > plic.num_sources then (plic, [])
  else
    (List.range plic.num_addrs).foldl raise_target
      (sifive_plic_set_pending plic irq true, [])

/-- Body of the target loop of `sifive_plic_lower_irq`. -/
def lower_target (acc : SiFivePLICState × List Effect) (addrid : Nat) :
    SiFivePLICState × List Effect :=
  let plic := acc.1
  let hartid := (plic.addr_config addrid).hartid
  let mode := (plic.addr_config addrid).mode
  let mip := plic.soc.mip hartid
  if sifive_plic_num_irqs_pending plic addrid > 0 then acc
  else
    match mode with
    | PLICMode.M =>
      if mip &&& MIP_MEIP ≠ 0 then
        (set_mip plic hartid (clear_bits mip MIP_MEIP),
          acc.2 ++ [Effect.irq_lower hartid PLICMode.M])
      else acc
    | PLICMode.S =>
      if mip &&& MIP_SEIP ≠ 0 then
        (set_mip plic hartid (clear_bits mip MIP_SEIP),
          acc.2 ++ [Effect.irq_lower hartid PLICMode.S])
      else acc
    | _ => (plic, acc.2 ++ [Effect.error_report (PlicError.invalid_mode mode)])

/-- Lower source `irq`: clear its claimed bit and deassert the lines of idle targets. -/
def sifive_plic_lower_irq (plic : SiFivePLICState) (irq : Nat) :
    SiFivePLICState × List Effect :=
  if irq = 0 ∨ irq > plic.num_sources then (plic, [])
  else
    (List.range plic.num_addrs).foldl lower_target
      (sifive_plic_set_claimed plic irq false, [])

/-! ## Register decoder (lines 245-393) -/

/-- Window test `addr >= priority_base && addr < priority_base + (num_sources << 2)`. -/
abbrev in_priority_window (plic : SiFivePLICState) (addr : Nat) : Prop :=
  addr ≥ plic.priority_base ∧
    addr < (plic.priority_base + (plic.num_sources <<< 2) % 2 ^ 32) % 2 ^ 32

/-- Window test `addr >= pending_base && addr < pending_base + (num_sources >> 3)`. -/
abbrev in_pending_window (plic : SiFivePLICState) (addr : Nat) : Prop :=
  addr ≥ plic.pending_base ∧
    addr < (plic.pending_base + (plic.num_sources >>> 3)) % 2 ^ 32

/-- Window test `addr >= enable_base && addr < enable_base + num_addrs * enable_stride`. -/
abbrev in_enable_window (plic : SiFivePLICState) (addr : Nat) : Prop :=
  addr ≥ plic.enable_base ∧
    addr < (plic.enable_base + (plic.num_addrs * plic.enable_stride) % 2 ^ 32) % 2 ^ 32

/-- Window test `addr >= context_base && addr < context_base + num_addrs * context_stride`. -/
abbrev in_context_window (plic : SiFivePLICState) (addr : Nat) : Prop :=
  addr ≥ plic.context_base ∧
    addr < (plic.context_base + (plic.num_addrs * plic.context_stride) % 2 ^ 32) % 2 ^ 32

/-- The `uint32_t` expression `stride - 1`. -/
def stride_mask (stride : Nat) : Nat := (stride + 2 ^ 32 - 1) % 2 ^ 32

/-- The index `(addr - enable_base) / enable_stride`. -/
def enable_addrid (plic : SiFivePLICState) (addr : Nat) : Nat :=
  ((addr - plic.enable_base) / plic.enable_stride) % 2 ^ 32

/-- The index `(addr & (enable_stride - 1)) >> 2`. -/
def enable_wordid (plic : SiFivePLICState) (addr : Nat) : Nat :=
  ((addr &&& stride_mask plic.enable_stride) >>> 2) % 2 ^ 32

/-- The index `(addr - context_base) / context_stride`. -/
def context_addrid (plic : SiFivePLICState) (addr : Nat) : Nat :=
  ((addr - plic.context_base) / plic.context_stride) % 2 ^ 32

/-- The offset `addr & (context_stride - 1)`. -/
def context_contextid (plic : SiFivePLICState) (addr : Nat) : Nat :=
  (addr &&& stride_mask plic.context_stride) % 2 ^ 32

/-- Register read: the value returned, the new state and the effects. -/
def sifive_plic_read (plic : SiFivePLICState) (addr : Nat) (_size : Nat) :
    Nat × SiFivePLICState × List Effect :=
  let err : Nat × SiFivePLICState × List Effect :=
    (0, plic, [Effect.error_report (PlicError.invalid_register_read (addr % 2 ^ 32))])
  if addr &&& 0x3 ≠ 0 then err
  else if in_priority_window plic addr then
    let irq := ((addr - plic.priority_base) >>> 2) % 2 ^ 32
    (plic.source_priority irq, plic, [])
  else if in_pending_window plic addr then
    let word := (((addr + 2 ^ 64 - plic.priority_base) % 2 ^ 64) >>> 2) % 2 ^ 32
    (plic.pending word, plic, [])
  else if in_enable_window plic addr then
    let addrid := enable_addrid plic addr
    let wordid := enable_wordid plic addr
    if wordid < plic.bitfield_words then
      (plic.enable (addrid * plic.bitfield_words + wordid), plic, [])
    else err
  else if in_context_window plic addr then
    let addrid := context_addrid plic addr
    let contextid := context_contextid plic addr
    if contextid = 0 then (plic.target_priority addrid, plic, [])
    else if contextid = 4 then
      let r := sifive_plic_claim plic addrid
      (r.1, r.2, [])
    else err
  else err

/-- Register write: the new state and the effects. -/
def sifive_plic_write (plic : SiFivePLICState) (addr value : Nat) (_size : Nat) :
    SiFivePLICState × List Effect :=
  let err : SiFivePLICState × List Effect :=
    (plic, [Effect.error_report (PlicError.invalid_register_write (addr % 2 ^ 32))])
  if addr &&& 0x3 ≠ 0 then err
  else if in_priority_window plic addr then
    let irq := ((addr - plic.priority_base) >>> 2) % 2 ^ 32
    ({ plic with source_priority := Function.update plic.source_priority irq (value &&& 7) }, [])
  else if in_pending_window plic addr then
    (plic, [Effect.error_report (PlicError.invalid_pending_write (addr % 2 ^ 32))])
  else if in_enable_window plic addr then
    let addrid := enable_addrid plic addr
    let wordid := enable_wordid plic addr
    if wordid < plic.bitfield_words then
      ({ plic with enable :=
          Function.update plic.enable (addrid * plic.bitfield_words + wordid) (value % 2 ^ 32) },
        [])
    else err
  else if in_context_window plic addr then
    let addrid := context_addrid plic addr
    let contextid := context_contextid plic addr
    if contextid = 0 then
      if value ≤ plic.num_priorities then
        ({ plic with target_priority := Function.update plic.target_priority addrid value }, [])
      else (plic, [])
    else if contextid = 4 then
      if value < plic.num_sources then sifive_plic_lower_irq plic (value % 2 ^ 32)
      else (plic, [])
    else err
  else err

/-- Interrupt input handler `sifive_plic_irq_request`. -/
def sifive_plic_irq_request (plic : SiFivePLICState) (irq : Nat) (level : Int) :
    SiFivePLICState × List Effect :=
  if level > 0 then sifive_plic_raise_irq plic irq else (plic, [])

/-! ## Runs of entry points -/

/-- One call of an entry point of the device. -/
inductive Op where
  | raise (irq : Nat)
  | lower (irq : Nat)
  | read (addr size : Nat)
  | write (addr value size : Nat)
deriving DecidableEq, Repr

/-- State after one entry-point call. -/
def step (plic : SiFivePLICState) : Op → SiFivePLICState
  | Op.raise irq => (sifive_plic_raise_irq plic irq).1
  | Op.lower irq => (sifive_plic_lower_irq plic irq).1
  | Op.read addr size => (sifive_plic_read plic addr size).2.1
  | Op.write addr value size => (sifive_plic_write plic addr value size).1

/-- State after a sequence of entry-point calls. -/
def run (plic : SiFivePLICState) (ops : List Op) : SiFivePLICState :=
  ops.foldl step plic

/-! ## Per-source view of the state, in the words of the specification -/

/-- Source `s` is pending. -/
def is_pending (plic : SiFivePLICState) (s : Nat) : Bool :=
  (plic.pending (s / 32)).testBit (s % 32)

/-- Source `s` is claimed. -/
def is_claimed (plic : SiFivePLICState) (s : Nat) : Bool :=
  (plic.claimed (s / 32)).testBit (s % 32)

/-- Source `s` is enabled for target `t`. -/
def is_enabled (plic : SiFivePLICState) (t s : Nat) : Bool :=
  (plic.enable (t * plic.bitfield_words + s / 32)).testBit (s % 32)

/-- Claim eligibility: pending, unclaimed, enabled and `priority >= threshold`. -/
def claimable (plic : SiFivePLICState) (t s : Nat) : Bool :=
  is_pending plic s && !is_claimed plic s && is_enabled plic t s &&
    decide (plic.source_priority s ≥ plic.target_priority t)

/-- Line eligibility: pending, unclaimed, enabled and `priority > threshold`. -/
def eligible (plic : SiFivePLICState) (t s : Nat) : Bool :=
  is_pending plic s && !is_claimed plic s && is_enabled plic t s &&
    decide (plic.source_priority s > plic.target_priority t)

/-- Mode of target `t`. -/
def target_mode (plic : SiFivePLICState) (t : Nat) : PLICMode :=
  (plic.addr_config t).mode

/-- Hart of target `t`. -/
def target_hart (plic : SiFivePLICState) (t : Nat) : Nat :=
  (plic.addr_config t).hartid

/-- The `mip` mask driven by a target of the given mode (0 for U and H). -/
def mode_mask : PLICMode → Nat
  | PLICMode.M => MIP_MEIP
  | PLICMode.S => MIP_SEIP
  | _ => 0

/-- The external-interrupt line of target `t` is asserted. -/
def line_asserted (plic : SiFivePLICState) (t : Nat) : Bool :=
  decide (plic.soc.mip (target_hart plic t) &&& mode_mask (target_mode plic t) ≠ 0)

/-- Target `t` is an M-mode or S-mode target. -/
abbrev ms_target (plic : SiFivePLICState) (t : Nat) : Prop :=
  target_mode plic t = PLICMode.M ∨ target_mode plic t = PLICMode.S

/-- No two address slots below `num_addrs` name the same (hart, mode) pair. -/
abbrev distinct_targets (plic : SiFivePLICState) : Prop :=
  ∀ t1, t1 < plic.num_addrs → ∀ t2, t2 < plic.num_addrs →
    target_hart plic t1 = target_hart plic t2 →
    target_mode plic t1 = target_mode plic t2 → t1 = t2

/-- Every scanned word of the pending and claimed bitsets is zero. -/
abbrev nothing_pending_or_claimed (plic : SiFivePLICState) : Prop :=
  ∀ i, i < plic.bitfield_words → plic.pending i = 0 ∧ plic.claimed i = 0

/-- The sizing `bitfield_words = (num_sources + 31) >> 5` done by `sifive_plic_realize`. -/
abbrev realized_words (plic : SiFivePLICState) : Prop :=
  plic.bitfield_words = ((plic.num_sources + 31) % 2 ^ 32) >>> 5

/-! ## Concrete devices used as test inputs -/

/-- A device with 3 sources and one M-mode target on hart 0, all arrays zero. -/
def demo_plic : SiFivePLICState where
  soc := { num_harts := 1, mip := fun _ => 0 }
  num_addrs := 1
  bitfield_words := 1
  addr_config := fun k => { addrid := k, hartid := 0, mode := PLICMode.M }
  source_priority := fun _ => 0
  target_priority := fun _ => 0
  pending := fun _ => 0
  claimed := fun _ => 0
  enable := fun _ => 0
  num_sources := 3
  num_priorities := 7
  priority_base := 0x0
  pending_base := 0x1000
  enable_base := 0x2000
  enable_stride := 0x80
  context_base := 0x200000
  context_stride := 0x1000

/-! ## Auxiliary definitions of the proofs -/

/-- The device `plic` with the `mip` registers of all harts replaced by `m`. -/
def with_mip (plic : SiFivePLICState) (m : Nat → Nat) : SiFivePLICState :=
  { plic with soc := { plic.soc with mip := m } }

/-- The address is 4-byte aligned, misses the priority, pending and enable windows, falls
in the context window and has offset 4 in its slot: it is the claim register on read and
the complete register on write. -/
abbrev decodes_to_claim_complete (plic : SiFivePLICState) (addr : Nat) : Prop :=
  addr &&& 0x3 = 0 ∧ ¬ in_priority_window plic addr ∧ ¬ in_pending_window plic addr ∧
    ¬ in_enable_window plic addr ∧ in_context_window plic addr ∧
    context_contextid plic addr = 4

/-- The address is 4-byte aligned and a write to it is decoded as a priority register, an
enable word inside the bitset, or a threshold register. -/
abbrev decodes_to_config_write (plic : SiFivePLICState) (addr : Nat) : Prop :=
  addr &&& 0x3 = 0 ∧
    (in_priority_window plic addr ∨
      (¬ in_priority_window plic addr ∧ ¬ in_pending_window plic addr ∧
        in_enable_window plic addr ∧ enable_wordid plic addr < plic.bitfield_words) ∨
      (¬ in_priority_window plic addr ∧ ¬ in_pending_window plic addr ∧
        ¬ in_enable_window plic addr ∧ in_context_window plic addr ∧
        context_contextid plic addr = 0))

/-- Entry-point calls that re-drive the lines or touch nothing: raise, lower, a read of
anything but a claim register, and a write of anything but a priority, enable or threshold
register. -/
def line_op (plic : SiFivePLICState) : Op → Bool
  | Op.raise _ => true
  | Op.lower _ => true
  | Op.read addr _ => !decide (decodes_to_claim_complete plic addr)
  | Op.write addr _ _ => !decide (decodes_to_config_write plic addr)

/-- Every call of the sequence is a `line_op` in the state it is issued in. -/
def line_run (plic : SiFivePLICState) : List Op → Bool
  | [] => true
  | op :: ops => line_op plic op && line_run (step plic op) ops

/-- The line of every M- or S-mode target is asserted exactly when its count is nonzero. -/
abbrev lines_track_counts (plic : SiFivePLICState) : Prop :=
  ∀ t, t < plic.num_addrs → ms_target plic t →
    (line_asserted plic t = true ↔ sifive_plic_num_irqs_pending plic t ≠ 0)

/-- Invariant of the runs made of `line_op` calls: distinct targets, a 32-bit source
count, no scanned source claimed, and lines that track the counts. -/
def line_inv (st : SiFivePLICState) : Prop :=
  distinct_targets st ∧ st.num_sources < 2 ^ 32 ∧
    (∀ s, s < 32 * st.bitfield_words → is_claimed st s = false) ∧
    lines_track_counts st

/-! ## More test devices -/

/-- The demo device with priorities 5, 5, 0 for sources 1, 2, 3 (written through the
priority registers), sources 1-3 enabled for target 0 and threshold 3; nothing pending. -/
def armed_plic : SiFivePLICState :=
  run demo_plic
    [Op.write 0x4 5 4, Op.write 0x8 5 4, Op.write 0x2000 0xe 4, Op.write 0x200000 3 4]

/-- The armed device after raising sources 1 and 2, which tie at priority 5. -/
def tie_plic : SiFivePLICState :=
  run armed_plic [Op.raise 1, Op.raise 2]

/-- The demo device with the memory cell `source_priority[3]`, one past the 3 allocated
entries, holding 1, and source 3 enabled for target 0. -/
def edge_plic : SiFivePLICState :=
  { demo_plic with
    source_priority := fun i => if i = 3 then 1 else 0
    enable := fun i => if i = 0 then 8 else 0 }

/-- The armed device with the threshold of target 0 rewritten to 5, the priority of
sources 1 and 2. -/
def level_plic : SiFivePLICState :=
  run armed_plic [Op.write 0x200000 5 4]

/-- The demo device with priority 1 for source 1 and priority 5 for source 2, both
enabled for target 0 (threshold 0) and both raised. -/
def skew_plic : SiFivePLICState :=
  run demo_plic
    [Op.write 0x4 1 4, Op.write 0x8 5 4, Op.write 0x2000 0x6 4, Op.raise 1, Op.raise 2]

/-! ## Hart configuration (lines 36-47 and 420-477) -/

/-- Failures that end construction: an `error_report` followed by `exit(1)`, or a failed
`assert`. -/
inductive ConfigError where
  | invalid_mode (c : Char)
  | duplicate_mode (c : Char)
  | hart_count_mismatch (found required : Nat)
  | stride_assertion (stride : Nat)
deriving DecidableEq, Repr

/-- Modelled from the spec: the numeric values of the `PLICMode` enumerators, declared in
`hw/riscv/sifive_plic.h`, which is not among the sources; they are numbered in declaration
order U, S, H, M. -/
def mode_index : PLICMode → Nat
  | PLICMode.U => 0
  | PLICMode.S => 1
  | PLICMode.H => 2
  | PLICMode.M => 3

/-- Mode named by a configuration letter; any other character ends the process. -/
def char_to_mode (c : Char) : Except ConfigError PLICMode :=
  if c = 'U' then Except.ok PLICMode.U
  else if c = 'S' then Except.ok PLICMode.S
  else if c = 'H' then Except.ok PLICMode.H
  else if c = 'M' then Except.ok PLICMode.M
  else Except.error (ConfigError.invalid_mode c)

/-- The builtin `__builtin_popcount` on a 32-bit word. -/
def popcount (x : Nat) : Nat :=
  (List.range 32).countP (fun i => x.testBit i)

/-- First loop of `parse_hart_config` over the remaining characters, from the running
values of `addrid`, `hartid` and `modes`. -/
def count_pass : List Char → Nat → Nat → Nat → Except ConfigError (Nat × Nat × Nat)
  | [], addrid, hartid, modes => Except.ok (addrid, hartid, modes)
  | c :: p, addrid, hartid, modes =>
    if c = ',' then count_pass p (addrid + popcount modes) (hartid + 1) 0
    else
      match char_to_mode c with
      | Except.error e => Except.error e
      | Except.ok mode =>
        let m := 1 <<< mode_index mode
        if modes = (modes ||| m) then Except.error (ConfigError.duplicate_mode c)
        else count_pass p addrid hartid (modes ||| m)

/-- Second loop of `parse_hart_config` over the remaining characters, from the running
values of `addrid` and `hartid`: the entries stored, in order. -/
def store_pass : List Char → Nat → Nat → Except ConfigError (List PLICAddr)
  | [], _, _ => Except.ok []
  | c :: p, addrid, hartid =>
    if c = ',' then store_pass p addrid (hartid + 1)
    else
      match char_to_mode c with
      | Except.error e => Except.error e
      | Except.ok mode =>
        match store_pass p (addrid + 1) hartid with
        | Except.error e => Except.error e
        | Except.ok rest =>
          Except.ok ({ addrid := addrid, hartid := hartid, mode := mode } :: rest)

/-- Hart configuration parser: `hart_config` is the character sequence of the C string
before its terminating NUL; the result is `num_addrs` and the entries of `addr_config`. -/
def parse_hart_config (hart_config : List Char) (num_harts : Nat) :
    Except ConfigError (Nat × List PLICAddr) :=
  match count_pass hart_config 0 0 0 with
  | Except.error e => Except.error e
  | Except.ok (addrid, hartid, modes) =>
    let addrid := if modes ≠ 0 then addrid + popcount modes else addrid
    let hartid := hartid + 1
    if hartid ≠ num_harts then
      Except.error (ConfigError.hart_count_mismatch hartid num_harts)
    else
      match store_pass hart_config 0 0 with
      | Except.error e => Except.error e
      | Except.ok entries => Except.ok (addrid, entries)

/-! ## Construction (lines 486-506 and 533-558) -/

/-- The condition `stride == (stride & -stride)` asserted by `sifive_plic_create`, in
`uint32_t` arithmetic. -/
abbrev stride_assertion_holds (stride : Nat) : Prop :=
  stride = stride &&& ((2 ^ 32 - stride) % 2 ^ 32)

/-- Memory found at construction: the cells past the end of each allocated array and the
whole of `target_priority`, which is allocated without being cleared. -/
structure HeapCells where
  addr_config : Nat → PLICAddr
  source_priority : Nat → Nat
  target_priority : Nat → Nat
  pending : Nat → Nat
  claimed : Nat → Nat
  enable : Nat → Nat

/-- Device realization: parse the hart configuration, size and clear the arrays. -/
def sifive_plic_realize (heap : HeapCells) (soc : RISCVHartArrayState)
    (hart_config : List Char) (num_sources num_priorities priority_base pending_base
      enable_base enable_stride context_base context_stride : Nat) :
    Except ConfigError SiFivePLICState :=
  match parse_hart_config hart_config soc.num_harts with
  | Except.error e => Except.error e
  | Except.ok (num_addrs, entries) =>
    let bitfield_words := ((num_sources + 31) % 2 ^ 32) >>> 5
    Except.ok
      { soc := soc
        num_addrs := num_addrs
        bitfield_words := bitfield_words
        addr_config := fun k => entries.getD k (heap.addr_config k)
        source_priority := fun i => if i < num_sources then 0 else heap.source_priority i
        target_priority := heap.target_priority
        pending := fun i => if i < bitfield_words then 0 else heap.pending i
        claimed := fun i => if i < bitfield_words then 0 else heap.claimed i
        enable := fun i => if i < bitfield_words * num_addrs then 0 else heap.enable i
        num_sources := num_sources
        num_priorities := num_priorities
        priority_base := priority_base
        pending_base := pending_base
        enable_base := enable_base
        enable_stride := enable_stride
        context_base := context_base
        context_stride := context_stride }

/-- Device creation: the two stride assertions, then realization.  The bus address and
the aperture size only place the register block in the address space of the machine. -/
def sifive_plic_create (heap : HeapCells) (soc : RISCVHartArrayState)
    (hart_config : List Char) (num_sources num_priorities priority_base pending_base
      enable_base enable_stride context_base context_stride : Nat) :
    Except ConfigError SiFivePLICState :=
  if ¬ stride_assertion_holds enable_stride then
    Except.error (ConfigError.stride_assertion enable_stride)
  else if ¬ stride_assertion_holds context_stride then
    Except.error (ConfigError.stride_assertion context_stride)
  else
    sifive_plic_realize heap soc hart_config num_sources num_priorities priority_base
      pending_base enable_base enable_stride context_base context_stride

/-- Heap contents that are zero everywhere. -/
def zero_heap : HeapCells where
  addr_config := fun k => { addrid := k, hartid := 0, mode := PLICMode.U }
  source_priority := fun _ => 0
  target_priority := fun _ => 0
  pending := fun _ => 0
  claimed := fun _ => 0
  enable := fun _ => 0

/-! ## Register decoding, in the words of the specification -/

/-- The address is 4-byte aligned, misses the priority, pending and enable windows, falls
in the context window and has offset 0 in its slot: it is a threshold register. -/
abbrev decodes_to_threshold (plic : SiFivePLICState) (addr : Nat) : Prop :=
  addr &&& 0x3 = 0 ∧ ¬ in_priority_window plic addr ∧ ¬ in_pending_window plic addr ∧
    ¬ in_enable_window plic addr ∧ in_context_window plic addr ∧
    context_contextid plic addr = 0

/-! ## Test devices for the scenario and the fan-out -/

/-- The scenario device: 3 sources, one M-mode target, `num_priorities = 7`, priorities
3, 5, 5 for sources 1, 2, 3, threshold 3, sources 1-3 enabled, nothing pending.  The
priority registers of sources 1 and 2, the enable word and the threshold are written
through the register interface; the priority of source 3 sits in the cell
`source_priority[3]`, which no register of a 3-source device reaches. -/
def scenario_plic : SiFivePLICState :=
  run { demo_plic with source_priority := fun i => if i = 3 then 5 else 0 }
    [Op.write 0x4 3 4, Op.write 0x8 5 4, Op.write 0x2000 0xe 4, Op.write 0x200000 3 4]

/-- A device with 3 sources and two targets on hart 0, M-mode (threshold 1) and S-mode
(threshold 5); source 1 has priority 3 and is enabled for both. -/
def duo_plic : SiFivePLICState :=
  { demo_plic with
    num_addrs := 2
    addr_config := fun k =>
      { addrid := k, hartid := 0, mode := if k = 0 then PLICMode.M else PLICMode.S }
    source_priority := fun i => if i = 1 then 3 else 0
    target_priority := fun t => if t = 0 then 1 else 5
    enable := fun i => if i < 2 then 2 else 0 }

/-- The address is 4-byte aligned, misses the priority and pending windows, falls in the
enable window and its word index is inside the bitset: it is an enable word. -/
abbrev decodes_to_enable_word (plic : SiFivePLICState) (addr : Nat) : Prop :=
  addr &&& 0x3 = 0 ∧ ¬ in_priority_window plic addr ∧ ¬ in_pending_window plic addr ∧
    in_enable_window plic addr ∧ enable_wordid plic addr < plic.bitfield_words

/-! ## Hart configuration strings, in the words of the specification -/

/-- One of the four mode letters. -/
abbrev is_mode_letter (c : Char) : Prop :=
  c = 'U' ∨ c = 'S' ∨ c = 'H' ∨ c = 'M'

/-- A mode letter or the comma that separates harts. -/
abbrev valid_config_char (c : Char) : Prop :=
  is_mode_letter c ∨ c = ','

/-- The comma-separated groups of a configuration string, empty groups included. -/
def groups : List Char → List (List Char)
  | [] => [[]]
  | c :: p =>
    if c = ',' then [] :: groups p
    else
      match groups p with
      | g :: gs => (c :: g) :: gs
      | [] => [[c]]

/-- The characters of a configuration string that are not commas, in order. -/
def config_letters (s : List Char) : List Char :=
  s.filter (fun c => decide (c ≠ ','))

/-- The letter that names a mode. -/
def mode_letter : PLICMode → Char
  | PLICMode.U => 'U'
  | PLICMode.S => 'S'
  | PLICMode.H => 'H'
  | PLICMode.M => 'M'

/-! ## The count, in the words of the specification -/

/-- The number of source ids below `32 * bitfield_words` that are pending, unclaimed,
enabled for target `t` and of priority above the threshold of `t`. -/
def eligible_count (plic : SiFivePLICState) (t : Nat) : Nat :=
  ((List.range (32 * plic.bitfield_words)).filter
    (fun s => is_pending plic s && !is_claimed plic s && is_enabled plic t s &&
      decide (plic.source_priority s > plic.target_priority t))).length

/-- The body of the outer loop of `sifive_plic_num_irqs_pending` with the shortcut for a
zero mask taken out: all 32 bits of the word are always tested. -/
def num_irqs_word_unskipped (plic : SiFivePLICState) (addrid : Nat) (count i : Nat) : Nat :=
  let mask := pending_enabled_not_claimed plic addrid i
  (List.range 32).foldl
    (fun count j =>
      let irq := (i <<< 5) + j
      let prio := plic.source_priority irq
      let enabled := mask &&& (1 <<< j)
      if enabled ≠ 0 ∧ prio > plic.target_priority addrid then count + 1 else count)
    count

/-- The count of `sifive_plic_num_irqs_pending` computed without skipping any word. -/
def num_irqs_pending_unskipped (plic : SiFivePLICState) (addrid : Nat) : Nat :=
  (List.range plic.bitfield_words).foldl (num_irqs_word_unskipped plic addrid) 0

/-! ## Rejected accesses, in the words of the specification -/

/-- The address is not 4-byte aligned, or lies in none of the four windows, or is an
aligned address of the context window whose offset in its slot is neither 0 nor 4. -/
abbrev invalid_access (plic : SiFivePLICState) (addr : Nat) : Prop :=
  addr &&& 0x3 ≠ 0 ∨
    (¬ in_priority_window plic addr ∧ ¬ in_pending_window plic addr ∧
      ¬ in_enable_window plic addr ∧ ¬ in_context_window plic addr) ∨
    (addr &&& 0x3 = 0 ∧ ¬ in_priority_window plic addr ∧ ¬ in_pending_window plic addr ∧
      ¬ in_enable_window plic addr ∧ in_context_window plic addr ∧
      context_contextid plic addr ≠ 0 ∧ context_contextid plic addr ≠ 4)

/-- A device with 64 sources, two bitset words and one M-mode target, reached from the
all-zero state by a raise of source 1: bit 1 of `pending[0]` is set. -/
def wide_plic : SiFivePLICState :=
  (sifive_plic_raise_irq { demo_plic with num_sources := 64, bitfield_words := 2 } 1).1

/-! ## Calls that give a source back -/

/-- The call is a lower of source `s`, or a write of `s` to a complete register. -/
def releases (plic : SiFivePLICState) (s : Nat) : Op → Bool
  | Op.lower irq => decide (irq = s)
  | Op.write addr value _ =>
    decide (decodes_to_claim_complete plic addr ∧ value % 2 ^ 32 = s)
  | _ => false

/-- No call of the sequence, issued from `plic` on, is a lower or a complete of `s`. -/
def release_free (s : Nat) : SiFivePLICState → List Op → Bool
  | _, [] => true
  | plic, op :: ops => !releases plic s op && release_free s (step plic op) ops

/-- The demo device configured with `num_priorities = 3`, all arrays zero. -/
def low_plic : SiFivePLICState :=
  { demo_plic with num_priorities := 3 }

/-! ## Error reports among the effects -/

/-- The messages passed to `error_report` among the effects, in program order. -/
def error_reports : List Effect → List PlicError
  | [] => []
  | Effect.error_report e :: es => e :: error_reports es
  | Effect.irq_raise _ _ :: es => error_reports es
  | Effect.irq_lower _ _ :: es => error_reports es

/-- A device with 3 sources and two targets on hart 0, target 0 in U-mode and target 1 in
M-mode, thresholds 0; source 1 has priority 3 and is enabled for both. -/
def user_plic : SiFivePLICState :=
  { demo_plic with
    num_addrs := 2
    addr_config := fun k =>
      { addrid := k, hartid := 0, mode := if k = 0 then PLICMode.U else PLICMode.M }
    source_priority := fun i => if i = 1 then 3 else 0
    enable := fun i => if i < 2 then 2 else 0 }

/-! ## Reads of the priority array -/

/-- The indices at which the inner loop of `sifive_plic_num_irqs_pending` reads
`source_priority` (line 128), in program order: `(i << 5) + j` for every `j < 32`, for
every word `i` whose mask is not zero. -/
def num_irqs_priority_reads (plic : SiFivePLICState) (addrid : Nat) : List Nat :=
  (List.range plic.bitfield_words).foldl
    (fun reads i =>
      if pending_enabled_not_claimed plic addrid i = 0 then reads
      else reads ++ (List.range 32).map (fun j => (i <<< 5) + j))
    []

/-- Heap contents that are zero except for the cell that follows a 3-entry
`source_priority` array, which holds 5. -/
def dirty_heap : HeapCells :=
  { zero_heap with source_priority := fun i => if i = 3 then 5 else 0 }

/-! ## The decoder with checked divisions -/

/-- Division as the machine does it: no result for a zero divisor. -/
def checked_div (a b : Nat) : Option Nat :=
  if b = 0 then none else some (a / b)

/-- The register read of `sifive_plic_read` with its two divisions checked: `none` when a
division by zero is executed. -/
def sifive_plic_read_checked (plic : SiFivePLICState) (addr : Nat) (_size : Nat) :
    Option (Nat × SiFivePLICState × List Effect) :=
  let err : Nat × SiFivePLICState × List Effect :=
    (0, plic, [Effect.error_report (PlicError.invalid_register_read (addr % 2 ^ 32))])
  if addr &&& 0x3 ≠ 0 then some err
  else if in_priority_window plic addr then
    let irq := ((addr - plic.priority_base) >>> 2) % 2 ^ 32
    some (plic.source_priority irq, plic, [])
  else if in_pending_window plic addr then
    let word := (((addr + 2 ^ 64 - plic.priority_base) % 2 ^ 64) >>> 2) % 2 ^ 32
    some (plic.pending word, plic, [])
  else if in_enable_window plic addr then
    match checked_div (addr - plic.enable_base) plic.enable_stride with
    | none => none
    | some q =>
      let addrid := q % 2 ^ 32
      let wordid := enable_wordid plic addr
      if wordid < plic.bitfield_words then
        some (plic.enable (addrid * plic.bitfield_words + wordid), plic, [])
      else some err
  else if in_context_window plic addr then
    match checked_div (addr - plic.context_base) plic.context_stride with
    | none => none
    | some q =>
      let addrid := q % 2 ^ 32
      let contextid := context_contextid plic addr
      if contextid = 0 then some (plic.target_priority addrid, plic, [])
      else if contextid = 4 then
        let r := sifive_plic_claim plic addrid
        some (r.1, r.2, [])
      else some err
  else some err

/-- The register write of `sifive_plic_write` with its two divisions checked: `none` when
a division by zero is executed. -/
def sifive_plic_write_checked (plic : SiFivePLICState) (addr value : Nat) (_size : Nat) :
    Option (SiFivePLICState × List Effect) :=
  let err : SiFivePLICState × List Effect :=
    (plic, [Effect.error_report (PlicError.invalid_register_write (addr % 2 ^ 32))])
  if addr &&& 0x3 ≠ 0 then some err
  else if in_priority_window plic addr then
    let irq := ((addr - plic.priority_base) >>> 2) % 2 ^ 32
    some
      ({ plic with
          source_priority := (Function.update plic.source_priority irq (value &&& 7)) }, [])
  else if in_pending_window plic addr then
    some (plic, [Effect.error_report (PlicError.invalid_pending_write (addr % 2 ^ 32))])
  else if in_enable_window plic addr then
    match checked_div (addr - plic.enable_base) plic.enable_stride with
    | none => none
    | some q =>
      let addrid := q % 2 ^ 32
      let wordid := enable_wordid plic addr
      if wordid < plic.bitfield_words then
        some
          ({ plic with
              enable :=
                (Function.update plic.enable (addrid * plic.bitfield_words + wordid)
                  (value % 2 ^ 32)) }, [])
      else some err
  else if in_context_window plic addr then
    match checked_div (addr - plic.context_base) plic.context_stride with
    | none => none
    | some q =>
      let addrid := q % 2 ^ 32
      let contextid := context_contextid plic addr
      if contextid = 0 then
        if value ≤ plic.num_priorities then
          some
            ({ plic with
                target_priority := (Function.update plic.target_priority addrid value) }, [])
        else some (plic, [])
      else if contextid = 4 then
        if value < plic.num_sources then some (sifive_plic_lower_irq plic (value % 2 ^ 32))
        else some (plic, [])
      else some err
  else some err

/-! ## Bit-level lemmas -/

theorem testBit_clear_bits (x m i : Nat) :
    (clear_bits x m).testBit i = (x.testBit i && !m.testBit i) := by
  unfold clear_bits
  rw [Nat.testBit_xor, Nat.testBit_and]
  cases x.testBit i <;> cases m.testBit i <;> rfl

theorem and_two_pow_eq_zero_iff (x j : Nat) : x &&& 2 ^ j = 0 ↔ x.testBit j = false := by
  constructor
  · intro h
    have h1 : (x &&& 2 ^ j).testBit j = false := by rw [h]; exact Nat.zero_testBit j
    rw [Nat.testBit_and, Nat.testBit_two_pow_self] at h1
    simpa using h1
  · intro h
    apply Nat.eq_of_testBit_eq
    intro i
    rw [Nat.testBit_and, Nat.testBit_two_pow, Nat.zero_testBit]
    by_cases hij : j = i
    · subst hij; simp [h]
    · simp [hij]

theorem and_one_shiftLeft_ne_zero_iff (x j : Nat) :
    x &&& (1 <<< j) ≠ 0 ↔ x.testBit j = true := by
  rw [Nat.one_shiftLeft, Ne, and_two_pow_eq_zero_iff]
  cases x.testBit j <;> simp

theorem shiftRight_five (n : Nat) : n >>> 5 = n / 32 := by
  rw [Nat.shiftRight_eq_div_pow]

theorem and_thirty_one (n : Nat) : n &&& 31 = n % 32 :=
  Nat.and_pow_two_sub_one_eq_mod n 5

theorem shiftLeft_five (n : Nat) : n <<< 5 = 32 * n := by
  rw [Nat.shiftLeft_eq, Nat.mul_comm]

theorem testBit_mask (plic : SiFivePLICState) (t i j : Nat) :
    (pending_enabled_not_claimed plic t i).testBit j =
      ((plic.pending i).testBit j && !(plic.claimed i).testBit j &&
        (plic.enable (t * plic.bitfield_words + i)).testBit j) := by
  unfold pending_enabled_not_claimed
  rw [Nat.testBit_and, testBit_clear_bits]

/-! ## Generic loop lemmas -/

theorem findSome_singleton {β : Type} (f : Nat → Option β) (n : Nat) :
    [n].findSome? f = f n := by
  rw [List.findSome?_cons]
  cases f n <;> rfl

theorem findSome_range_eq_some {β : Type} (f : Nat → Option β) (n : Nat) (b : β) :
    (List.range n).findSome? f = some b ↔
      ∃ k, k < n ∧ f k = some b ∧ ∀ k', k' < k → f k' = none := by
  induction n with
  | zero => simp
  | succ n ih =>
    rw [List.range_succ, List.findSome?_append, Option.or_eq_some, findSome_singleton, ih,
      List.findSome?_eq_none_iff]
    constructor
    · rintro (⟨k, hk, hfk, hmin⟩ | ⟨hnone, hn⟩)
      · exact ⟨k, by omega, hfk, hmin⟩
      · exact ⟨n, by omega, hn, fun k' hk' => hnone k' (List.mem_range.mpr hk')⟩
    · rintro ⟨k, hk, hfk, hmin⟩
      by_cases hkn : k < n
      · exact Or.inl ⟨k, hkn, hfk, hmin⟩
      · have hkeq : k = n := by omega
        subst hkeq
        exact Or.inr ⟨fun x hx => hmin x (List.mem_range.mp hx), hfk⟩

theorem findSome_range_eq_none {β : Type} (f : Nat → Option β) (n : Nat) :
    (List.range n).findSome? f = none ↔ ∀ k, k < n → f k = none := by
  rw [List.findSome?_eq_none_iff]
  constructor
  · intro h k hk
    exact h k (List.mem_range.mpr hk)
  · intro h k hk
    exact h k (List.mem_range.mp hk)

theorem foldl_count_range (p : Nat → Prop) [DecidablePred p] (n c : Nat) :
    (List.range n).foldl (fun count j => if p j then count + 1 else count) c =
      c + (List.range n).countP (fun j => decide (p j)) := by
  induction n with
  | zero => simp
  | succ n ih =>
    rw [List.range_succ, List.foldl_append, ih, List.countP_append]
    by_cases hp : p n
    · simp [hp, List.countP_cons]
      omega
    · simp [hp, List.countP_cons]

/-! ## Source ids and word/bit positions -/

theorem source_div (i j : Nat) (hj : j < 32) : ((i <<< 5) + j) / 32 = i := by
  rw [shiftLeft_five]; omega

theorem source_mod (i j : Nat) (hj : j < 32) : ((i <<< 5) + j) % 32 = j := by
  rw [shiftLeft_five]; omega

theorem source_split (s : Nat) : ((s / 32) <<< 5) + s % 32 = s := by
  rw [shiftLeft_five]; omega

theorem claimable_eq_mask (plic : SiFivePLICState) (t s : Nat) :
    claimable plic t s =
      ((pending_enabled_not_claimed plic t (s / 32)).testBit (s % 32) &&
        decide (plic.source_priority s ≥ plic.target_priority t)) := by
  rw [testBit_mask]; rfl

theorem eligible_eq_mask (plic : SiFivePLICState) (t s : Nat) :
    eligible plic t s =
      ((pending_enabled_not_claimed plic t (s / 32)).testBit (s % 32) &&
        decide (plic.source_priority s > plic.target_priority t)) := by
  rw [testBit_mask]; rfl

/-! ## The claim scan finds the least claimable source -/

theorem claim_cond_iff (plic : SiFivePLICState) (t i j : Nat) (hj : j < 32) :
    (pending_enabled_not_claimed plic t i &&& (1 <<< j) ≠ 0 ∧
        plic.source_priority ((i <<< 5) + j) ≥ plic.target_priority t) ↔
      claimable plic t ((i <<< 5) + j) = true := by
  rw [claimable_eq_mask, source_div i j hj, source_mod i j hj, and_one_shiftLeft_ne_zero_iff]
  simp

theorem eligible_cond_iff (plic : SiFivePLICState) (t i j : Nat) (hj : j < 32) :
    (pending_enabled_not_claimed plic t i &&& (1 <<< j) ≠ 0 ∧
        plic.source_priority ((i <<< 5) + j) > plic.target_priority t) ↔
      eligible plic t ((i <<< 5) + j) = true := by
  rw [eligible_eq_mask, source_div i j hj, source_mod i j hj, and_one_shiftLeft_ne_zero_iff]
  simp

theorem claimable_false_of_mask_zero (plic : SiFivePLICState) (t i j : Nat) (hj : j < 32)
    (h : pending_enabled_not_claimed plic t i = 0) :
    claimable plic t ((i <<< 5) + j) = false := by
  rw [claimable_eq_mask, source_div i j hj, h, Nat.zero_testBit]
  rfl

theorem eligible_false_of_mask_zero (plic : SiFivePLICState) (t i j : Nat) (hj : j < 32)
    (h : pending_enabled_not_claimed plic t i = 0) :
    eligible plic t ((i <<< 5) + j) = false := by
  rw [eligible_eq_mask, source_div i j hj, h, Nat.zero_testBit]
  rfl

theorem claim_word_eq_some (plic : SiFivePLICState) (t i irq : Nat) :
    claim_word plic t i = some irq ↔
      ∃ j, j < 32 ∧ irq = (i <<< 5) + j ∧ claimable plic t ((i <<< 5) + j) = true ∧
        ∀ j', j' < j → claimable plic t ((i <<< 5) + j') = false := by
  unfold claim_word
  by_cases hmask : pending_enabled_not_claimed plic t i = 0
  · simp only [hmask, if_true]
    constructor
    · intro h; cases h
    · rintro ⟨j, hj, -, hc, -⟩
      rw [claimable_false_of_mask_zero plic t i j hj hmask] at hc
      cases hc
  · simp only [hmask, if_false]
    rw [findSome_range_eq_some]
    constructor
    · rintro ⟨j, hj, hf, hmin⟩
      have hcj : pending_enabled_not_claimed plic t i &&& (1 <<< j) ≠ 0 ∧
          plic.source_priority ((i <<< 5) + j) ≥ plic.target_priority t := by
        by_contra hc
        rw [if_neg hc] at hf
        cases hf
      rw [if_pos hcj] at hf
      refine ⟨j, hj, (Option.some.inj hf).symm, (claim_cond_iff plic t i j hj).mp hcj, ?_⟩
      intro j' hj'
      have hf' := hmin j' hj'
      cases hcl : claimable plic t ((i <<< 5) + j') with
      | false => rfl
      | true =>
        rw [if_pos ((claim_cond_iff plic t i j' (by omega)).mpr hcl)] at hf'
        cases hf'
    · rintro ⟨j, hj, hirq, hc, hmin⟩
      refine ⟨j, hj, ?_, ?_⟩
      · rw [if_pos ((claim_cond_iff plic t i j hj).mpr hc), hirq]
      · intro j' hj'
        have hc' := hmin j' hj'
        have hn : ¬ (pending_enabled_not_claimed plic t i &&& (1 <<< j') ≠ 0 ∧
            plic.source_priority ((i <<< 5) + j') ≥ plic.target_priority t) := by
          intro h
          rw [(claim_cond_iff plic t i j' (by omega)).mp h] at hc'
          cases hc'
        rw [if_neg hn]

theorem claim_word_eq_none (plic : SiFivePLICState) (t i : Nat) :
    claim_word plic t i = none ↔
      ∀ j, j < 32 → claimable plic t ((i <<< 5) + j) = false := by
  constructor
  · intro h j hj
    cases hc : claimable plic t ((i <<< 5) + j) with
    | false => rfl
    | true =>
      exfalso
      have hex : ∃ j, j < 32 ∧ claimable plic t ((i <<< 5) + j) = true := ⟨j, hj, hc⟩
      classical
      let j0 := Nat.find hex
      have hj0 := Nat.find_spec hex
      have hsome : claim_word plic t i = some ((i <<< 5) + j0) := by
        rw [claim_word_eq_some]
        refine ⟨j0, hj0.1, rfl, hj0.2, ?_⟩
        intro j' hj'
        have := Nat.find_min hex hj'
        cases hc' : claimable plic t ((i <<< 5) + j') with
        | false => rfl
        | true => exact absurd ⟨by omega, hc'⟩ this
      rw [h] at hsome
      cases hsome
  · intro h
    cases hw : claim_word plic t i with
    | none => rfl
    | some irq =>
      obtain ⟨j, hj, -, hc, -⟩ := (claim_word_eq_some plic t i irq).mp hw
      rw [h j hj] at hc
      cases hc

theorem claim_scan_eq_some (plic : SiFivePLICState) (t irq : Nat) :
    (List.range plic.bitfield_words).findSome? (claim_word plic t) = some irq ↔
      irq < 32 * plic.bitfield_words ∧ claimable plic t irq = true ∧
        ∀ s, s < irq → claimable plic t s = false := by
  rw [findSome_range_eq_some]
  constructor
  · rintro ⟨i, hi, hw, hprev⟩
    obtain ⟨j, hj, hirq, hc, hmin⟩ := (claim_word_eq_some plic t i irq).mp hw
    have hirq' : irq = 32 * i + j := by rw [hirq, shiftLeft_five]
    refine ⟨by omega, by rw [hirq]; exact hc, ?_⟩
    intro s hs
    rw [← source_split s]
    by_cases hsi : s / 32 < i
    · exact (claim_word_eq_none plic t (s / 32)).mp (hprev _ hsi) (s % 32) (Nat.mod_lt _ (by norm_num))
    · have hsi' : s / 32 = i := by omega
      rw [hsi']
      exact hmin (s % 32) (by omega)
  · rintro ⟨hlt, hc, hmin⟩
    refine ⟨irq / 32, by omega, ?_, ?_⟩
    · rw [claim_word_eq_some]
      refine ⟨irq % 32, Nat.mod_lt _ (by norm_num), (source_split irq).symm, ?_, ?_⟩
      · rw [source_split]; exact hc
      · intro j' hj'
        apply hmin
        rw [shiftLeft_five]; omega
    · intro i' hi'
      rw [claim_word_eq_none]
      intro j hj
      apply hmin
      rw [shiftLeft_five]; omega

theorem claim_scan_eq_none (plic : SiFivePLICState) (t : Nat) :
    (List.range plic.bitfield_words).findSome? (claim_word plic t) = none ↔
      ∀ s, s < 32 * plic.bitfield_words → claimable plic t s = false := by
  rw [findSome_range_eq_none]
  constructor
  · intro h s hs
    rw [← source_split s]
    exact (claim_word_eq_none plic t (s / 32)).mp (h _ (by omega)) (s % 32)
      (Nat.mod_lt _ (by norm_num))
  · intro h i hi
    rw [claim_word_eq_none]
    intro j hj
    apply h
    rw [shiftLeft_five]; omega

/-! ## Effect of the bitset accessors on the per-source view -/

theorem source_eq_iff (s irq : Nat) : s = irq ↔ s / 32 = irq / 32 ∧ s % 32 = irq % 32 := by
  omega

theorem testBit_set_bit (w k j : Nat) :
    (w ||| (1 <<< k)).testBit j = (w.testBit j || decide (k = j)) := by
  rw [Nat.testBit_or, Nat.one_shiftLeft, Nat.testBit_two_pow]

theorem testBit_clear_bit (w k j : Nat) :
    (clear_bits w (1 <<< k)).testBit j = (w.testBit j && !decide (k = j)) := by
  rw [testBit_clear_bits, Nat.one_shiftLeft, Nat.testBit_two_pow]

theorem is_pending_set_pending (plic : SiFivePLICState) (irq s : Nat) (b : Bool) :
    is_pending (sifive_plic_set_pending plic irq b) s =
      if s = irq then b else is_pending plic s := by
  unfold is_pending sifive_plic_set_pending
  simp only [shiftRight_five, and_thirty_one]
  cases b
  · simp only [Bool.false_eq_true, if_false, Function.update_apply]
    by_cases hw : s / 32 = irq / 32
    · rw [if_pos hw, testBit_clear_bit, hw]
      by_cases hb : irq % 32 = s % 32
      · have : s = irq := by omega
        simp [hb, this]
      · have : s ≠ irq := by omega
        simp [hb, this]
    · have : s ≠ irq := by omega
      rw [if_neg hw, if_neg this]
  · simp only [if_true, Function.update_apply]
    by_cases hw : s / 32 = irq / 32
    · rw [if_pos hw, testBit_set_bit, hw]
      by_cases hb : irq % 32 = s % 32
      · have : s = irq := by omega
        simp [hb, this]
      · have : s ≠ irq := by omega
        simp [hb, this]
    · have : s ≠ irq := by omega
      rw [if_neg hw, if_neg this]

theorem is_claimed_set_claimed (plic : SiFivePLICState) (irq s : Nat) (b : Bool) :
    is_claimed (sifive_plic_set_claimed plic irq b) s =
      if s = irq then b else is_claimed plic s := by
  unfold is_claimed sifive_plic_set_claimed
  simp only [shiftRight_five, and_thirty_one]
  cases b
  · simp only [Bool.false_eq_true, if_false, Function.update_apply]
    by_cases hw : s / 32 = irq / 32
    · rw [if_pos hw, testBit_clear_bit, hw]
      by_cases hb : irq % 32 = s % 32
      · have : s = irq := by omega
        simp [hb, this]
      · have : s ≠ irq := by omega
        simp [hb, this]
    · have : s ≠ irq := by omega
      rw [if_neg hw, if_neg this]
  · simp only [if_true, Function.update_apply]
    by_cases hw : s / 32 = irq / 32
    · rw [if_pos hw, testBit_set_bit, hw]
      by_cases hb : irq % 32 = s % 32
      · have : s = irq := by omega
        simp [hb, this]
      · have : s ≠ irq := by omega
        simp [hb, this]
    · have : s ≠ irq := by omega
      rw [if_neg hw, if_neg this]

theorem set_pending_frame (plic : SiFivePLICState) (irq : Nat) (b : Bool) :
    sifive_plic_set_pending plic irq b =
      { plic with pending := (sifive_plic_set_pending plic irq b).pending } := by
  unfold sifive_plic_set_pending
  cases b <;> rfl

theorem set_claimed_frame (plic : SiFivePLICState) (irq : Nat) (b : Bool) :
    sifive_plic_set_claimed plic irq b =
      { plic with claimed := (sifive_plic_set_claimed plic irq b).claimed } := by
  unfold sifive_plic_set_claimed
  cases b <;> rfl

theorem set_pending_word_ne (plic : SiFivePLICState) (irq w : Nat) (b : Bool)
    (hw : w ≠ irq / 32) : (sifive_plic_set_pending plic irq b).pending w = plic.pending w := by
  unfold sifive_plic_set_pending
  simp only [shiftRight_five]
  cases b <;> simp [Function.update_apply, hw]

theorem set_claimed_word_ne (plic : SiFivePLICState) (irq w : Nat) (b : Bool)
    (hw : w ≠ irq / 32) : (sifive_plic_set_claimed plic irq b).claimed w = plic.claimed w := by
  unfold sifive_plic_set_claimed
  simp only [shiftRight_five]
  cases b <;> simp [Function.update_apply, hw]

/-! ## The claim operation -/

theorem claim_of_scan_some (plic : SiFivePLICState) (t irq : Nat)
    (h : (List.range plic.bitfield_words).findSome? (claim_word plic t) = some irq) :
    sifive_plic_claim plic t =
      (irq, sifive_plic_set_claimed (sifive_plic_set_pending plic irq false) irq true) := by
  unfold sifive_plic_claim
  rw [h]

theorem claim_of_scan_none (plic : SiFivePLICState) (t : Nat)
    (h : (List.range plic.bitfield_words).findSome? (claim_word plic t) = none) :
    sifive_plic_claim plic t = (0, plic) := by
  unfold sifive_plic_claim
  rw [h]

theorem claim_eq_of_least (plic : SiFivePLICState) (t s : Nat)
    (hs : s < 32 * plic.bitfield_words) (hc : claimable plic t s = true)
    (hmin : ∀ s', s' < s → claimable plic t s' = false) :
    sifive_plic_claim plic t =
      (s, sifive_plic_set_claimed (sifive_plic_set_pending plic s false) s true) :=
  claim_of_scan_some plic t s ((claim_scan_eq_some plic t s).mpr ⟨hs, hc, hmin⟩)

theorem claim_eq_of_none (plic : SiFivePLICState) (t : Nat)
    (h : ∀ s, s < 32 * plic.bitfield_words → claimable plic t s = false) :
    sifive_plic_claim plic t = (0, plic) :=
  claim_of_scan_none plic t ((claim_scan_eq_none plic t).mpr h)

/-- The result of a claim is either a found source with the bitsets updated, or 0 with
the state untouched. -/
theorem claim_cases (plic : SiFivePLICState) (t : Nat) :
    (∃ irq, irq < 32 * plic.bitfield_words ∧ claimable plic t irq = true ∧
        (∀ s, s < irq → claimable plic t s = false) ∧
        sifive_plic_claim plic t =
          (irq, sifive_plic_set_claimed (sifive_plic_set_pending plic irq false) irq true)) ∨
      ((∀ s, s < 32 * plic.bitfield_words → claimable plic t s = false) ∧
        sifive_plic_claim plic t = (0, plic)) := by
  cases h : (List.range plic.bitfield_words).findSome? (claim_word plic t) with
  | some irq =>
    obtain ⟨h1, h2, h3⟩ := (claim_scan_eq_some plic t irq).mp h
    exact Or.inl ⟨irq, h1, h2, h3, claim_of_scan_some plic t irq h⟩
  | none =>
    exact Or.inr ⟨(claim_scan_eq_none plic t).mp h, claim_of_scan_none plic t h⟩

theorem claimable_zero_of_not_pending (plic : SiFivePLICState) (t : Nat)
    (h : is_pending plic 0 = false) : claimable plic t 0 = false := by
  unfold claimable
  rw [h]
  rfl

theorem claim_result_state (plic : SiFivePLICState) (t : Nat)
    (h : (sifive_plic_claim plic t).1 ≠ 0) :
    (sifive_plic_claim plic t).2 =
      sifive_plic_set_claimed
        (sifive_plic_set_pending plic (sifive_plic_claim plic t).1 false)
        (sifive_plic_claim plic t).1 true := by
  rcases claim_cases plic t with ⟨irq, _, _, _, heq⟩ | ⟨_, heq⟩
  · rw [heq]
  · rw [heq] at h
    exact absurd rfl h

/-- C2: when `sifive_plic_claim` returns `s != 0`, the new state has the pending bit of `s`
cleared and its claimed bit set, every other pending and claimed bit and every other
bitset word as before, and all remaining fields (priorities, enables, thresholds, the
harts' `mip`, the configuration) unchanged; when it returns 0 and pending bit 0 is clear,
the state is unchanged. -/
theorem claim_frame (plic : SiFivePLICState) (t : Nat) :
    ((sifive_plic_claim plic t).1 ≠ 0 →
        is_pending (sifive_plic_claim plic t).2 (sifive_plic_claim plic t).1 = false ∧
        is_claimed (sifive_plic_claim plic t).2 (sifive_plic_claim plic t).1 = true ∧
        (∀ s', s' ≠ (sifive_plic_claim plic t).1 →
          is_pending (sifive_plic_claim plic t).2 s' = is_pending plic s' ∧
          is_claimed (sifive_plic_claim plic t).2 s' = is_claimed plic s') ∧
        (∀ w, w ≠ (sifive_plic_claim plic t).1 / 32 →
          (sifive_plic_claim plic t).2.pending w = plic.pending w ∧
          (sifive_plic_claim plic t).2.claimed w = plic.claimed w) ∧
        (sifive_plic_claim plic t).2 =
          { plic with
            pending := (sifive_plic_claim plic t).2.pending
            claimed := (sifive_plic_claim plic t).2.claimed }) ∧
      ((sifive_plic_claim plic t).1 = 0 → is_pending plic 0 = false →
        (sifive_plic_claim plic t).2 = plic) := by
  constructor
  · intro hne
    have hst := claim_result_state plic t hne
    generalize (sifive_plic_claim plic t).1 = s at hst ⊢
    generalize (sifive_plic_claim plic t).2 = st at hst ⊢
    subst hst
    refine ⟨?_, ?_, ?_, ?_, ?_⟩
    · rw [set_claimed_frame]
      show is_pending (sifive_plic_set_pending plic s false) s = false
      rw [is_pending_set_pending, if_pos rfl]
    · rw [is_claimed_set_claimed, if_pos rfl]
    · intro s' hs'
      constructor
      · rw [set_claimed_frame]
        show is_pending (sifive_plic_set_pending plic s false) s' = _
        rw [is_pending_set_pending, if_neg hs']
      · rw [is_claimed_set_claimed, if_neg hs', set_pending_frame]
        rfl
    · intro w hw
      constructor
      · rw [set_claimed_frame]
        show (sifive_plic_set_pending plic s false).pending w = _
        exact set_pending_word_ne plic s w false hw
      · rw [set_claimed_word_ne _ s w true hw, set_pending_frame]
    · rw [set_claimed_frame, set_pending_frame]
  · intro h0 hp0
    rcases claim_cases plic t with ⟨irq, _, hc, _, heq⟩ | ⟨_, heq⟩
    · rw [heq] at h0
      dsimp only at h0
      subst h0
      rw [claimable_zero_of_not_pending plic t hp0] at hc
      cases hc
    · rw [heq]

/-- Witness for C2: on the tie device the claim returns source 1 and flips exactly its
two bits; on the idle demo device it returns 0 and changes nothing. -/
theorem claim_frame_witness :
    ((sifive_plic_claim tie_plic 0).1 ≠ 0 ∧
        is_pending (sifive_plic_claim tie_plic 0).2 (sifive_plic_claim tie_plic 0).1 = false ∧
        is_claimed (sifive_plic_claim tie_plic 0).2 (sifive_plic_claim tie_plic 0).1 = true) ∧
      ((sifive_plic_claim demo_plic 0).1 = 0 ∧ is_pending demo_plic 0 = false ∧
        (sifive_plic_claim demo_plic 0).2 = demo_plic) :=
  ⟨⟨by decide, ((claim_frame tie_plic 0).1 (by decide)).1,
      ((claim_frame tie_plic 0).1 (by decide)).2.1⟩,
    by decide, by decide, (claim_frame demo_plic 0).2 (by decide) (by decide)⟩

/-! ## The word-grouped count is the number of eligible sources -/

theorem num_irqs_word_eq (plic : SiFivePLICState) (t c i : Nat) :
    num_irqs_word plic t c i =
      c + (List.range 32).countP (fun j => eligible plic t ((i <<< 5) + j)) := by
  unfold num_irqs_word
  by_cases hmask : pending_enabled_not_claimed plic t i = 0
  · simp only [hmask, if_true]
    have hz : (List.range 32).countP (fun j => eligible plic t ((i <<< 5) + j)) = 0 := by
      rw [List.countP_eq_zero]
      intro j hj
      rw [eligible_false_of_mask_zero plic t i j (List.mem_range.mp hj) hmask]
      simp
    rw [hz]
    rfl
  · simp only [hmask, if_false]
    rw [foldl_count_range
      (fun j => pending_enabled_not_claimed plic t i &&& (1 <<< j) ≠ 0 ∧
        plic.source_priority ((i <<< 5) + j) > plic.target_priority t)]
    congr 1
    apply List.countP_congr
    intro j hj
    have := eligible_cond_iff plic t i j (List.mem_range.mp hj)
    simp only [decide_eq_true_eq]
    exact this

theorem countP_range_block (p : Nat → Bool) (n : Nat) :
    (List.range (32 * (n + 1))).countP p =
      (List.range (32 * n)).countP p +
        (List.range 32).countP (fun j => p ((n <<< 5) + j)) := by
  have h : 32 * (n + 1) = 32 * n + 32 := by ring
  rw [h, List.range_add, List.countP_append, List.countP_map]
  congr 1
  apply List.countP_congr
  intro j _
  simp only [Function.comp, shiftLeft_five]

theorem num_irqs_fold_eq (plic : SiFivePLICState) (t n c : Nat) :
    (List.range n).foldl (num_irqs_word plic t) c =
      c + (List.range (32 * n)).countP (eligible plic t) := by
  induction n generalizing c with
  | zero => simp
  | succ n ih =>
    rw [List.range_succ, List.foldl_append, ih, List.foldl_cons, List.foldl_nil,
      num_irqs_word_eq, countP_range_block]
    omega

theorem num_irqs_pending_eq (plic : SiFivePLICState) (t : Nat) :
    sifive_plic_num_irqs_pending plic t =
      (List.range (32 * plic.bitfield_words)).countP (eligible plic t) := by
  unfold sifive_plic_num_irqs_pending
  rw [num_irqs_fold_eq, Nat.zero_add]

theorem num_irqs_pending_eq_zero (plic : SiFivePLICState) (t : Nat) :
    sifive_plic_num_irqs_pending plic t = 0 ↔
      ∀ s, s < 32 * plic.bitfield_words → eligible plic t s = false := by
  rw [num_irqs_pending_eq, List.countP_eq_zero]
  constructor
  · intro h s hs
    have := h s (List.mem_range.mpr hs)
    simpa using this
  · intro h s hs
    rw [h s (List.mem_range.mp hs)]
    simp

/-! ## The target loops of raise and lower -/

theorem one_shiftLeft_inj (a b : Nat) : (1 <<< a = 1 <<< b) ↔ a = b := by
  rw [Nat.one_shiftLeft, Nat.one_shiftLeft]
  constructor
  · intro h
    exact Nat.pow_right_injective (le_refl 2) h
  · intro h
    rw [h]

theorem one_shiftLeft_ne_zero (b : Nat) : (0 : Nat) ≠ 1 <<< b := by
  rw [Nat.one_shiftLeft]
  exact (Nat.pos_iff_ne_zero.mp (Nat.pow_pos (by norm_num))).symm

theorem and_one_shiftLeft_eq_zero_iff (x j : Nat) :
    x &&& (1 <<< j) = 0 ↔ x.testBit j = false := by
  rw [Nat.one_shiftLeft, and_two_pow_eq_zero_iff]

theorem mode_mask_eq_iff (mode : PLICMode) (b : Nat) :
    mode_mask mode = 1 <<< b ↔
      (mode = PLICMode.M ∧ b = 11) ∨ (mode = PLICMode.S ∧ b = 9) := by
  cases mode
  · show (0 = 1 <<< b) ↔ _
    constructor
    · intro h; exact absurd h (one_shiftLeft_ne_zero b)
    · rintro (⟨h, _⟩ | ⟨h, _⟩) <;> cases h
  · show (1 <<< 9 = 1 <<< b) ↔ _
    rw [one_shiftLeft_inj]
    constructor
    · intro h; exact Or.inr ⟨rfl, h.symm⟩
    · rintro (⟨h, _⟩ | ⟨_, h⟩)
      · cases h
      · exact h.symm
  · show (0 = 1 <<< b) ↔ _
    constructor
    · intro h; exact absurd h (one_shiftLeft_ne_zero b)
    · rintro (⟨h, _⟩ | ⟨h, _⟩) <;> cases h
  · show (1 <<< 11 = 1 <<< b) ↔ _
    rw [one_shiftLeft_inj]
    constructor
    · intro h; exact Or.inl ⟨rfl, h.symm⟩
    · rintro (⟨_, h⟩ | ⟨h, _⟩)
      · exact h.symm
      · cases h

/-- The raise loop body, written over the `mip` map alone. -/
theorem raise_target_unfold (p : SiFivePLICState) (m : Nat → Nat) (e : List Effect) (t : Nat) :
    raise_target (with_mip p m, e) t =
      if sifive_plic_num_irqs_pending p t = 0 then (with_mip p m, e)
      else
        match (p.addr_config t).mode with
        | PLICMode.M =>
          if m (p.addr_config t).hartid &&& MIP_MEIP = 0 then
            (with_mip p (Function.update m (p.addr_config t).hartid
                (m (p.addr_config t).hartid ||| MIP_MEIP)),
              e ++ [Effect.irq_raise (p.addr_config t).hartid PLICMode.M])
          else (with_mip p m, e)
        | PLICMode.S =>
          if m (p.addr_config t).hartid &&& MIP_SEIP = 0 then
            (with_mip p (Function.update m (p.addr_config t).hartid
                (m (p.addr_config t).hartid ||| MIP_SEIP)),
              e ++ [Effect.irq_raise (p.addr_config t).hartid PLICMode.S])
          else (with_mip p m, e)
        | _ =>
          (with_mip p m,
            e ++ [Effect.error_report (PlicError.invalid_mode (p.addr_config t).mode)]) :=
  rfl

/-- The lower loop body, written over the `mip` map alone. -/
theorem lower_target_unfold (p : SiFivePLICState) (m : Nat → Nat) (e : List Effect) (t : Nat) :
    lower_target (with_mip p m, e) t =
      if sifive_plic_num_irqs_pending p t > 0 then (with_mip p m, e)
      else
        match (p.addr_config t).mode with
        | PLICMode.M =>
          if m (p.addr_config t).hartid &&& MIP_MEIP ≠ 0 then
            (with_mip p (Function.update m (p.addr_config t).hartid
                (clear_bits (m (p.addr_config t).hartid) MIP_MEIP)),
              e ++ [Effect.irq_lower (p.addr_config t).hartid PLICMode.M])
          else (with_mip p m, e)
        | PLICMode.S =>
          if m (p.addr_config t).hartid &&& MIP_SEIP ≠ 0 then
            (with_mip p (Function.update m (p.addr_config t).hartid
                (clear_bits (m (p.addr_config t).hartid) MIP_SEIP)),
              e ++ [Effect.irq_lower (p.addr_config t).hartid PLICMode.S])
          else (with_mip p m, e)
        | _ =>
          (with_mip p m,
            e ++ [Effect.error_report (PlicError.invalid_mode (p.addr_config t).mode)]) :=
  rfl

theorem testBit_update_set (m : Nat → Nat) (hart k h b : Nat) :
    ((Function.update m hart (m hart ||| (1 <<< k))) h).testBit b = true ↔
      (m h).testBit b = true ∨ (hart = h ∧ b = k) := by
  rw [Function.update_apply]
  by_cases hh : h = hart
  · subst hh
    rw [if_pos rfl, testBit_set_bit]
    by_cases hb : k = b
    · subst hb; simp
    · have : ¬ (b = k) := fun h => hb h.symm
      simp [hb, this]
  · have : ¬ (hart = h) := fun h' => hh h'.symm
    rw [if_neg hh]
    simp [this]

theorem testBit_update_clear (m : Nat → Nat) (hart k h b : Nat) :
    ((Function.update m hart (clear_bits (m hart) (1 <<< k))) h).testBit b = true ↔
      (m h).testBit b = true ∧ ¬ (hart = h ∧ b = k) := by
  rw [Function.update_apply]
  by_cases hh : h = hart
  · subst hh
    rw [if_pos rfl, testBit_clear_bit]
    by_cases hb : k = b
    · subst hb; simp
    · have : ¬ (b = k) := fun h => hb h.symm
      simp [hb, this]
  · have : ¬ (hart = h) := fun h' => hh h'.symm
    rw [if_neg hh]
    simp [this]

/-- One iteration of the raise loop changes only `mip`, and sets exactly the line bit of
the target when the target has work. -/
theorem raise_target_spec (p : SiFivePLICState) (m : Nat → Nat) (e : List Effect) (t : Nat) :
    ∃ m' e', raise_target (with_mip p m, e) t = (with_mip p m', e') ∧
      ∀ h b, (m' h).testBit b = true ↔
        (m h).testBit b = true ∨
          (sifive_plic_num_irqs_pending p t ≠ 0 ∧ target_hart p t = h ∧
            mode_mask (target_mode p t) = 1 <<< b) := by
  rw [raise_target_unfold]
  by_cases hc : sifive_plic_num_irqs_pending p t = 0
  · rw [if_pos hc]
    exact ⟨m, e, rfl, fun h b => by simp [hc]⟩
  · rw [if_neg hc]
    simp only [target_mode, target_hart, mode_mask_eq_iff]
    cases hmode : (p.addr_config t).mode with
    | U => exact ⟨m, _, rfl, fun h b => by simp⟩
    | H => exact ⟨m, _, rfl, fun h b => by simp⟩
    | M =>
      by_cases hbit : m (p.addr_config t).hartid &&& MIP_MEIP = 0
      · simp only [if_pos hbit]
        refine ⟨_, _, rfl, fun h b => ?_⟩
        rw [MIP_MEIP, testBit_update_set]
        simp [hc]
      · simp only [if_neg hbit]
        refine ⟨m, e, rfl, fun h b => ?_⟩
        constructor
        · intro hb; exact Or.inl hb
        · rintro (hb | ⟨_, hh, (⟨_, hb⟩ | ⟨hS, _⟩)⟩)
          · exact hb
          · subst hh; subst hb
            have := (and_one_shiftLeft_eq_zero_iff (m (p.addr_config t).hartid) 11).not.mp hbit
            simpa using this
          · cases hS
    | S =>
      by_cases hbit : m (p.addr_config t).hartid &&& MIP_SEIP = 0
      · simp only [if_pos hbit]
        refine ⟨_, _, rfl, fun h b => ?_⟩
        rw [MIP_SEIP, testBit_update_set]
        simp [hc]
      · simp only [if_neg hbit]
        refine ⟨m, e, rfl, fun h b => ?_⟩
        constructor
        · intro hb; exact Or.inl hb
        · rintro (hb | ⟨_, hh, (⟨hM, _⟩ | ⟨_, hb⟩)⟩)
          · exact hb
          · cases hM
          · subst hh; subst hb
            have := (and_one_shiftLeft_eq_zero_iff (m (p.addr_config t).hartid) 9).not.mp hbit
            simpa using this

/-- One iteration of the lower loop changes only `mip`, and clears exactly the line bit of
the target when the target has no work. -/
theorem lower_target_spec (p : SiFivePLICState) (m : Nat → Nat) (e : List Effect) (t : Nat) :
    ∃ m' e', lower_target (with_mip p m, e) t = (with_mip p m', e') ∧
      ∀ h b, (m' h).testBit b = true ↔
        (m h).testBit b = true ∧
          ¬ (sifive_plic_num_irqs_pending p t = 0 ∧ target_hart p t = h ∧
            mode_mask (target_mode p t) = 1 <<< b) := by
  rw [lower_target_unfold]
  by_cases hc : sifive_plic_num_irqs_pending p t > 0
  · rw [if_pos hc]
    have hc0 : sifive_plic_num_irqs_pending p t ≠ 0 := by omega
    exact ⟨m, e, rfl, fun h b => by simp [hc0]⟩
  · rw [if_neg hc]
    have hc0 : sifive_plic_num_irqs_pending p t = 0 := by omega
    simp only [target_mode, target_hart, mode_mask_eq_iff]
    cases hmode : (p.addr_config t).mode with
    | U => exact ⟨m, _, rfl, fun h b => by simp⟩
    | H => exact ⟨m, _, rfl, fun h b => by simp⟩
    | M =>
      by_cases hbit : m (p.addr_config t).hartid &&& MIP_MEIP ≠ 0
      · simp only [if_pos hbit]
        refine ⟨_, _, rfl, fun h b => ?_⟩
        rw [MIP_MEIP, testBit_update_clear]
        simp [hc0]
      · simp only [if_neg hbit]
        refine ⟨m, e, rfl, fun h b => ?_⟩
        constructor
        · intro hb
          refine ⟨hb, ?_⟩
          rintro ⟨_, hh, (⟨_, hb'⟩ | ⟨hS, _⟩)⟩
          · subst hh; subst hb'
            have := (and_one_shiftLeft_eq_zero_iff (m (p.addr_config t).hartid) 11).mp
              (not_not.mp hbit)
            rw [this] at hb
            cases hb
          · cases hS
        · intro hb; exact hb.1
    | S =>
      by_cases hbit : m (p.addr_config t).hartid &&& MIP_SEIP ≠ 0
      · simp only [if_pos hbit]
        refine ⟨_, _, rfl, fun h b => ?_⟩
        rw [MIP_SEIP, testBit_update_clear]
        simp [hc0]
      · simp only [if_neg hbit]
        refine ⟨m, e, rfl, fun h b => ?_⟩
        constructor
        · intro hb
          refine ⟨hb, ?_⟩
          rintro ⟨_, hh, (⟨hM, _⟩ | ⟨_, hb'⟩)⟩
          · cases hM
          · subst hh; subst hb'
            have := (and_one_shiftLeft_eq_zero_iff (m (p.addr_config t).hartid) 9).mp
              (not_not.mp hbit)
            rw [this] at hb
            cases hb
        · intro hb; exact hb.1

/-- The raise loop over a list of targets changes only `mip`: a bit is set afterwards iff it
was set before or it is the line bit of a listed target that has work. -/
theorem raise_fold_spec (p : SiFivePLICState) (L : List Nat) (m : Nat → Nat)
    (e : List Effect) :
    ∃ m' e', L.foldl raise_target (with_mip p m, e) = (with_mip p m', e') ∧
      ∀ h b, (m' h).testBit b = true ↔
        (m h).testBit b = true ∨
          ∃ t, t ∈ L ∧ sifive_plic_num_irqs_pending p t ≠ 0 ∧ target_hart p t = h ∧
            mode_mask (target_mode p t) = 1 <<< b := by
  induction L generalizing m e with
  | nil => exact ⟨m, e, rfl, fun h b => by simp⟩
  | cons t L ih =>
    obtain ⟨m1, e1, hstep, hbits1⟩ := raise_target_spec p m e t
    obtain ⟨m2, e2, hfold, hbits2⟩ := ih m1 e1
    refine ⟨m2, e2, ?_, fun h b => ?_⟩
    · rw [List.foldl_cons, hstep, hfold]
    · rw [hbits2, hbits1]
      constructor
      · rintro ((hb | hnew) | ⟨t', ht', hrest⟩)
        · exact Or.inl hb
        · exact Or.inr ⟨t, List.mem_cons_self _ _, hnew⟩
        · exact Or.inr ⟨t', List.mem_cons_of_mem _ ht', hrest⟩
      · rintro (hb | ⟨t', ht', hrest⟩)
        · exact Or.inl (Or.inl hb)
        · rcases List.mem_cons.mp ht' with rfl | hmem
          · exact Or.inl (Or.inr hrest)
          · exact Or.inr ⟨t', hmem, hrest⟩

/-- The lower loop over a list of targets changes only `mip`: a bit is set afterwards iff it
was set before and it is not the line bit of a listed target without work. -/
theorem lower_fold_spec (p : SiFivePLICState) (L : List Nat) (m : Nat → Nat)
    (e : List Effect) :
    ∃ m' e', L.foldl lower_target (with_mip p m, e) = (with_mip p m', e') ∧
      ∀ h b, (m' h).testBit b = true ↔
        (m h).testBit b = true ∧
          ¬ ∃ t, t ∈ L ∧ sifive_plic_num_irqs_pending p t = 0 ∧ target_hart p t = h ∧
            mode_mask (target_mode p t) = 1 <<< b := by
  induction L generalizing m e with
  | nil => exact ⟨m, e, rfl, fun h b => by simp⟩
  | cons t L ih =>
    obtain ⟨m1, e1, hstep, hbits1⟩ := lower_target_spec p m e t
    obtain ⟨m2, e2, hfold, hbits2⟩ := ih m1 e1
    refine ⟨m2, e2, ?_, fun h b => ?_⟩
    · rw [List.foldl_cons, hstep, hfold]
    · rw [hbits2, hbits1]
      constructor
      · rintro ⟨⟨hb, hn1⟩, hn2⟩
        refine ⟨hb, ?_⟩
        rintro ⟨t', ht', hrest⟩
        rcases List.mem_cons.mp ht' with rfl | hmem
        · exact hn1 hrest
        · exact hn2 ⟨t', hmem, hrest⟩
      · rintro ⟨hb, hn⟩
        exact ⟨⟨hb, fun hrest => hn ⟨t, List.mem_cons_self _ _, hrest⟩⟩,
          fun ⟨t', ht', hrest⟩ => hn ⟨t', List.mem_cons_of_mem _ ht', hrest⟩⟩

/-- State after an in-range raise: the pending bit is set and `mip` gains the line bits of
the targets with work. -/
theorem raise_irq_state (plic : SiFivePLICState) (s : Nat)
    (hs : ¬ (s = 0 ∨ s > plic.num_sources)) :
    ∃ m' e', sifive_plic_raise_irq plic s =
        (with_mip (sifive_plic_set_pending plic s true) m', e') ∧
      ∀ h b, (m' h).testBit b = true ↔
        (plic.soc.mip h).testBit b = true ∨
          ∃ t, t < plic.num_addrs ∧
            sifive_plic_num_irqs_pending (sifive_plic_set_pending plic s true) t ≠ 0 ∧
            target_hart plic t = h ∧ mode_mask (target_mode plic t) = 1 <<< b := by
  obtain ⟨m', e', hfold, hbits⟩ :=
    raise_fold_spec (sifive_plic_set_pending plic s true) (List.range plic.num_addrs)
      (sifive_plic_set_pending plic s true).soc.mip []
  refine ⟨m', e', ?_, fun h b => ?_⟩
  · unfold sifive_plic_raise_irq
    rw [if_neg hs]
    exact hfold
  · rw [hbits]
    constructor
    · rintro (hb | ⟨t, ht, hrest⟩)
      · exact Or.inl hb
      · exact Or.inr ⟨t, List.mem_range.mp ht, hrest⟩
    · rintro (hb | ⟨t, ht, hrest⟩)
      · exact Or.inl hb
      · exact Or.inr ⟨t, List.mem_range.mpr ht, hrest⟩

/-- State after an in-range lower: the claimed bit is cleared and `mip` loses the line bits
of the targets without work. -/
theorem lower_irq_state (plic : SiFivePLICState) (s : Nat)
    (hs : ¬ (s = 0 ∨ s > plic.num_sources)) :
    ∃ m' e', sifive_plic_lower_irq plic s =
        (with_mip (sifive_plic_set_claimed plic s false) m', e') ∧
      ∀ h b, (m' h).testBit b = true ↔
        (plic.soc.mip h).testBit b = true ∧
          ¬ ∃ t, t < plic.num_addrs ∧
            sifive_plic_num_irqs_pending (sifive_plic_set_claimed plic s false) t = 0 ∧
            target_hart plic t = h ∧ mode_mask (target_mode plic t) = 1 <<< b := by
  obtain ⟨m', e', hfold, hbits⟩ :=
    lower_fold_spec (sifive_plic_set_claimed plic s false) (List.range plic.num_addrs)
      (sifive_plic_set_claimed plic s false).soc.mip []
  refine ⟨m', e', ?_, fun h b => ?_⟩
  · unfold sifive_plic_lower_irq
    rw [if_neg hs]
    exact hfold
  · rw [hbits]
    constructor
    · rintro ⟨hb, hn⟩
      exact ⟨hb, fun ⟨t, ht, hrest⟩ => hn ⟨t, List.mem_range.mpr ht, hrest⟩⟩
    · rintro ⟨hb, hn⟩
      exact ⟨hb, fun ⟨t, ht, hrest⟩ => hn ⟨t, List.mem_range.mp ht, hrest⟩⟩

/-- The line of a target reads the bit of `mip` named by its mode mask. -/
theorem line_asserted_iff (plic : SiFivePLICState) (t b : Nat)
    (hb : mode_mask (target_mode plic t) = 1 <<< b) :
    line_asserted plic t = true ↔
      (plic.soc.mip (target_hart plic t)).testBit b = true := by
  unfold line_asserted
  rw [hb, decide_eq_true_eq, and_one_shiftLeft_ne_zero_iff]

theorem ms_target_bit (plic : SiFivePLICState) (t : Nat) (h : ms_target plic t) :
    ∃ b, mode_mask (target_mode plic t) = 1 <<< b := by
  rcases h with h | h
  · exact ⟨11, by rw [h]; rfl⟩
  · exact ⟨9, by rw [h]; rfl⟩

/-! ## Contracts of raise and lower -/

theorem same_line_of_distinct (plic : SiFivePLICState) (hd : distinct_targets plic)
    (t t' b : Nat) (ht : t < plic.num_addrs) (ht' : t' < plic.num_addrs)
    (hb : mode_mask (target_mode plic t) = 1 <<< b)
    (hh : target_hart plic t' = target_hart plic t)
    (hb' : mode_mask (target_mode plic t') = 1 <<< b) : t' = t := by
  apply hd t' ht' t ht hh
  rcases (mode_mask_eq_iff _ b).mp hb with ⟨h1, h2⟩ | ⟨h1, h2⟩ <;>
    rcases (mode_mask_eq_iff _ b).mp hb' with ⟨h3, h4⟩ | ⟨h3, h4⟩
  · rw [h1, h3]
  · omega
  · omega
  · rw [h1, h3]

/-- C3: for a source `s` in `[1, num_sources]`, `sifive_plic_raise_irq` sets the pending bit
of `s`, keeps every other pending bit and every claimed bit, and for every M- or S-mode
target `t` (of a device whose targets are distinct hart/mode pairs) asserts the line of
`t` when the count computed after the pending bit is set is nonzero, and leaves the line
as it was when that count is zero. -/
theorem raise_irq_contract (plic : SiFivePLICState) (s : Nat)
    (hs1 : 1 ≤ s) (hs2 : s ≤ plic.num_sources) (hd : distinct_targets plic) :
    is_pending (sifive_plic_raise_irq plic s).1 s = true ∧
      (∀ s', s' ≠ s →
        is_pending (sifive_plic_raise_irq plic s).1 s' = is_pending plic s') ∧
      (∀ s', is_claimed (sifive_plic_raise_irq plic s).1 s' = is_claimed plic s') ∧
      (∀ t, t < plic.num_addrs → ms_target plic t →
        sifive_plic_num_irqs_pending (sifive_plic_raise_irq plic s).1 t =
          sifive_plic_num_irqs_pending (sifive_plic_set_pending plic s true) t ∧
        (sifive_plic_num_irqs_pending (sifive_plic_set_pending plic s true) t ≠ 0 →
          line_asserted (sifive_plic_raise_irq plic s).1 t = true) ∧
        (sifive_plic_num_irqs_pending (sifive_plic_set_pending plic s true) t = 0 →
          line_asserted (sifive_plic_raise_irq plic s).1 t = line_asserted plic t)) := by
  obtain ⟨m', e', heq, hbits⟩ := raise_irq_state plic s (by omega)
  rw [heq]
  refine ⟨?_, ?_, ?_, ?_⟩
  · show is_pending (sifive_plic_set_pending plic s true) s = true
    rw [is_pending_set_pending, if_pos rfl]
  · intro s' hs'
    show is_pending (sifive_plic_set_pending plic s true) s' = _
    rw [is_pending_set_pending, if_neg hs']
  · intro s'
    rfl
  · intro t ht hms
    obtain ⟨b, hb⟩ := ms_target_bit plic t hms
    have hline : line_asserted (with_mip (sifive_plic_set_pending plic s true) m') t = true ↔
        (m' (target_hart plic t)).testBit b = true :=
      line_asserted_iff (with_mip (sifive_plic_set_pending plic s true) m') t b hb
    refine ⟨rfl, ?_, ?_⟩
    · intro hc
      exact hline.mpr ((hbits _ b).mpr (Or.inr ⟨t, ht, hc, rfl, hb⟩))
    · intro hc
      rw [Bool.eq_iff_iff, hline, hbits, line_asserted_iff plic t b hb]
      constructor
      · rintro (hbit | ⟨t', ht', hc', hh, hb'⟩)
        · exact hbit
        · rw [same_line_of_distinct plic hd t t' b ht ht' hb hh hb'] at hc'
          exact absurd hc hc'
      · intro hbit
        exact Or.inl hbit

/-- Witness for C3: raising source 1 on the armed demo device. -/
theorem raise_irq_contract_witness :
    (1 ≤ 1 ∧ 1 ≤ armed_plic.num_sources ∧ distinct_targets armed_plic) ∧
      is_pending (sifive_plic_raise_irq armed_plic 1).1 1 = true :=
  ⟨by decide, (raise_irq_contract armed_plic 1 (by decide) (by decide) (by decide)).1⟩

/-- C4: for a source `s` in `[1, num_sources]`, `sifive_plic_lower_irq` clears the claimed
bit of `s` whatever it was, keeps every other claimed bit and every pending bit, and for
every M- or S-mode target `t` (of a device whose targets are distinct hart/mode pairs)
deasserts the line of `t` when its count is zero and leaves the line as it was when the
count is positive. -/
theorem lower_irq_contract (plic : SiFivePLICState) (s : Nat)
    (hs1 : 1 ≤ s) (hs2 : s ≤ plic.num_sources) (hd : distinct_targets plic) :
    is_claimed (sifive_plic_lower_irq plic s).1 s = false ∧
      (∀ s', s' ≠ s →
        is_claimed (sifive_plic_lower_irq plic s).1 s' = is_claimed plic s') ∧
      (∀ s', is_pending (sifive_plic_lower_irq plic s).1 s' = is_pending plic s') ∧
      (∀ t, t < plic.num_addrs → ms_target plic t →
        sifive_plic_num_irqs_pending (sifive_plic_lower_irq plic s).1 t =
          sifive_plic_num_irqs_pending (sifive_plic_set_claimed plic s false) t ∧
        (sifive_plic_num_irqs_pending (sifive_plic_set_claimed plic s false) t = 0 →
          line_asserted (sifive_plic_lower_irq plic s).1 t = false) ∧
        (sifive_plic_num_irqs_pending (sifive_plic_set_claimed plic s false) t > 0 →
          line_asserted (sifive_plic_lower_irq plic s).1 t = line_asserted plic t)) := by
  obtain ⟨m', e', heq, hbits⟩ := lower_irq_state plic s (by omega)
  rw [heq]
  refine ⟨?_, ?_, ?_, ?_⟩
  · show is_claimed (sifive_plic_set_claimed plic s false) s = false
    rw [is_claimed_set_claimed, if_pos rfl]
  · intro s' hs'
    show is_claimed (sifive_plic_set_claimed plic s false) s' = _
    rw [is_claimed_set_claimed, if_neg hs']
  · intro s'
    rfl
  · intro t ht hms
    obtain ⟨b, hb⟩ := ms_target_bit plic t hms
    have hline : line_asserted (with_mip (sifive_plic_set_claimed plic s false) m') t = true ↔
        (m' (target_hart plic t)).testBit b = true :=
      line_asserted_iff (with_mip (sifive_plic_set_claimed plic s false) m') t b hb
    refine ⟨rfl, ?_, ?_⟩
    · intro hc
      rw [← Bool.not_eq_true, hline, hbits]
      rintro ⟨-, hn⟩
      exact hn ⟨t, ht, hc, rfl, hb⟩
    · intro hc
      rw [Bool.eq_iff_iff, hline, hbits, line_asserted_iff plic t b hb]
      constructor
      · rintro ⟨hbit, -⟩
        exact hbit
      · intro hbit
        refine ⟨hbit, ?_⟩
        rintro ⟨t', ht', hc', hh, hb'⟩
        rw [same_line_of_distinct plic hd t t' b ht ht' hb hh hb'] at hc'
        omega

/-- Witness for C4: lowering source 1 on the tie device. -/
theorem lower_irq_contract_witness :
    (1 ≤ 1 ∧ 1 ≤ tie_plic.num_sources ∧ distinct_targets tie_plic) ∧
      is_claimed (sifive_plic_lower_irq tie_plic 1).1 1 = false :=
  ⟨by decide, (lower_irq_contract tie_plic 1 (by decide) (by decide) (by decide)).1⟩

theorem raise_lower_out_of_range_aux (plic : SiFivePLICState) (id : Nat)
    (h : id = 0 ∨ id > plic.num_sources) :
    sifive_plic_raise_irq plic id = (plic, []) ∧
      sifive_plic_lower_irq plic id = (plic, []) := by
  unfold sifive_plic_raise_irq sifive_plic_lower_irq
  rw [if_pos h, if_pos h]
  exact ⟨rfl, rfl⟩

/-- C5: for a source id that is 0 or above `num_sources`, `sifive_plic_raise_irq` and
`sifive_plic_lower_irq` return the unchanged state and report nothing. -/
theorem raise_lower_out_of_range (plic : SiFivePLICState) (id : Nat)
    (h : id = 0 ∨ id > plic.num_sources) :
    sifive_plic_raise_irq plic id = (plic, []) ∧
      sifive_plic_lower_irq plic id = (plic, []) := by
  unfold sifive_plic_raise_irq sifive_plic_lower_irq
  rw [if_pos h, if_pos h]
  exact ⟨rfl, rfl⟩

/-- Witness for C5: source id 4 on the tie device, which has 3 sources. -/
theorem raise_lower_out_of_range_witness :
    (4 = 0 ∨ 4 > tie_plic.num_sources) ∧
      sifive_plic_raise_irq tie_plic 4 = (tie_plic, []) ∧
      sifive_plic_lower_irq tie_plic 4 = (tie_plic, []) :=
  ⟨by decide, raise_lower_out_of_range tie_plic 4 (by decide)⟩

/-! ## The complete register -/

/-- A write that decodes to the complete register runs `sifive_plic_lower_irq` on the
truncated value when the value is below `num_sources`, and does nothing otherwise. -/
theorem write_complete_unfold (plic : SiFivePLICState) (addr value size : Nat)
    (h : decodes_to_claim_complete plic addr) :
    sifive_plic_write plic addr value size =
      if value < plic.num_sources then sifive_plic_lower_irq plic (value % 2 ^ 32)
      else (plic, []) := by
  obtain ⟨hal, hp, hq, he, hc, hid⟩ := h
  unfold sifive_plic_write
  have hal' : ¬ (addr &&& 0x3 ≠ 0) := not_not.mpr hal
  simp only [if_neg hal', if_neg hp, if_neg hq, if_neg he, if_pos hc, hid]
  rfl

/-- A read that decodes to the claim register returns the result of `sifive_plic_claim`
for the slot's target and reports nothing. -/
theorem read_claim_unfold (plic : SiFivePLICState) (addr size : Nat)
    (h : decodes_to_claim_complete plic addr) :
    sifive_plic_read plic addr size =
      ((sifive_plic_claim plic (context_addrid plic addr)).1,
        (sifive_plic_claim plic (context_addrid plic addr)).2, []) := by
  obtain ⟨hal, hp, hq, he, hc, hid⟩ := h
  unfold sifive_plic_read
  have hal' : ¬ (addr &&& 0x3 ≠ 0) := not_not.mpr hal
  simp only [if_neg hal', if_neg hp, if_neg hq, if_neg he, if_pos hc, hid]
  rfl

/-- C6: a write of `v` that decodes to the complete register of a context slot (aligned,
outside the three earlier windows, offset 4 of the slot) gives exactly the result of
`sifive_plic_lower_irq v` when `v < num_sources` and leaves the state unchanged, reporting
nothing, when `v >= num_sources`. -/
theorem complete_write_is_lower (plic : SiFivePLICState) (addr v size : Nat)
    (hn : plic.num_sources < 2 ^ 32) (h : decodes_to_claim_complete plic addr) :
    (v < plic.num_sources →
        sifive_plic_write plic addr v size = sifive_plic_lower_irq plic v) ∧
      (v ≥ plic.num_sources → sifive_plic_write plic addr v size = (plic, [])) := by
  rw [write_complete_unfold plic addr v size h]
  constructor
  · intro hv
    rw [if_pos hv, Nat.mod_eq_of_lt (by omega)]
  · intro hv
    rw [if_neg (by omega)]

/-- Witness for C6: the complete register of target 0 of the tie device is at 0x200004;
writing 1 there is `sifive_plic_lower_irq 1`, writing 3 (= `num_sources`) does nothing. -/
theorem complete_write_is_lower_witness :
    (tie_plic.num_sources < 2 ^ 32 ∧ decodes_to_claim_complete tie_plic 0x200004 ∧
        context_addrid tie_plic 0x200004 = 0 ∧ 1 < tie_plic.num_sources ∧
        3 ≥ tie_plic.num_sources) ∧
      sifive_plic_write tie_plic 0x200004 1 4 = sifive_plic_lower_irq tie_plic 1 ∧
      sifive_plic_write tie_plic 0x200004 3 4 = (tie_plic, []) :=
  ⟨by decide,
    (complete_write_is_lower tie_plic 0x200004 1 4 (by decide) (by decide)).1 (by decide),
    (complete_write_is_lower tie_plic 0x200004 3 4 (by decide) (by decide)).2 (by decide)⟩

/-! ## Per-source view under the state transformers -/

theorem is_claimed_set_pending (p : SiFivePLICState) (irq s : Nat) (b : Bool) :
    is_claimed (sifive_plic_set_pending p irq b) s = is_claimed p s := by
  cases b <;> rfl

theorem is_enabled_set_pending (p : SiFivePLICState) (irq t s : Nat) (b : Bool) :
    is_enabled (sifive_plic_set_pending p irq b) t s = is_enabled p t s := by
  cases b <;> rfl

theorem is_pending_set_claimed (p : SiFivePLICState) (irq s : Nat) (b : Bool) :
    is_pending (sifive_plic_set_claimed p irq b) s = is_pending p s := by
  cases b <;> rfl

theorem is_enabled_set_claimed (p : SiFivePLICState) (irq t s : Nat) (b : Bool) :
    is_enabled (sifive_plic_set_claimed p irq b) t s = is_enabled p t s := by
  cases b <;> rfl

theorem eligible_set_pending (p : SiFivePLICState) (irq t s : Nat) (b : Bool) :
    eligible (sifive_plic_set_pending p irq b) t s =
      ((if s = irq then b else is_pending p s) && !is_claimed p s && is_enabled p t s &&
        decide (p.source_priority s > p.target_priority t)) := by
  unfold eligible
  rw [is_pending_set_pending, is_claimed_set_pending, is_enabled_set_pending]
  cases b <;> rfl

theorem claimable_set_pending (p : SiFivePLICState) (irq t s : Nat) (b : Bool) :
    claimable (sifive_plic_set_pending p irq b) t s =
      ((if s = irq then b else is_pending p s) && !is_claimed p s && is_enabled p t s &&
        decide (p.source_priority s ≥ p.target_priority t)) := by
  unfold claimable
  rw [is_pending_set_pending, is_claimed_set_pending, is_enabled_set_pending]
  cases b <;> rfl

theorem eligible_set_claimed (p : SiFivePLICState) (irq t s : Nat) (b : Bool) :
    eligible (sifive_plic_set_claimed p irq b) t s =
      (is_pending p s && !(if s = irq then b else is_claimed p s) && is_enabled p t s &&
        decide (p.source_priority s > p.target_priority t)) := by
  unfold eligible
  rw [is_pending_set_claimed, is_claimed_set_claimed, is_enabled_set_claimed]
  cases b <;> rfl

theorem claimable_set_claimed (p : SiFivePLICState) (irq t s : Nat) (b : Bool) :
    claimable (sifive_plic_set_claimed p irq b) t s =
      (is_pending p s && !(if s = irq then b else is_claimed p s) && is_enabled p t s &&
        decide (p.source_priority s ≥ p.target_priority t)) := by
  unfold claimable
  rw [is_pending_set_claimed, is_claimed_set_claimed, is_enabled_set_claimed]
  cases b <;> rfl

theorem eligible_of_not_pending (p : SiFivePLICState) (t s : Nat)
    (h : is_pending p s = false) : eligible p t s = false := by
  unfold eligible
  rw [h]
  rfl

theorem claimable_of_not_pending (p : SiFivePLICState) (t s : Nat)
    (h : is_pending p s = false) : claimable p t s = false := by
  unfold claimable
  rw [h]
  rfl

/-- On a device with nothing pending or claimed, no scanned source is pending. -/
theorem quiet_not_pending (p : SiFivePLICState) (h : nothing_pending_or_claimed p)
    (s : Nat) (hs : s < 32 * p.bitfield_words) : is_pending p s = false := by
  unfold is_pending
  rw [(h (s / 32) (by omega)).1]
  exact Nat.zero_testBit _

/-- On a device with nothing pending or claimed, no scanned source is claimed. -/
theorem quiet_not_claimed (p : SiFivePLICState) (h : nothing_pending_or_claimed p)
    (s : Nat) (hs : s < 32 * p.bitfield_words) : is_claimed p s = false := by
  unfold is_claimed
  rw [(h (s / 32) (by omega)).2]
  exact Nat.zero_testBit _

/-- The sizing of the bitsets covers every source id below `num_sources`. -/
theorem source_in_scan (p : SiFivePLICState) (s : Nat) (hr : realized_words p)
    (hn : p.num_sources + 31 < 2 ^ 32) (hs : s < p.num_sources) :
    s < 32 * p.bitfield_words := by
  have hr' : p.bitfield_words = ((p.num_sources + 31) % 2 ^ 32) >>> 5 := hr
  rw [Nat.mod_eq_of_lt hn, shiftRight_five] at hr'
  omega

theorem num_irqs_pending_ne_zero (p : SiFivePLICState) (t s : Nat)
    (hs : s < 32 * p.bitfield_words) (he : eligible p t s = true) :
    sifive_plic_num_irqs_pending p t ≠ 0 := by
  intro h0
  have := (num_irqs_pending_eq_zero p t).mp h0 s hs
  rw [he] at this
  cases this

/-- The count depends on the state only through the eligibility predicate. -/
theorem num_irqs_pending_congr (p q : SiFivePLICState) (t : Nat)
    (hw : p.bitfield_words = q.bitfield_words)
    (h : ∀ s, s < 32 * p.bitfield_words → eligible p t s = eligible q t s) :
    sifive_plic_num_irqs_pending p t = sifive_plic_num_irqs_pending q t := by
  rw [num_irqs_pending_eq, num_irqs_pending_eq, ← hw]
  apply List.countP_congr
  intro s hs
  rw [h s (List.mem_range.mp hs)]

/-! ## Contract of the claim scan -/

/-- C1: `sifive_plic_claim` returns the smallest id in the scanned range
`[0, 32 * bitfield_words)` that is pending, unclaimed, enabled for the target and has
priority at least the threshold; it returns 0 when there is none; of two claimable
sources `s1 < s2` of equal priority it never returns `s2`; and after it has returned `s`
the claimable sources are the former ones without `s`, so `s2` is handed out by a later
claim. -/
theorem claim_returns_least_claimable (plic : SiFivePLICState) (t : Nat) :
    (∀ s, s < 32 * plic.bitfield_words → claimable plic t s = true →
        (∀ s', s' < s → claimable plic t s' = false) →
        (sifive_plic_claim plic t).1 = s) ∧
      ((∀ s, s < 32 * plic.bitfield_words → claimable plic t s = false) →
        (sifive_plic_claim plic t).1 = 0) ∧
      (∀ s1 s2, s1 < s2 → s2 < 32 * plic.bitfield_words →
        claimable plic t s1 = true → claimable plic t s2 = true →
        plic.source_priority s1 = plic.source_priority s2 →
        (sifive_plic_claim plic t).1 ≤ s1 ∧ (sifive_plic_claim plic t).1 ≠ s2) ∧
      (∀ s, s < 32 * plic.bitfield_words → claimable plic t s = true →
        (∀ s', s' < s → claimable plic t s' = false) →
        ∀ s', claimable (sifive_plic_claim plic t).2 t s' =
          (claimable plic t s' && decide (s' ≠ s))) := by
  refine ⟨?_, ?_, ?_, ?_⟩
  · intro s hs hc hmin
    rw [claim_eq_of_least plic t s hs hc hmin]
  · intro h
    rw [claim_eq_of_none plic t h]
  · intro s1 s2 h12 hs2 hc1 hc2 _
    rcases claim_cases plic t with ⟨irq, _, _, hmin, heq⟩ | ⟨hnone, _⟩
    · rw [heq]
      have hle : irq ≤ s1 := by
        by_contra hlt
        have := hmin s1 (by omega)
        rw [hc1] at this
        cases this
      exact ⟨hle, by dsimp only; omega⟩
    · have := hnone s1 (by omega)
      rw [hc1] at this
      cases this
  · intro s hs hc hmin s'
    rw [claim_eq_of_least plic t s hs hc hmin]
    dsimp only
    rw [claimable_set_claimed, is_pending_set_pending, is_claimed_set_pending,
      is_enabled_set_pending]
    have hp : (sifive_plic_set_pending plic s false).source_priority =
        plic.source_priority := rfl
    have ht : (sifive_plic_set_pending plic s false).target_priority =
        plic.target_priority := rfl
    rw [hp, ht]
    unfold claimable
    by_cases h : s' = s
    · simp [h]
    · simp [h]

/-- Witness for C1 on the tie device: sources 1 and 2 are both claimable at priority 5
and the claim returns 1. -/
theorem claim_returns_least_claimable_witness :
    (1 < 32 * tie_plic.bitfield_words ∧ claimable tie_plic 0 1 = true ∧
        claimable tie_plic 0 2 = true ∧
        tie_plic.source_priority 1 = tie_plic.source_priority 2) ∧
      (sifive_plic_claim tie_plic 0).1 = 1 :=
  ⟨by decide,
    (claim_returns_least_claimable tie_plic 0).1 1 (by decide) (by decide) (by decide)⟩

/-! ## Raise, claim, complete on a quiet device -/

theorem decodes_set_pending (p : SiFivePLICState) (irq addr : Nat) (b : Bool) :
    decodes_to_claim_complete (sifive_plic_set_pending p irq b) addr ↔
      decodes_to_claim_complete p addr := by
  cases b <;> exact Iff.rfl

theorem decodes_set_claimed (p : SiFivePLICState) (irq addr : Nat) (b : Bool) :
    decodes_to_claim_complete (sifive_plic_set_claimed p irq b) addr ↔
      decodes_to_claim_complete p addr := by
  cases b <;> exact Iff.rfl

/-- After a raise of `s` on a quiet device the only pending scanned source is `s`. -/
theorem eligible_after_first_raise (p : SiFivePLICState) (t s s' : Nat)
    (hq : nothing_pending_or_claimed p) (hs' : s' < 32 * p.bitfield_words) :
    eligible (sifive_plic_set_pending p s true) t s' =
      (decide (s' = s) && is_enabled p t s' &&
        decide (p.source_priority s' > p.target_priority t)) := by
  rw [eligible_set_pending, quiet_not_claimed p hq s' hs', quiet_not_pending p hq s' hs']
  by_cases h : s' = s <;> simp [h]

theorem claimable_after_first_raise (p : SiFivePLICState) (t s s' : Nat)
    (hq : nothing_pending_or_claimed p) (hs' : s' < 32 * p.bitfield_words) :
    claimable (sifive_plic_set_pending p s true) t s' =
      (decide (s' = s) && is_enabled p t s' &&
        decide (p.source_priority s' ≥ p.target_priority t)) := by
  rw [claimable_set_pending, quiet_not_claimed p hq s' hs', quiet_not_pending p hq s' hs']
  by_cases h : s' = s <;> simp [h]

/-- On a quiet device, raising an enabled source with priority at least the threshold and
then claiming returns that source and leaves nothing pending in the scanned range. -/
theorem claim_after_first_raise (p : SiFivePLICState) (t s : Nat) (m : Nat → Nat)
    (hq : nothing_pending_or_claimed p) (hs : s < 32 * p.bitfield_words)
    (hen : is_enabled p t s = true) (hpr : p.source_priority s ≥ p.target_priority t) :
    sifive_plic_claim (with_mip (sifive_plic_set_pending p s true) m) t =
        (s, sifive_plic_set_claimed
          (sifive_plic_set_pending (with_mip (sifive_plic_set_pending p s true) m) s false)
          s true) ∧
      ∀ s', s' < 32 * p.bitfield_words →
        is_pending (sifive_plic_set_claimed
          (sifive_plic_set_pending (with_mip (sifive_plic_set_pending p s true) m) s false)
          s true) s' = false := by
  constructor
  · apply claim_eq_of_least
    · exact hs
    · show claimable (sifive_plic_set_pending p s true) t s = true
      rw [claimable_after_first_raise p t s s hq hs, hen]
      simp [hpr]
    · intro s' hs'
      show claimable (sifive_plic_set_pending p s true) t s' = false
      rw [claimable_after_first_raise p t s s' hq (by omega)]
      have : s' ≠ s := by omega
      simp [this]
  · intro s' hs'
    rw [is_pending_set_claimed, is_pending_set_pending]
    by_cases h : s' = s
    · rw [if_pos h]
    · rw [if_neg h]
      show is_pending (sifive_plic_set_pending p s true) s' = false
      rw [is_pending_set_pending, if_neg h]
      exact quiet_not_pending p hq s' hs'

/-- With nothing pending in the scanned range, a claim returns 0 and keeps the state. -/
theorem claim_of_nothing_pending (p : SiFivePLICState) (t : Nat)
    (h : ∀ s, s < 32 * p.bitfield_words → is_pending p s = false) :
    sifive_plic_claim p t = (0, p) :=
  claim_eq_of_none p t (fun s hs => claimable_of_not_pending p t s (h s hs))

/-- With nothing pending in the scanned range, lowering an in-range source deasserts the
line of every M- or S-mode target. -/
theorem lower_deasserts_of_nothing_pending (p : SiFivePLICState) (s t : Nat)
    (hs : ¬ (s = 0 ∨ s > p.num_sources)) (ht : t < p.num_addrs) (hms : ms_target p t)
    (h : ∀ s', s' < 32 * p.bitfield_words → is_pending p s' = false) :
    line_asserted (sifive_plic_lower_irq p s).1 t = false := by
  obtain ⟨m', e', heq, hbits⟩ := lower_irq_state p s hs
  obtain ⟨b, hb⟩ := ms_target_bit p t hms
  rw [heq, ← Bool.not_eq_true,
    line_asserted_iff (with_mip (sifive_plic_set_claimed p s false) m') t b hb]
  show ¬ ((m' (target_hart p t)).testBit b = true)
  rw [hbits]
  rintro ⟨-, hn⟩
  apply hn
  refine ⟨t, ht, ?_, rfl, hb⟩
  rw [num_irqs_pending_eq_zero]
  intro s' hs'
  apply eligible_of_not_pending
  rw [is_pending_set_claimed]
  exact h s' hs'

/-- Counterexample to C7 as stated: on the edge device (3 sources, source 3 enabled, the
cell `source_priority[3]` holding 1 above threshold 0) source `num_sources = 3` passes the
range guard of raise and is claimed, but the complete write of 3 is refused by the guard
`value < num_sources`, so the line stays asserted. -/
theorem round_trip_fails_at_num_sources :
    (1 ≤ 3 ∧ 3 ≤ edge_plic.num_sources ∧ ms_target edge_plic 0 ∧
        nothing_pending_or_claimed edge_plic ∧ line_asserted edge_plic 0 = false ∧
        is_enabled edge_plic 0 3 = true ∧
        edge_plic.source_priority 3 > edge_plic.target_priority 0 ∧
        decodes_to_claim_complete edge_plic 0x200004 ∧
        context_addrid edge_plic 0x200004 = 0) ∧
      line_asserted (sifive_plic_raise_irq edge_plic 3).1 0 = true ∧
      (sifive_plic_claim (sifive_plic_raise_irq edge_plic 3).1 0).1 = 3 ∧
      line_asserted
        (sifive_plic_write
          (sifive_plic_claim
            (sifive_plic_claim (sifive_plic_raise_irq edge_plic 3).1 0).2 0).2
          0x200004 3 4).1 0 = true := by
  decide

/-- C7 (amended): for a source `s` in `[1, num_sources)` and an M- or S-mode target `t` of a
realized device with distinct targets, nothing pending or claimed and the line of `t` low,
with `s` enabled for `t` and `priority[s] > threshold[t]`: after the raise the line of `t`
is asserted, the claim returns `s`, the next claim does not return `s`, and after the
complete write of `s` the line of `t` is deasserted. -/
theorem round_trip (plic : SiFivePLICState) (s t addr size : Nat)
    (hs1 : 1 ≤ s) (hs2 : s < plic.num_sources)
    (hn : plic.num_sources + 31 < 2 ^ 32) (hr : realized_words plic)
    (ht : t < plic.num_addrs) (hms : ms_target plic t)
    (hq : nothing_pending_or_claimed plic)
    (hen : is_enabled plic t s = true)
    (hpr : plic.source_priority s > plic.target_priority t)
    (haddr : decodes_to_claim_complete plic addr) :
    line_asserted (sifive_plic_raise_irq plic s).1 t = true ∧
      (sifive_plic_claim (sifive_plic_raise_irq plic s).1 t).1 = s ∧
      (sifive_plic_claim
        (sifive_plic_claim (sifive_plic_raise_irq plic s).1 t).2 t).1 ≠ s ∧
      line_asserted
        (sifive_plic_write
          (sifive_plic_claim
            (sifive_plic_claim (sifive_plic_raise_irq plic s).1 t).2 t).2
          addr s size).1 t = false := by
  have hscan : s < 32 * plic.bitfield_words := source_in_scan plic s hr hn hs2
  obtain ⟨m', e', heq1, hbits⟩ := raise_irq_state plic s (by omega)
  obtain ⟨b, hb⟩ := ms_target_bit plic t hms
  obtain ⟨heq2, hnp⟩ := claim_after_first_raise plic t s m' hq hscan hen (by omega)
  have heq3 := claim_of_nothing_pending
    (sifive_plic_set_claimed
      (sifive_plic_set_pending (with_mip (sifive_plic_set_pending plic s true) m') s false)
      s true) t hnp
  rw [heq1]
  dsimp only
  rw [heq2]
  dsimp only
  rw [heq3]
  dsimp only
  refine ⟨?_, rfl, by omega, ?_⟩
  · rw [line_asserted_iff (with_mip (sifive_plic_set_pending plic s true) m') t b hb]
    show (m' (target_hart plic t)).testBit b = true
    rw [hbits]
    refine Or.inr ⟨t, ht, ?_, rfl, hb⟩
    apply num_irqs_pending_ne_zero (sifive_plic_set_pending plic s true) t s hscan
    rw [eligible_after_first_raise plic t s s hq hscan, hen]
    simp [hpr]
  · have hdec1 : decodes_to_claim_complete
        (with_mip (sifive_plic_set_pending plic s true) m') addr :=
      (decodes_set_pending plic s addr true).mpr haddr
    rw [write_complete_unfold
      (sifive_plic_set_claimed
        (sifive_plic_set_pending (with_mip (sifive_plic_set_pending plic s true) m') s false)
        s true) addr s size
      ((decodes_set_claimed _ s addr true).mpr
        ((decodes_set_pending (with_mip (sifive_plic_set_pending plic s true) m') s addr
          false).mpr hdec1))]
    have hlt : s < (sifive_plic_set_claimed
        (sifive_plic_set_pending (with_mip (sifive_plic_set_pending plic s true) m') s false)
        s true).num_sources := hs2
    rw [if_pos hlt, Nat.mod_eq_of_lt (by omega)]
    apply lower_deasserts_of_nothing_pending
      (sifive_plic_set_claimed
        (sifive_plic_set_pending (with_mip (sifive_plic_set_pending plic s true) m') s false)
        s true) s t
    · intro h
      rcases h with h | h
      · omega
      · have : s > plic.num_sources := h
        omega
    · exact ht
    · exact hms
    · exact hnp

/-- Witness for the amended C7: source 1 and target 0 of the armed demo device, with the
complete register at 0x200004. -/
theorem round_trip_witness :
    (1 ≤ 1 ∧ 1 < armed_plic.num_sources ∧ armed_plic.num_sources + 31 < 2 ^ 32 ∧
        realized_words armed_plic ∧ 0 < armed_plic.num_addrs ∧ ms_target armed_plic 0 ∧
        nothing_pending_or_claimed armed_plic ∧ is_enabled armed_plic 0 1 = true ∧
        armed_plic.source_priority 1 > armed_plic.target_priority 0 ∧
        decodes_to_claim_complete armed_plic 0x200004) ∧
      line_asserted (sifive_plic_raise_irq armed_plic 1).1 0 = true ∧
      (sifive_plic_claim (sifive_plic_raise_irq armed_plic 1).1 0).1 = 1 :=
  ⟨by decide,
    (round_trip armed_plic 1 0 0x200004 4 (by decide) (by decide) (by decide) (by decide)
      (by decide) (by decide) (by decide) (by decide) (by decide) (by decide)).1,
    (round_trip armed_plic 1 0 0x200004 4 (by decide) (by decide) (by decide) (by decide)
      (by decide) (by decide) (by decide) (by decide) (by decide) (by decide)).2.1⟩

/-! ## Priority of the source handed out by a claim read -/

/-- Counterexample to C8 as stated: on the skew device sources 1 (priority 1) and 2
(priority 5) are both pending, unclaimed and enabled for target 0; the claim register read
returns source 1, whose priority is below that of source 2. -/
theorem claim_read_not_highest_priority :
    decodes_to_claim_complete skew_plic 0x200004 ∧
      context_addrid skew_plic 0x200004 = 0 ∧
      (sifive_plic_read skew_plic 0x200004 4).1 = 1 ∧
      is_pending skew_plic 2 = true ∧ is_claimed skew_plic 2 = false ∧
      is_enabled skew_plic 0 2 = true ∧
      ¬ (skew_plic.source_priority 1 ≥ skew_plic.source_priority 2) := by
  decide

/-- C8 (amended): when a read that decodes to the claim register of target `t` returns
`s != 0`, `s` is pending, unclaimed, enabled for `t` and has priority at least the threshold
of `t`, and every source `s' < s` that was pending, unclaimed and enabled for `t` has a
priority below the threshold, hence below the priority of `s`.  Sources above `s` are not
compared. -/
theorem claim_read_lowest_id (plic : SiFivePLICState) (addr size : Nat)
    (h : decodes_to_claim_complete plic addr)
    (hne : (sifive_plic_read plic addr size).1 ≠ 0) :
    claimable plic (context_addrid plic addr) (sifive_plic_read plic addr size).1 = true ∧
      plic.source_priority (sifive_plic_read plic addr size).1 ≥
        plic.target_priority (context_addrid plic addr) ∧
      ∀ s', s' < (sifive_plic_read plic addr size).1 →
        is_pending plic s' = true → is_claimed plic s' = false →
        is_enabled plic (context_addrid plic addr) s' = true →
        plic.source_priority s' < plic.target_priority (context_addrid plic addr) ∧
          plic.source_priority (sifive_plic_read plic addr size).1 ≥
            plic.source_priority s' := by
  rw [read_claim_unfold plic addr size h] at hne ⊢
  dsimp only at hne ⊢
  rcases claim_cases plic (context_addrid plic addr) with
    ⟨irq, _, hc, hmin, heq⟩ | ⟨_, heq⟩
  · rw [heq]
    dsimp only
    have hprio : plic.source_priority irq ≥ plic.target_priority (context_addrid plic addr) := by
      unfold claimable at hc
      simp only [Bool.and_eq_true, decide_eq_true_eq] at hc
      exact hc.2
    refine ⟨hc, hprio, ?_⟩
    intro s' hs' hp hcl hen
    have hlow := hmin s' hs'
    unfold claimable at hlow
    rw [hp, hcl, hen] at hlow
    simp only [Bool.not_false, Bool.and_self, Bool.true_and, decide_eq_false_iff_not,
      ge_iff_le, not_le] at hlow
    exact ⟨hlow, by omega⟩
  · rw [heq] at hne
    exact absurd rfl hne

/-- Witness for the amended C8: the claim read on the skew device returns source 1. -/
theorem claim_read_lowest_id_witness :
    (decodes_to_claim_complete skew_plic 0x200004 ∧
        (sifive_plic_read skew_plic 0x200004 4).1 ≠ 0) ∧
      claimable skew_plic (context_addrid skew_plic 0x200004)
        (sifive_plic_read skew_plic 0x200004 4).1 = true :=
  ⟨by decide, (claim_read_lowest_id skew_plic 0x200004 4 (by decide) (by decide)).1⟩

/-! ## Lines against counts along runs -/

/-- Counterexample to C9 as stated: from the all-zero demo device, after the register
writes that arm source 1, a raise of source 1 and a claim read, the line of target 0 is
asserted while its count is zero. -/
theorem line_asserted_with_zero_count :
    (nothing_pending_or_claimed demo_plic ∧ line_asserted demo_plic 0 = false ∧
        0 < demo_plic.num_addrs ∧ ms_target demo_plic 0) ∧
      line_asserted
        (run demo_plic
          [Op.write 0x4 5 4, Op.write 0x2000 0xe 4, Op.raise 1, Op.read 0x200004 4]) 0 =
        true ∧
      sifive_plic_num_irqs_pending
        (run demo_plic
          [Op.write 0x4 5 4, Op.write 0x2000 0xe 4, Op.raise 1, Op.read 0x200004 4]) 0 =
        0 := by
  decide

/-- The converse direction fails as well: after a raise of source 1 while it is not
enabled, an enable write makes the count of target 0 nonzero while its line is low. -/
theorem line_low_with_nonzero_count :
    line_asserted
        (run demo_plic [Op.write 0x4 5 4, Op.raise 1, Op.write 0x2000 0xe 4]) 0 = false ∧
      sifive_plic_num_irqs_pending
        (run demo_plic [Op.write 0x4 5 4, Op.raise 1, Op.write 0x2000 0xe 4]) 0 = 1 := by
  decide

/-- A write that is not decoded as a priority, enable or threshold write either is a
complete write or leaves the state unchanged. -/
theorem write_state_of_not_config (plic : SiFivePLICState) (addr value size : Nat)
    (h : ¬ decodes_to_config_write plic addr) :
    decodes_to_claim_complete plic addr ∨
      (sifive_plic_write plic addr value size).1 = plic := by
  by_cases hdec : decodes_to_claim_complete plic addr
  · exact Or.inl hdec
  · right
    unfold sifive_plic_write
    dsimp only
    by_cases h1 : addr &&& 0x3 ≠ 0
    · rw [if_pos h1]
    · rw [if_neg h1]
      have hal : addr &&& 0x3 = 0 := not_not.mp h1
      by_cases h2 : in_priority_window plic addr
      · exact absurd ⟨hal, Or.inl h2⟩ h
      · rw [if_neg h2]
        by_cases h3 : in_pending_window plic addr
        · rw [if_pos h3]
        · rw [if_neg h3]
          by_cases h4 : in_enable_window plic addr
          · rw [if_pos h4]
            by_cases h5 : enable_wordid plic addr < plic.bitfield_words
            · exact absurd ⟨hal, Or.inr (Or.inl ⟨h2, h3, h4, h5⟩)⟩ h
            · rw [if_neg h5]
          · rw [if_neg h4]
            by_cases h6 : in_context_window plic addr
            · rw [if_pos h6]
              by_cases h7 : context_contextid plic addr = 0
              · exact absurd ⟨hal, Or.inr (Or.inr ⟨h2, h3, h4, h6, h7⟩)⟩ h
              · rw [if_neg h7]
                by_cases h8 : context_contextid plic addr = 4
                · exact absurd ⟨hal, h2, h3, h4, h6, h8⟩ hdec
                · rw [if_neg h8]
            · rw [if_neg h6]

/-- A read that does not decode to a claim register leaves the state unchanged. -/
theorem read_state_of_not_claim (plic : SiFivePLICState) (addr size : Nat)
    (h : ¬ decodes_to_claim_complete plic addr) :
    (sifive_plic_read plic addr size).2.1 = plic := by
  unfold sifive_plic_read
  dsimp only
  by_cases h1 : addr &&& 0x3 ≠ 0
  · rw [if_pos h1]
  · rw [if_neg h1]
    have hal : addr &&& 0x3 = 0 := not_not.mp h1
    by_cases h2 : in_priority_window plic addr
    · rw [if_pos h2]
    · rw [if_neg h2]
      by_cases h3 : in_pending_window plic addr
      · rw [if_pos h3]
      · rw [if_neg h3]
        by_cases h4 : in_enable_window plic addr
        · rw [if_pos h4]
          by_cases h5 : enable_wordid plic addr < plic.bitfield_words
          · rw [if_pos h5]
          · rw [if_neg h5]
        · rw [if_neg h4]
          by_cases h6 : in_context_window plic addr
          · rw [if_pos h6]
            by_cases h7 : context_contextid plic addr = 0
            · rw [if_pos h7]
            · rw [if_neg h7]
              by_cases h8 : context_contextid plic addr = 4
              · exact absurd ⟨hal, h2, h3, h4, h6, h8⟩ h
              · rw [if_neg h8]
          · rw [if_neg h6]

/-- Setting a pending bit can only add eligible sources. -/
theorem num_irqs_pending_mono_set_pending (p : SiFivePLICState) (irq t : Nat)
    (h : sifive_plic_num_irqs_pending p t ≠ 0) :
    sifive_plic_num_irqs_pending (sifive_plic_set_pending p irq true) t ≠ 0 := by
  intro h0
  apply h
  rw [num_irqs_pending_eq_zero] at h0 ⊢
  intro s hs
  have := h0 s hs
  rw [eligible_set_pending] at this
  unfold eligible
  by_cases hsi : s = irq
  · rw [if_pos hsi] at this
    revert this
    cases is_pending p s <;> simp
  · rw [if_neg hsi] at this
    exact this

/-- Clearing a claimed bit changes no count while no scanned source is claimed. -/
theorem num_irqs_pending_set_claimed_of_unclaimed (p : SiFivePLICState) (irq t : Nat)
    (hcl : ∀ s, s < 32 * p.bitfield_words → is_claimed p s = false) :
    sifive_plic_num_irqs_pending (sifive_plic_set_claimed p irq false) t =
      sifive_plic_num_irqs_pending p t := by
  apply num_irqs_pending_congr
  · rfl
  · intro s hs
    rw [eligible_set_claimed]
    unfold eligible
    by_cases hsi : s = irq
    · rw [if_pos hsi, hcl s hs]
    · rw [if_neg hsi]

theorem line_inv_raise (st : SiFivePLICState) (irq : Nat) (h : line_inv st) :
    line_inv (sifive_plic_raise_irq st irq).1 := by
  by_cases hr : irq = 0 ∨ irq > st.num_sources
  · rw [(raise_lower_out_of_range_aux st irq hr).1]
    exact h
  · obtain ⟨hd, hn, hcl, hinv⟩ := h
    obtain ⟨m', e', heq, hbits⟩ := raise_irq_state st irq hr
    rw [heq]
    refine ⟨hd, hn, ?_, ?_⟩
    · intro s hs
      show is_claimed (sifive_plic_set_pending st irq true) s = false
      rw [is_claimed_set_pending]
      exact hcl s hs
    · intro t ht hms
      have ht' : t < st.num_addrs := ht
      have hms' : ms_target st t := hms
      obtain ⟨b, hb⟩ := ms_target_bit st t hms'
      rw [line_asserted_iff (with_mip (sifive_plic_set_pending st irq true) m') t b hb]
      show (m' (target_hart st t)).testBit b = true ↔
        sifive_plic_num_irqs_pending (sifive_plic_set_pending st irq true) t ≠ 0
      rw [hbits]
      constructor
      · rintro (hbit | ⟨t', ht2, hc', hh, hb'⟩)
        · apply num_irqs_pending_mono_set_pending
          exact (hinv t ht' hms').mp ((line_asserted_iff st t b hb).mpr hbit)
        · rw [same_line_of_distinct st hd t t' b ht' ht2 hb hh hb'] at hc'
          exact hc'
      · intro hc
        exact Or.inr ⟨t, ht', hc, rfl, hb⟩

theorem line_inv_lower (st : SiFivePLICState) (irq : Nat) (h : line_inv st) :
    line_inv (sifive_plic_lower_irq st irq).1 := by
  by_cases hr : irq = 0 ∨ irq > st.num_sources
  · rw [(raise_lower_out_of_range_aux st irq hr).2]
    exact h
  · obtain ⟨hd, hn, hcl, hinv⟩ := h
    obtain ⟨m', e', heq, hbits⟩ := lower_irq_state st irq hr
    rw [heq]
    refine ⟨hd, hn, ?_, ?_⟩
    · intro s hs
      show is_claimed (sifive_plic_set_claimed st irq false) s = false
      rw [is_claimed_set_claimed]
      by_cases hsi : s = irq
      · rw [if_pos hsi]
      · rw [if_neg hsi]
        exact hcl s hs
    · intro t ht hms
      have ht' : t < st.num_addrs := ht
      have hms' : ms_target st t := hms
      obtain ⟨b, hb⟩ := ms_target_bit st t hms'
      rw [line_asserted_iff (with_mip (sifive_plic_set_claimed st irq false) m') t b hb]
      show (m' (target_hart st t)).testBit b = true ↔
        sifive_plic_num_irqs_pending (sifive_plic_set_claimed st irq false) t ≠ 0
      rw [hbits]
      constructor
      · rintro ⟨-, hn'⟩ hc
        exact hn' ⟨t, ht', hc, rfl, hb⟩
      · intro hc
        refine ⟨?_, ?_⟩
        · rw [num_irqs_pending_set_claimed_of_unclaimed st irq t hcl] at hc
          exact (line_asserted_iff st t b hb).mp ((hinv t ht' hms').mpr hc)
        · rintro ⟨t', ht2, hc', hh, hb'⟩
          rw [same_line_of_distinct st hd t t' b ht' ht2 hb hh hb'] at hc'
          exact hc hc'

theorem line_inv_step (st : SiFivePLICState) (op : Op) (h : line_inv st)
    (hop : line_op st op = true) : line_inv (step st op) := by
  cases op with
  | raise irq => exact line_inv_raise st irq h
  | lower irq => exact line_inv_lower st irq h
  | read addr size =>
    have hnd : ¬ decodes_to_claim_complete st addr := by
      intro hdec
      have hop' : (!decide (decodes_to_claim_complete st addr)) = true := hop
      rw [decide_eq_true hdec] at hop'
      cases hop'
    show line_inv (sifive_plic_read st addr size).2.1
    rw [read_state_of_not_claim st addr size hnd]
    exact h
  | write addr value size =>
    have hnc : ¬ decodes_to_config_write st addr := by
      intro hcfg
      have hop' : (!decide (decodes_to_config_write st addr)) = true := hop
      rw [decide_eq_true hcfg] at hop'
      cases hop'
    show line_inv (sifive_plic_write st addr value size).1
    rcases write_state_of_not_config st addr value size hnc with hdec | hsame
    · rw [write_complete_unfold st addr value size hdec]
      by_cases hv : value < st.num_sources
      · rw [if_pos hv]
        exact line_inv_lower st _ h
      · rw [if_neg hv]
        exact h
    · rw [hsame]
      exact h

theorem line_inv_run (ops : List Op) (st : SiFivePLICState) (h : line_inv st)
    (hops : line_run st ops = true) : line_inv (run st ops) := by
  induction ops generalizing st with
  | nil => exact h
  | cons op ops ih =>
    have hsplit : line_op st op = true ∧ line_run (step st op) ops = true := by
      simpa [line_run] using hops
    show line_inv (List.foldl step (step st op) ops)
    exact ih (step st op) (line_inv_step st op h hsplit.1) hsplit.2

/-- C9 (amended): from a device with distinct targets, nothing pending or claimed and the
lines of all M- and S-mode targets low, after any sequence of raises, lowers, register
reads other than claim reads and register writes other than priority, enable and threshold
writes, the line of every M- or S-mode target is asserted if and only if its count is
nonzero. -/
theorem lines_track_counts_along_runs (plic : SiFivePLICState) (ops : List Op)
    (hd : distinct_targets plic) (hn : plic.num_sources < 2 ^ 32)
    (hq : nothing_pending_or_claimed plic)
    (hlow : ∀ t, t < plic.num_addrs → ms_target plic t → line_asserted plic t = false)
    (hops : line_run plic ops = true) :
    lines_track_counts (run plic ops) := by
  have hinit : line_inv plic := by
    refine ⟨hd, hn, fun s hs => quiet_not_claimed plic hq s hs, ?_⟩
    intro t ht hms
    rw [hlow t ht hms]
    constructor
    · intro h; cases h
    · intro h
      exfalso
      apply h
      rw [num_irqs_pending_eq_zero]
      intro s hs
      exact eligible_of_not_pending plic t s (quiet_not_pending plic hq s hs)
  exact (line_inv_run ops plic hinit hops).2.2.2

/-- Witness for the amended C9: on the armed demo device, raise 1, raise 2, complete 1,
a threshold read, a write into the pending window and a lower of 2. -/
theorem lines_track_counts_along_runs_witness :
    (distinct_targets armed_plic ∧ armed_plic.num_sources < 2 ^ 32 ∧
        nothing_pending_or_claimed armed_plic ∧
        (∀ t, t < armed_plic.num_addrs → ms_target armed_plic t →
          line_asserted armed_plic t = false) ∧
        line_run armed_plic
          [Op.raise 1, Op.raise 2, Op.write 0x200004 1 4, Op.read 0x200000 4,
            Op.write 0x1000 1 4, Op.lower 2] =
          true) ∧
      lines_track_counts
        (run armed_plic
          [Op.raise 1, Op.raise 2, Op.write 0x200004 1 4, Op.read 0x200000 4,
            Op.write 0x1000 1 4, Op.lower 2]) :=
  ⟨by decide,
    lines_track_counts_along_runs armed_plic
      [Op.raise 1, Op.raise 2, Op.write 0x200004 1 4, Op.read 0x200000 4,
            Op.write 0x1000 1 4, Op.lower 2]
      (by decide) (by decide) (by decide) (by decide) (by decide)⟩

/-! ## Strict versus non-strict threshold comparison -/

/-- C10: for a source `s` in `[1, num_sources)` and an M- or S-mode target `t` of a realized
device with distinct targets, nothing pending or claimed and the line of `t` low, with `s`
enabled for `t` and `priority[s] = threshold[t]`: the raise leaves the line of `t` low and
the following claim returns `s`. -/
theorem threshold_boundary (plic : SiFivePLICState) (s t : Nat)
    (hs1 : 1 ≤ s) (hs2 : s < plic.num_sources)
    (hn : plic.num_sources + 31 < 2 ^ 32) (hr : realized_words plic)
    (hd : distinct_targets plic) (ht : t < plic.num_addrs) (hms : ms_target plic t)
    (hq : nothing_pending_or_claimed plic) (hlow : line_asserted plic t = false)
    (hen : is_enabled plic t s = true)
    (hpr : plic.source_priority s = plic.target_priority t) :
    line_asserted (sifive_plic_raise_irq plic s).1 t = false ∧
      (sifive_plic_claim (sifive_plic_raise_irq plic s).1 t).1 = s := by
  have hscan : s < 32 * plic.bitfield_words := source_in_scan plic s hr hn hs2
  obtain ⟨m', e', heq1, hbits⟩ := raise_irq_state plic s (by omega)
  obtain ⟨b, hb⟩ := ms_target_bit plic t hms
  obtain ⟨heq2, -⟩ := claim_after_first_raise plic t s m' hq hscan hen (by omega)
  rw [heq1]
  dsimp only
  rw [heq2]
  refine ⟨?_, rfl⟩
  rw [← Bool.not_eq_true,
    line_asserted_iff (with_mip (sifive_plic_set_pending plic s true) m') t b hb]
  show ¬ ((m' (target_hart plic t)).testBit b = true)
  rw [hbits]
  rintro (hbit | ⟨t', ht', hc', hh, hb'⟩)
  · have := (line_asserted_iff plic t b hb).mpr hbit
    rw [hlow] at this
    cases this
  · rw [same_line_of_distinct plic hd t t' b ht ht' hb hh hb'] at hc'
    apply hc'
    rw [num_irqs_pending_eq_zero]
    intro s' hs'
    rw [eligible_after_first_raise plic t s s' hq hs']
    by_cases h : s' = s
    · subst h
      simp [hpr]
    · simp [h]

/-- Witness for C10: on the level device source 2 has priority 5, the threshold of
target 0. -/
theorem threshold_boundary_witness :
    (1 ≤ 2 ∧ 2 < level_plic.num_sources ∧ level_plic.num_sources + 31 < 2 ^ 32 ∧
        realized_words level_plic ∧ distinct_targets level_plic ∧
        0 < level_plic.num_addrs ∧ ms_target level_plic 0 ∧
        nothing_pending_or_claimed level_plic ∧ line_asserted level_plic 0 = false ∧
        is_enabled level_plic 0 2 = true ∧
        level_plic.source_priority 2 = level_plic.target_priority 0) ∧
      line_asserted (sifive_plic_raise_irq level_plic 2).1 0 = false ∧
      (sifive_plic_claim (sifive_plic_raise_irq level_plic 2).1 0).1 = 2 :=
  ⟨by decide,
    threshold_boundary level_plic 2 0 (by decide) (by decide) (by decide) (by decide)
      (by decide) (by decide) (by decide) (by decide) (by decide) (by decide) (by decide)⟩

/-! ## The three-source scenario -/

/-- Counterexample to C11 as stated: in the scenario the claim that follows raise(1) and
raise(2) returns source 1, which is pending and passes the non-strict test
`priority >= threshold` (3 >= 3), not source 2. -/
theorem scenario_first_claim_is_one :
    (scenario_plic.num_sources = 3 ∧ scenario_plic.num_addrs = 1 ∧
        target_mode scenario_plic 0 = PLICMode.M ∧ scenario_plic.num_priorities = 7 ∧
        scenario_plic.source_priority 1 = 3 ∧ scenario_plic.source_priority 2 = 5 ∧
        scenario_plic.source_priority 3 = 5 ∧ scenario_plic.target_priority 0 = 3 ∧
        is_enabled scenario_plic 0 1 = true ∧ is_enabled scenario_plic 0 2 = true ∧
        is_enabled scenario_plic 0 3 = true ∧ nothing_pending_or_claimed scenario_plic ∧
        line_asserted scenario_plic 0 = false) ∧
      (sifive_plic_claim (run scenario_plic [Op.raise 1, Op.raise 2]) 0).1 = 1 ∧
      (sifive_plic_claim (run scenario_plic [Op.raise 1, Op.raise 2]) 0).1 ≠ 2 := by
  decide

/-! ## Fan-out over two targets -/

/-- A source that is alone pending and does not exceed the threshold leaves the count of
the target at zero. -/
theorem count_zero_after_first_raise (p : SiFivePLICState) (t s : Nat)
    (hq : nothing_pending_or_claimed p)
    (hpr : p.source_priority s ≤ p.target_priority t) :
    sifive_plic_num_irqs_pending (sifive_plic_set_pending p s true) t = 0 := by
  rw [num_irqs_pending_eq_zero]
  intro s' hs'
  rw [eligible_after_first_raise p t s s' hq hs']
  by_cases h : s' = s
  · subst h
    have : ¬ (p.source_priority s' > p.target_priority t) := by omega
    simp [this]
  · simp [h]

/-- A source that is alone pending, enabled and above the threshold makes the count of the
target nonzero. -/
theorem count_pos_after_first_raise (p : SiFivePLICState) (t s : Nat)
    (hq : nothing_pending_or_claimed p) (hs : s < 32 * p.bitfield_words)
    (hen : is_enabled p t s = true)
    (hpr : p.source_priority s > p.target_priority t) :
    sifive_plic_num_irqs_pending (sifive_plic_set_pending p s true) t ≠ 0 := by
  apply num_irqs_pending_ne_zero (sifive_plic_set_pending p s true) t s hs
  rw [eligible_after_first_raise p t s s hq hs, hen]
  simp [hpr]

/-- C12: for a source `s` in `[1, num_sources)` enabled on two M- or S-mode targets `t1`
and `t2` of a realized device with distinct targets, with
`threshold[t1] < priority[s] <= threshold[t2]`, nothing pending or claimed and both lines
low: the raise asserts the line of `t1` and leaves the line of `t2` low. -/
theorem fan_out (plic : SiFivePLICState) (s t1 t2 : Nat)
    (hs1 : 1 ≤ s) (hs2 : s < plic.num_sources)
    (hn : plic.num_sources + 31 < 2 ^ 32) (hr : realized_words plic)
    (hd : distinct_targets plic)
    (ht1 : t1 < plic.num_addrs) (ht2 : t2 < plic.num_addrs)
    (hms1 : ms_target plic t1) (hms2 : ms_target plic t2)
    (hq : nothing_pending_or_claimed plic)
    (hlow2 : line_asserted plic t2 = false)
    (hen1 : is_enabled plic t1 s = true)
    (hpr1 : plic.target_priority t1 < plic.source_priority s)
    (hpr2 : plic.source_priority s ≤ plic.target_priority t2) :
    line_asserted (sifive_plic_raise_irq plic s).1 t1 = true ∧
      line_asserted (sifive_plic_raise_irq plic s).1 t2 = false := by
  have hscan : s < 32 * plic.bitfield_words := source_in_scan plic s hr hn hs2
  obtain ⟨m', e', heq, hbits⟩ := raise_irq_state plic s (by omega)
  obtain ⟨b1, hb1⟩ := ms_target_bit plic t1 hms1
  obtain ⟨b2, hb2⟩ := ms_target_bit plic t2 hms2
  rw [heq]
  dsimp only
  constructor
  · rw [line_asserted_iff (with_mip (sifive_plic_set_pending plic s true) m') t1 b1 hb1]
    show (m' (target_hart plic t1)).testBit b1 = true
    rw [hbits]
    exact Or.inr ⟨t1, ht1, count_pos_after_first_raise plic t1 s hq hscan hen1 hpr1, rfl, hb1⟩
  · rw [← Bool.not_eq_true,
      line_asserted_iff (with_mip (sifive_plic_set_pending plic s true) m') t2 b2 hb2]
    show ¬ ((m' (target_hart plic t2)).testBit b2 = true)
    rw [hbits]
    rintro (hbit | ⟨t', ht', hc', hh, hb'⟩)
    · have := (line_asserted_iff plic t2 b2 hb2).mpr hbit
      rw [hlow2] at this
      cases this
    · rw [same_line_of_distinct plic hd t2 t' b2 ht2 ht' hb2 hh hb'] at hc'
      exact hc' (count_zero_after_first_raise plic t2 s hq hpr2)

/-- Witness for C12: source 1 (priority 3) of the duo device, M-mode target 0 with
threshold 1 and S-mode target 1 with threshold 5. -/
theorem fan_out_witness :
    (1 ≤ 1 ∧ 1 < duo_plic.num_sources ∧ duo_plic.num_sources + 31 < 2 ^ 32 ∧
        realized_words duo_plic ∧ distinct_targets duo_plic ∧
        0 < duo_plic.num_addrs ∧ 1 < duo_plic.num_addrs ∧
        ms_target duo_plic 0 ∧ ms_target duo_plic 1 ∧
        nothing_pending_or_claimed duo_plic ∧
        line_asserted duo_plic 0 = false ∧ line_asserted duo_plic 1 = false ∧
        is_enabled duo_plic 0 1 = true ∧ is_enabled duo_plic 1 1 = true ∧
        duo_plic.target_priority 0 < duo_plic.source_priority 1 ∧
        duo_plic.source_priority 1 ≤ duo_plic.target_priority 1) ∧
      line_asserted (sifive_plic_raise_irq duo_plic 1).1 0 = true ∧
      line_asserted (sifive_plic_raise_irq duo_plic 1).1 1 = false :=
  ⟨by decide,
    fan_out duo_plic 1 0 1 (by decide) (by decide) (by decide) (by decide) (by decide)
      (by decide) (by decide) (by decide) (by decide) (by decide) (by decide) (by decide)
      (by decide) (by decide)⟩

/-! ## The scenario on any device that meets its conditions -/

/-- After an in-range raise the line of an M- or S-mode target is asserted iff it was
asserted before or the target has work once the pending bit is set. -/
theorem line_after_raise (plic : SiFivePLICState) (s t : Nat)
    (hs : ¬ (s = 0 ∨ s > plic.num_sources)) (hd : distinct_targets plic)
    (ht : t < plic.num_addrs) (hms : ms_target plic t) :
    line_asserted (sifive_plic_raise_irq plic s).1 t = true ↔
      line_asserted plic t = true ∨
        sifive_plic_num_irqs_pending (sifive_plic_set_pending plic s true) t ≠ 0 := by
  obtain ⟨m', e', heq, hbits⟩ := raise_irq_state plic s hs
  obtain ⟨b, hb⟩ := ms_target_bit plic t hms
  rw [heq, line_asserted_iff (with_mip (sifive_plic_set_pending plic s true) m') t b hb,
    line_asserted_iff plic t b hb]
  show (m' (target_hart plic t)).testBit b = true ↔ _
  rw [hbits]
  constructor
  · rintro (hbit | ⟨t', ht', hc', hh, hb'⟩)
    · exact Or.inl hbit
    · rw [same_line_of_distinct plic hd t t' b ht ht' hb hh hb'] at hc'
      exact Or.inr hc'
  · rintro (hbit | hc)
    · exact Or.inl hbit
    · exact Or.inr ⟨t, ht, hc, rfl, hb⟩

/-- The state after an in-range raise is the state with the pending bit set, up to the
`mip` registers. -/
theorem raise_state_eq (plic : SiFivePLICState) (s : Nat)
    (hs : ¬ (s = 0 ∨ s > plic.num_sources)) :
    ∃ m', (sifive_plic_raise_irq plic s).1 =
      with_mip (sifive_plic_set_pending plic s true) m' := by
  obtain ⟨m', e', heq, -⟩ := raise_irq_state plic s hs
  exact ⟨m', by rw [heq]⟩

theorem claimable_raise (plic : SiFivePLICState) (s t x : Nat)
    (hs : ¬ (s = 0 ∨ s > plic.num_sources)) :
    claimable (sifive_plic_raise_irq plic s).1 t x =
      ((if x = s then true else is_pending plic x) && !is_claimed plic x &&
        is_enabled plic t x && decide (plic.source_priority x ≥ plic.target_priority t)) := by
  obtain ⟨m', heq⟩ := raise_state_eq plic s hs
  rw [heq]
  exact claimable_set_pending plic s t x true

theorem eligible_raise (plic : SiFivePLICState) (s t x : Nat)
    (hs : ¬ (s = 0 ∨ s > plic.num_sources)) :
    eligible (sifive_plic_raise_irq plic s).1 t x =
      ((if x = s then true else is_pending plic x) && !is_claimed plic x &&
        is_enabled plic t x && decide (plic.source_priority x > plic.target_priority t)) := by
  obtain ⟨m', heq⟩ := raise_state_eq plic s hs
  rw [heq]
  exact eligible_set_pending plic s t x true

/-- What an in-range raise keeps: the per-source view apart from the pending bit, and the
fields that size and configure the device. -/
theorem raise_keeps (plic : SiFivePLICState) (s : Nat)
    (hs : ¬ (s = 0 ∨ s > plic.num_sources)) :
    (∀ x, is_pending (sifive_plic_raise_irq plic s).1 x =
        if x = s then true else is_pending plic x) ∧
      (∀ x, is_claimed (sifive_plic_raise_irq plic s).1 x = is_claimed plic x) ∧
      (∀ t x, is_enabled (sifive_plic_raise_irq plic s).1 t x = is_enabled plic t x) ∧
      (sifive_plic_raise_irq plic s).1.source_priority = plic.source_priority ∧
      (sifive_plic_raise_irq plic s).1.target_priority = plic.target_priority ∧
      (sifive_plic_raise_irq plic s).1.bitfield_words = plic.bitfield_words ∧
      (sifive_plic_raise_irq plic s).1.num_sources = plic.num_sources ∧
      (sifive_plic_raise_irq plic s).1.num_addrs = plic.num_addrs ∧
      (sifive_plic_raise_irq plic s).1.addr_config = plic.addr_config := by
  obtain ⟨m', heq⟩ := raise_state_eq plic s hs
  rw [heq]
  refine ⟨fun x => ?_, fun x => ?_, fun t x => ?_, rfl, rfl, rfl, rfl, rfl, rfl⟩
  · exact is_pending_set_pending plic s x true
  · exact is_claimed_set_pending plic s x true
  · exact is_enabled_set_pending plic s t x true

/-- What a successful claim of `s` keeps and changes in the per-source view. -/
theorem claimed_state_keeps (st : SiFivePLICState) (s : Nat) :
    (∀ x, is_pending
        (sifive_plic_set_claimed (sifive_plic_set_pending st s false) s true) x =
        if x = s then false else is_pending st x) ∧
      (∀ x, is_claimed
        (sifive_plic_set_claimed (sifive_plic_set_pending st s false) s true) x =
        if x = s then true else is_claimed st x) ∧
      (∀ t x, is_enabled
        (sifive_plic_set_claimed (sifive_plic_set_pending st s false) s true) t x =
        is_enabled st t x) ∧
      (sifive_plic_set_claimed (sifive_plic_set_pending st s false) s true).source_priority =
        st.source_priority ∧
      (sifive_plic_set_claimed (sifive_plic_set_pending st s false) s true).target_priority =
        st.target_priority ∧
      (sifive_plic_set_claimed (sifive_plic_set_pending st s false) s true).bitfield_words =
        st.bitfield_words ∧
      (sifive_plic_set_claimed (sifive_plic_set_pending st s false) s true).num_sources =
        st.num_sources := by
  refine ⟨fun x => ?_, fun x => ?_, fun t x => ?_, rfl, rfl, rfl, rfl⟩
  · rw [is_pending_set_claimed, is_pending_set_pending]
  · rw [is_claimed_set_claimed, is_claimed_set_pending]
  · rw [is_enabled_set_claimed, is_enabled_set_pending]

/-- C11 (amended): on every realized device with 3 sources and distinct targets, an M-mode
target `t` with threshold 3 and its line low, nothing pending or claimed, priorities 3 and
5 for sources 1 and 2, both enabled for `t` (whatever the priority and enable bit of
source 3): raise(1) leaves the line low, raise(2) drives it high, the following claim
returns 1, and after raise(1); raise(3) the second claim returns 2. -/
theorem scenario_trace (plic : SiFivePLICState) (t : Nat)
    (hn : plic.num_sources = 3) (hr : realized_words plic) (hd : distinct_targets plic)
    (ht : t < plic.num_addrs) (hM : target_mode plic t = PLICMode.M)
    (hq : nothing_pending_or_claimed plic) (hlow : line_asserted plic t = false)
    (hp1 : plic.source_priority 1 = 3) (hp2 : plic.source_priority 2 = 5)
    (hthr : plic.target_priority t = 3)
    (hen1 : is_enabled plic t 1 = true) (hen2 : is_enabled plic t 2 = true) :
    line_asserted (run plic [Op.raise 1]) t = false ∧
      line_asserted (run plic [Op.raise 1, Op.raise 2]) t = true ∧
      (sifive_plic_claim (run plic [Op.raise 1, Op.raise 2]) t).1 = 1 ∧
      (sifive_plic_claim
        (run (sifive_plic_claim (run plic [Op.raise 1, Op.raise 2]) t).2
          [Op.raise 1, Op.raise 3]) t).1 = 2 := by
  have hbw : plic.bitfield_words = 1 := by
    have h : plic.bitfield_words = ((plic.num_sources + 31) % 2 ^ 32) >>> 5 := hr
    rw [hn] at h
    exact h
  have hms : ms_target plic t := Or.inl hM
  have hnp : ∀ x, x < 32 → is_pending plic x = false := fun x hx =>
    quiet_not_pending plic hq x (by rw [hbw]; omega)
  have hnc : ∀ x, x < 32 → is_claimed plic x = false := fun x hx =>
    quiet_not_claimed plic hq x (by rw [hbw]; omega)
  -- first raise
  have hs1 : ¬ (1 = 0 ∨ 1 > plic.num_sources) := by rw [hn]; omega
  obtain ⟨K1p, K1c, K1e, K1sp, K1tp, K1bw, K1n, K1na, K1ac⟩ := raise_keeps plic 1 hs1
  have hline1 : line_asserted (sifive_plic_raise_irq plic 1).1 t = false := by
    rw [← Bool.not_eq_true, line_after_raise plic 1 t hs1 hd ht hms]
    rintro (h | h)
    · rw [hlow] at h; cases h
    · exact h (count_zero_after_first_raise plic t 1 hq (by rw [hp1, hthr]))
  have hd1 : distinct_targets (sifive_plic_raise_irq plic 1).1 := by
    intro t1 ht1 t2 ht2
    rw [K1na] at ht1 ht2
    show ((sifive_plic_raise_irq plic 1).1.addr_config t1).hartid =
        ((sifive_plic_raise_irq plic 1).1.addr_config t2).hartid →
      ((sifive_plic_raise_irq plic 1).1.addr_config t1).mode =
        ((sifive_plic_raise_irq plic 1).1.addr_config t2).mode → t1 = t2
    rw [K1ac]
    exact hd t1 ht1 t2 ht2
  have hms1 : ms_target (sifive_plic_raise_irq plic 1).1 t := by
    left
    show ((sifive_plic_raise_irq plic 1).1.addr_config t).mode = PLICMode.M
    rw [K1ac]
    exact hM
  -- second raise
  have hs2 : ¬ (2 = 0 ∨ 2 > (sifive_plic_raise_irq plic 1).1.num_sources) := by
    rw [K1n, hn]; omega
  obtain ⟨K2p, K2c, K2e, K2sp, K2tp, K2bw, K2n, -, -⟩ :=
    raise_keeps (sifive_plic_raise_irq plic 1).1 2 hs2
  have hline2 : line_asserted
      (sifive_plic_raise_irq (sifive_plic_raise_irq plic 1).1 2).1 t = true := by
    rw [line_after_raise _ 2 t hs2 hd1 (by rw [K1na]; exact ht) hms1]
    right
    have hscan : 2 < 32 * (sifive_plic_set_pending
        (sifive_plic_raise_irq plic 1).1 2 true).bitfield_words := by
      show 2 < 32 * (sifive_plic_raise_irq plic 1).1.bitfield_words
      rw [K1bw, hbw]; omega
    apply num_irqs_pending_ne_zero _ t 2 hscan
    rw [eligible_set_pending, K1c, K1e, K1sp, K1tp, hnc 2 (by omega), hen2, hp2, hthr]
    simp
  -- first claim
  have hc1 : sifive_plic_claim (sifive_plic_raise_irq (sifive_plic_raise_irq plic 1).1 2).1 t =
      (1, sifive_plic_set_claimed
        (sifive_plic_set_pending
          (sifive_plic_raise_irq (sifive_plic_raise_irq plic 1).1 2).1 1 false) 1 true) := by
    apply claim_eq_of_least
    · rw [K2bw, K1bw, hbw]; omega
    · rw [claimable_raise _ 2 t 1 hs2, K1p, K1c, K1e, K1sp, K1tp, hnc 1 (by omega), hen1,
        hp1, hthr]
      simp
    · intro x hx
      have hx0 : x = 0 := by omega
      rw [claimable_raise _ 2 t x hs2, K1p, hx0, hnp 0 (by omega)]
      simp
  obtain ⟨K3p, K3c, K3e, K3sp, K3tp, K3bw, K3n⟩ :=
    claimed_state_keeps (sifive_plic_raise_irq (sifive_plic_raise_irq plic 1).1 2).1 1
  -- third raise
  have hs4 : ¬ (1 = 0 ∨ 1 > (sifive_plic_set_claimed
      (sifive_plic_set_pending
        (sifive_plic_raise_irq (sifive_plic_raise_irq plic 1).1 2).1 1 false) 1
      true).num_sources) := by
    rw [K3n, K2n, K1n, hn]; omega
  obtain ⟨K4p, K4c, K4e, K4sp, K4tp, K4bw, K4n, -, -⟩ := raise_keeps _ 1 hs4
  -- fourth raise
  have hs5 : ¬ (3 = 0 ∨ 3 > (sifive_plic_raise_irq (sifive_plic_set_claimed
      (sifive_plic_set_pending
        (sifive_plic_raise_irq (sifive_plic_raise_irq plic 1).1 2).1 1 false) 1
      true) 1).1.num_sources) := by
    rw [K4n, K3n, K2n, K1n, hn]; omega
  obtain ⟨-, -, -, -, -, K5bw, -, -, -⟩ := raise_keeps _ 3 hs5
  -- second claim
  have hc2 : (sifive_plic_claim
      (sifive_plic_raise_irq (sifive_plic_raise_irq (sifive_plic_set_claimed
        (sifive_plic_set_pending
          (sifive_plic_raise_irq (sifive_plic_raise_irq plic 1).1 2).1 1 false) 1
        true) 1).1 3).1 t).1 = 2 := by
    rw [claim_eq_of_least _ t 2]
    · rw [K5bw, K4bw, K3bw, K2bw, K1bw, hbw]; omega
    · rw [claimable_raise _ 3 t 2 hs5, K4p, K4c, K4e, K4sp, K4tp, K3p, K3c, K3e, K3sp, K3tp,
        K2p, K2c, K2e, K2sp, K2tp, K1c, K1e, K1sp, K1tp, hnc 2 (by omega), hen2, hp2, hthr]
      simp
    · intro x hx
      rw [claimable_raise _ 3 t x hs5, K4p, K4c, K3p, K3c, K2p, K2c, K1p, K1c]
      have hx01 : x = 0 ∨ x = 1 := by omega
      rcases hx01 with h0 | h1
      · rw [h0, hnp 0 (by omega)]
        simp
      · rw [h1]
        simp
  have e1 : run plic [Op.raise 1] = (sifive_plic_raise_irq plic 1).1 := rfl
  have e2 : run plic [Op.raise 1, Op.raise 2] =
      (sifive_plic_raise_irq (sifive_plic_raise_irq plic 1).1 2).1 := rfl
  rw [e1, e2, hc1]
  exact ⟨hline1, hline2, rfl, hc2⟩

/-- Witness for the amended C11: the scenario device, with priority 5 in the cell of
source 3. -/
theorem scenario_trace_witness :
    (scenario_plic.num_sources = 3 ∧ scenario_plic.num_priorities = 7 ∧
        realized_words scenario_plic ∧ distinct_targets scenario_plic ∧
        0 < scenario_plic.num_addrs ∧ target_mode scenario_plic 0 = PLICMode.M ∧
        nothing_pending_or_claimed scenario_plic ∧
        line_asserted scenario_plic 0 = false ∧
        scenario_plic.source_priority 1 = 3 ∧ scenario_plic.source_priority 2 = 5 ∧
        scenario_plic.source_priority 3 = 5 ∧ scenario_plic.target_priority 0 = 3 ∧
        is_enabled scenario_plic 0 1 = true ∧ is_enabled scenario_plic 0 2 = true ∧
        is_enabled scenario_plic 0 3 = true) ∧
      line_asserted (run scenario_plic [Op.raise 1]) 0 = false ∧
      line_asserted (run scenario_plic [Op.raise 1, Op.raise 2]) 0 = true ∧
      (sifive_plic_claim (run scenario_plic [Op.raise 1, Op.raise 2]) 0).1 = 1 ∧
      (sifive_plic_claim
        (run (sifive_plic_claim (run scenario_plic [Op.raise 1, Op.raise 2]) 0).2
          [Op.raise 1, Op.raise 3]) 0).1 = 2 :=
  ⟨by decide,
    scenario_trace scenario_plic 0 (by decide) (by decide) (by decide) (by decide)
      (by decide) (by decide) (by decide) (by decide) (by decide) (by decide) (by decide)
      (by decide)⟩

/-! ## Priority registers -/

/-- A write that is aligned and falls in the priority window stores `value & 7`. -/
theorem write_priority_unfold (plic : SiFivePLICState) (addr value size : Nat)
    (hal : addr &&& 0x3 = 0) (hp : in_priority_window plic addr) :
    sifive_plic_write plic addr value size =
      ({ plic with
          source_priority :=
            (Function.update plic.source_priority
              (((addr - plic.priority_base) >>> 2) % 2 ^ 32) (value &&& 7)) }, []) := by
  unfold sifive_plic_write
  have hal' : ¬ (addr &&& 0x3 ≠ 0) := not_not.mpr hal
  simp only [if_neg hal', if_pos hp]

/-- A read that is aligned and falls in the priority window returns the stored priority
and changes nothing. -/
theorem read_priority_unfold (plic : SiFivePLICState) (addr size : Nat)
    (hal : addr &&& 0x3 = 0) (hp : in_priority_window plic addr) :
    sifive_plic_read plic addr size =
      (plic.source_priority (((addr - plic.priority_base) >>> 2) % 2 ^ 32), plic, []) := by
  unfold sifive_plic_read
  have hal' : ¬ (addr &&& 0x3 ≠ 0) := not_not.mpr hal
  simp only [if_neg hal', if_pos hp]

theorem and_three (n : Nat) : n &&& 0x3 = n % 4 :=
  Nat.and_pow_two_sub_one_eq_mod n 2

theorem shiftRight_two (n : Nat) : n >>> 2 = n / 4 := by
  rw [Nat.shiftRight_eq_div_pow]

theorem shiftLeft_two (n : Nat) : n <<< 2 = 4 * n := by
  rw [Nat.shiftLeft_eq, Nat.mul_comm]

/-- The priority register of a source below `num_sources` lies in the priority window
when the window does not wrap. -/
theorem priority_register_decodes (plic : SiFivePLICState) (s : Nat)
    (hal : plic.priority_base % 4 = 0) (hs : s < plic.num_sources)
    (hw : plic.priority_base + 4 * plic.num_sources < 2 ^ 32) :
    (plic.priority_base + 4 * s) &&& 0x3 = 0 ∧
      in_priority_window plic (plic.priority_base + 4 * s) ∧
      (((plic.priority_base + 4 * s) - plic.priority_base) >>> 2) % 2 ^ 32 = s := by
  refine ⟨?_, ⟨?_, ?_⟩, ?_⟩
  · rw [and_three]; omega
  · omega
  · have h4 : 4 * plic.num_sources % 2 ^ 32 = 4 * plic.num_sources :=
      Nat.mod_eq_of_lt (by omega)
    rw [shiftLeft_two, h4, Nat.mod_eq_of_lt hw]
    omega
  · rw [shiftRight_two, Nat.mod_eq_of_lt (by omega)]
    omega

/-- Counterexample to C17 as stated: on the demo device (3 sources, priority window
`[0, 12)`) the address `priority_base + 4 * 3` of source `num_sources = 3` is outside every
window; the write of 5 is rejected and the read returns 0, not `5 & 7`. -/
theorem priority_register_missing_at_num_sources :
    (1 ≤ 3 ∧ 3 ≤ demo_plic.num_sources ∧ demo_plic.priority_base % 4 = 0) ∧
      sifive_plic_write demo_plic (demo_plic.priority_base + 4 * 3) 5 4 =
        (demo_plic, [Effect.error_report (PlicError.invalid_register_write 12)]) ∧
      (sifive_plic_read
        (sifive_plic_write demo_plic (demo_plic.priority_base + 4 * 3) 5 4).1
        (demo_plic.priority_base + 4 * 3) 4).1 = 0 ∧
      (5 &&& 7) ≠ 0 := by
  refine ⟨by decide, rfl, by decide, by decide⟩

/-- C17 (amended): for every source `s` in `[1, num_sources)`, every value `v` and every
`num_priorities`, with `priority_base` 4-byte aligned and the priority window not wrapping
past `2 ^ 32`, a write of `v` to `priority_base + 4 * s` followed by a read of the same
address returns `v & 7`. -/
theorem priority_write_read (plic : SiFivePLICState) (s v size : Nat)
    (hs1 : 1 ≤ s) (hs : s < plic.num_sources) (hal : plic.priority_base % 4 = 0)
    (hw : plic.priority_base + 4 * plic.num_sources < 2 ^ 32) :
    (sifive_plic_read
      (sifive_plic_write plic (plic.priority_base + 4 * s) v size).1
      (plic.priority_base + 4 * s) size).1 = v &&& 7 := by
  have _ := hs1
  obtain ⟨h1, h2, h3⟩ := priority_register_decodes plic s hal hs hw
  have hst := write_priority_unfold plic _ v size h1 h2
  have h2' : in_priority_window
      (sifive_plic_write plic (plic.priority_base + 4 * s) v size).1
      (plic.priority_base + 4 * s) := by
    rw [hst]; exact h2
  rw [read_priority_unfold _ _ size h1 h2', hst]
  dsimp only
  rw [h3]
  exact Function.update_same _ _ _

/-- Witness for the amended C17: source 2 of the demo device, value 13. -/
theorem priority_write_read_witness :
    (1 ≤ 2 ∧ 2 < demo_plic.num_sources ∧ demo_plic.priority_base % 4 = 0 ∧
        demo_plic.priority_base + 4 * demo_plic.num_sources < 2 ^ 32) ∧
      (sifive_plic_read
        (sifive_plic_write demo_plic (demo_plic.priority_base + 4 * 2) 13 4).1
        (demo_plic.priority_base + 4 * 2) 4).1 = 13 &&& 7 :=
  ⟨by decide,
    priority_write_read demo_plic 2 13 4 (by decide) (by decide) (by decide) (by decide)⟩

/-! ## Threshold registers -/

/-- A write that decodes to a threshold register stores the value when it does not exceed
`num_priorities` and does nothing otherwise; it reports nothing. -/
theorem write_threshold_unfold (plic : SiFivePLICState) (addr value size : Nat)
    (h : decodes_to_threshold plic addr) :
    sifive_plic_write plic addr value size =
      if value ≤ plic.num_priorities then
        ({ plic with target_priority :=
            Function.update plic.target_priority (context_addrid plic addr) value }, [])
      else (plic, []) := by
  obtain ⟨hal, hp, hq, he, hc, hid⟩ := h
  unfold sifive_plic_write
  have hal' : ¬ (addr &&& 0x3 ≠ 0) := not_not.mpr hal
  simp only [if_neg hal', if_neg hp, if_neg hq, if_neg he, if_pos hc, hid]
  rfl

/-- A read that decodes to a threshold register returns the threshold of the slot's target
and changes nothing. -/
theorem read_threshold_unfold (plic : SiFivePLICState) (addr size : Nat)
    (h : decodes_to_threshold plic addr) :
    sifive_plic_read plic addr size =
      (plic.target_priority (context_addrid plic addr), plic, []) := by
  obtain ⟨hal, hp, hq, he, hc, hid⟩ := h
  unfold sifive_plic_read
  have hal' : ¬ (addr &&& 0x3 ≠ 0) := not_not.mpr hal
  simp only [if_neg hal', if_neg hp, if_neg hq, if_neg he, if_pos hc, hid]
  rfl

/-- C18: a write of `v` that decodes to the threshold register of target `t` stores `v` as
the threshold of `t` when `v <= num_priorities` and leaves it unchanged when
`v > num_priorities`; in both cases nothing is reported, every other threshold is kept and
every other field (priorities, enables, pending and claimed bitsets, the harts' `mip`, the
configuration) is unchanged. -/
theorem threshold_write (plic : SiFivePLICState) (addr v size t : Nat)
    (h : decodes_to_threshold plic addr) (ht : context_addrid plic addr = t) :
    (v ≤ plic.num_priorities →
        (sifive_plic_write plic addr v size).1.target_priority t = v) ∧
      (v > plic.num_priorities →
        (sifive_plic_write plic addr v size).1.target_priority t =
          plic.target_priority t) ∧
      (∀ t', t' ≠ t →
        (sifive_plic_write plic addr v size).1.target_priority t' =
          plic.target_priority t') ∧
      (sifive_plic_write plic addr v size).1 =
        { plic with
          target_priority := (sifive_plic_write plic addr v size).1.target_priority } ∧
      (sifive_plic_write plic addr v size).2 = [] := by
  rw [write_threshold_unfold plic addr v size h, ht]
  by_cases hv : v ≤ plic.num_priorities
  · rw [if_pos hv]
    refine ⟨fun _ => ?_, fun hgt => ?_, fun t' ht' => ?_, rfl, rfl⟩
    · exact Function.update_same _ _ _
    · omega
    · exact Function.update_noteq ht' _ _
  · rw [if_neg hv]
    exact ⟨fun hle => absurd hle hv, fun _ => rfl, fun _ _ => rfl, rfl, rfl⟩

/-- Witness for C18: the threshold register of target 0 of the demo device is at
0x200000; 5 is stored, 9 exceeds `num_priorities = 7` and is ignored. -/
theorem threshold_write_witness :
    (decodes_to_threshold demo_plic 0x200000 ∧ context_addrid demo_plic 0x200000 = 0 ∧
        5 ≤ demo_plic.num_priorities ∧ 9 > demo_plic.num_priorities) ∧
      (sifive_plic_write demo_plic 0x200000 5 4).1.target_priority 0 = 5 ∧
      (sifive_plic_write demo_plic 0x200000 9 4).1.target_priority 0 =
        demo_plic.target_priority 0 :=
  ⟨by decide,
    (threshold_write demo_plic 0x200000 5 4 0 (by decide) (by decide)).1 (by decide),
    (threshold_write demo_plic 0x200000 9 4 0 (by decide) (by decide)).2.1 (by decide)⟩

/-! ## Enable words -/

/-- A write that decodes to an enable word stores the truncated value there and reports
nothing. -/
theorem write_enable_unfold (plic : SiFivePLICState) (addr value size : Nat)
    (h : decodes_to_enable_word plic addr) :
    sifive_plic_write plic addr value size =
      ({ plic with
          enable :=
            (Function.update plic.enable
              (enable_addrid plic addr * plic.bitfield_words + enable_wordid plic addr)
              (value % 2 ^ 32)) }, []) := by
  obtain ⟨hal, hp, hq, he, hw⟩ := h
  unfold sifive_plic_write
  have hal' : ¬ (addr &&& 0x3 ≠ 0) := not_not.mpr hal
  simp only [if_neg hal', if_neg hp, if_neg hq, if_pos he, if_pos hw]

/-- A read that decodes to an enable word returns the word and changes nothing. -/
theorem read_enable_unfold (plic : SiFivePLICState) (addr size : Nat)
    (h : decodes_to_enable_word plic addr) :
    sifive_plic_read plic addr size =
      (plic.enable
        (enable_addrid plic addr * plic.bitfield_words + enable_wordid plic addr),
        plic, []) := by
  obtain ⟨hal, hp, hq, he, hw⟩ := h
  unfold sifive_plic_read
  have hal' : ¬ (addr &&& 0x3 ≠ 0) := not_not.mpr hal
  simp only [if_neg hal', if_neg hp, if_neg hq, if_pos he, if_pos hw]

/-- For a power-of-two stride below `2 ^ 32` the mask `stride - 1` selects the remainder. -/
theorem and_stride_mask (a k : Nat) (hlt : 2 ^ k < 2 ^ 32) :
    a &&& stride_mask (2 ^ k) = a % 2 ^ k := by
  unfold stride_mask
  have hpos : 0 < 2 ^ k := Nat.pow_pos (by norm_num)
  have h1 : (2 ^ k + 2 ^ 32 - 1) % 2 ^ 32 = 2 ^ k - 1 := by omega
  rw [h1, Nat.and_pow_two_sub_one_eq_mod]

/-- In the enable window of a device with a power-of-two stride the decoder's indices are
`(a - enable_base) / enable_stride` and `(a mod enable_stride) / 4`. -/
theorem enable_indices (plic : SiFivePLICState) (a k : Nat)
    (hk : plic.enable_stride = 2 ^ k) (hlt : plic.enable_stride < 2 ^ 32)
    (he : in_enable_window plic a) :
    enable_addrid plic a = (a - plic.enable_base) / plic.enable_stride ∧
      enable_wordid plic a = (a % plic.enable_stride) / 4 := by
  have ha : a < 2 ^ 32 := lt_trans he.2 (Nat.mod_lt _ (by norm_num))
  constructor
  · unfold enable_addrid
    apply Nat.mod_eq_of_lt
    exact lt_of_le_of_lt (Nat.div_le_self _ _) (by omega)
  · unfold enable_wordid
    rw [hk] at hlt ⊢
    rw [and_stride_mask a k hlt, shiftRight_two]
    apply Nat.mod_eq_of_lt
    have : a % 2 ^ k ≤ a := Nat.mod_le _ _
    omega

/-- C20: for a 4-aligned address `a` in the enable window that lies in no earlier window,
on a device whose enable stride is a power of two (as construction asserts), with
`t = (a - enable_base) / enable_stride` and `w = (a mod enable_stride) / 4` below
`bitfield_words`: a write of `v` stores `v mod 2 ^ 32` into enable word `w` of target `t`,
changes nothing else and reports nothing, and a read of `a` afterwards returns
`v mod 2 ^ 32`. -/
theorem enable_write_read (plic : SiFivePLICState) (a v size k : Nat)
    (hk : plic.enable_stride = 2 ^ k) (hlt : plic.enable_stride < 2 ^ 32)
    (hal : a % 4 = 0) (hp : ¬ in_priority_window plic a)
    (hq : ¬ in_pending_window plic a) (he : in_enable_window plic a)
    (hw : (a % plic.enable_stride) / 4 < plic.bitfield_words) :
    sifive_plic_write plic a v size =
        ({ plic with
            enable :=
              (Function.update plic.enable
                ((a - plic.enable_base) / plic.enable_stride * plic.bitfield_words +
                  (a % plic.enable_stride) / 4)
                (v % 2 ^ 32)) }, []) ∧
      sifive_plic_read (sifive_plic_write plic a v size).1 a size =
        (v % 2 ^ 32, (sifive_plic_write plic a v size).1, []) := by
  obtain ⟨hti, hwi⟩ := enable_indices plic a k hk hlt he
  have hdec : decodes_to_enable_word plic a :=
    ⟨by rw [and_three]; exact hal, hp, hq, he, by rw [hwi]; exact hw⟩
  have hst := write_enable_unfold plic a v size hdec
  rw [hti, hwi] at hst
  have hdec' : decodes_to_enable_word (sifive_plic_write plic a v size).1 a := by
    rw [hst]; exact hdec
  refine ⟨hst, ?_⟩
  rw [read_enable_unfold _ a size hdec']
  have hval : (sifive_plic_write plic a v size).1.enable
      (enable_addrid (sifive_plic_write plic a v size).1 a *
          (sifive_plic_write plic a v size).1.bitfield_words +
        enable_wordid (sifive_plic_write plic a v size).1 a) = v % 2 ^ 32 := by
    rw [hst]
    show Function.update plic.enable _ (v % 2 ^ 32)
      (enable_addrid plic a * plic.bitfield_words + enable_wordid plic a) = v % 2 ^ 32
    rw [hti, hwi]
    exact Function.update_same _ _ _
  rw [hval]

/-- Witness for C20: enable word 0 of target 0 of the demo device, at 0x2000. -/
theorem enable_write_read_witness :
    (demo_plic.enable_stride = 2 ^ 7 ∧ demo_plic.enable_stride < 2 ^ 32 ∧
        0x2000 % 4 = 0 ∧ ¬ in_priority_window demo_plic 0x2000 ∧
        ¬ in_pending_window demo_plic 0x2000 ∧ in_enable_window demo_plic 0x2000 ∧
        (0x2000 % demo_plic.enable_stride) / 4 < demo_plic.bitfield_words) ∧
      sifive_plic_read (sifive_plic_write demo_plic 0x2000 0x10000000e 4).1 0x2000 4 =
        (0x10000000e % 2 ^ 32, (sifive_plic_write demo_plic 0x2000 0x10000000e 4).1, []) :=
  ⟨by decide,
    (enable_write_read demo_plic 0x2000 0x10000000e 4 7 (by decide) (by decide) (by decide)
      (by decide) (by decide) (by decide) (by decide)).2⟩

/-! ## Context slots -/

/-- Counterexample to C19 as stated: construction accepts the context stride 4 (a power of
two); the device has target 0, and `context_base + 0 * 4 + 4` is outside its one-word
context window, so the read and the write there are invalid accesses, not claim and
complete. -/
theorem context_slot_too_narrow :
    ∃ st,
      sifive_plic_create zero_heap { num_harts := 1, mip := fun _ => 0 } "M".toList
          3 7 0x0 0x1000 0x2000 0x80 0x200000 4 = Except.ok st ∧
        0 < st.num_addrs ∧
        sifive_plic_read st (st.context_base + 0 * st.context_stride + 4) 4 =
          (0, st, [Effect.error_report (PlicError.invalid_register_read 0x200004)]) ∧
        sifive_plic_write st (st.context_base + 0 * st.context_stride + 4) 1 4 =
          (st, [Effect.error_report (PlicError.invalid_register_write 0x200004)]) := by
  refine ⟨_, rfl, by decide, rfl, rfl⟩

/-- Addresses of the two registers of a context slot, for a power-of-two stride of at
least 8 and a base that is a multiple of the stride, in a window that does not wrap. -/
theorem context_slot_decodes (plic : SiFivePLICState) (t k : Nat)
    (hk : plic.context_stride = 2 ^ k) (h3 : 3 ≤ k)
    (hbase : plic.context_base % plic.context_stride = 0) (ht : t < plic.num_addrs)
    (hw : plic.context_base + plic.num_addrs * plic.context_stride < 2 ^ 32) :
    ((plic.context_base + t * plic.context_stride) &&& 0x3 = 0 ∧
        in_context_window plic (plic.context_base + t * plic.context_stride) ∧
        context_contextid plic (plic.context_base + t * plic.context_stride) = 0 ∧
        context_addrid plic (plic.context_base + t * plic.context_stride) = t) ∧
      ((plic.context_base + t * plic.context_stride + 4) &&& 0x3 = 0 ∧
        in_context_window plic (plic.context_base + t * plic.context_stride + 4) ∧
        context_contextid plic (plic.context_base + t * plic.context_stride + 4) = 4 ∧
        context_addrid plic (plic.context_base + t * plic.context_stride + 4) = t) := by
  obtain ⟨q, hq⟩ : ∃ q, plic.context_base = plic.context_stride * q :=
    ⟨plic.context_base / plic.context_stride, (Nat.mul_div_cancel' (Nat.dvd_of_mod_eq_zero hbase)).symm⟩
  obtain ⟨r, hr⟩ : ∃ r, plic.context_stride = 8 * r := by
    refine ⟨2 ^ (k - 3), ?_⟩
    rw [hk, show (8 : Nat) = 2 ^ 3 from rfl, ← Nat.pow_add]
    congr 1
    omega
  have hSpos : 0 < plic.context_stride := by rw [hk]; exact Nat.pow_pos (by norm_num)
  have hle : (t + 1) * plic.context_stride ≤ plic.num_addrs * plic.context_stride :=
    Nat.mul_le_mul_right _ (by omega)
  have hsucc : (t + 1) * plic.context_stride = t * plic.context_stride + plic.context_stride := by
    ring
  have hSlt : plic.context_stride < 2 ^ 32 := by omega
  have hnle : plic.num_addrs ≤ plic.num_addrs * plic.context_stride :=
    Nat.le_mul_of_pos_right _ hSpos
  have htlt : t < 2 ^ 32 := by omega
  have hmask : ∀ a, context_contextid plic a = a % plic.context_stride := by
    intro a
    unfold context_contextid
    rw [hk] at hSlt ⊢
    rw [and_stride_mask a k hSlt]
    apply Nat.mod_eq_of_lt
    have : a % 2 ^ k < 2 ^ k := Nat.mod_lt _ (Nat.pow_pos (by norm_num))
    omega
  have hmul : plic.context_base + t * plic.context_stride = plic.context_stride * (q + t) := by
    rw [hq]; ring
  have hmod0 : (plic.context_base + t * plic.context_stride) % plic.context_stride = 0 := by
    rw [hmul]; exact Nat.mul_mod_right _ _
  have hmod4 : (plic.context_base + t * plic.context_stride + 4) % plic.context_stride = 4 := by
    rw [hmul, Nat.mul_add_mod]
    exact Nat.mod_eq_of_lt (by omega)
  have hal0 : (plic.context_base + t * plic.context_stride) % 4 = 0 := by
    have : plic.context_base + t * plic.context_stride = 4 * (2 * r * (q + t)) := by
      rw [hmul, hr]; ring
    omega
  have hdiv0 : (plic.context_base + t * plic.context_stride - plic.context_base) /
      plic.context_stride = t := by
    rw [Nat.add_sub_cancel_left]
    exact Nat.mul_div_cancel _ hSpos
  have hdiv4 : (plic.context_base + t * plic.context_stride + 4 - plic.context_base) /
      plic.context_stride = t := by
    have : plic.context_base + t * plic.context_stride + 4 - plic.context_base =
        4 + plic.context_stride * t := by
      rw [Nat.mul_comm]; omega
    rw [this, Nat.add_mul_div_left _ _ hSpos, Nat.div_eq_of_lt (by omega)]
    omega
  have hwin : (plic.context_base + (plic.num_addrs * plic.context_stride) % 2 ^ 32) % 2 ^ 32 =
      plic.context_base + plic.num_addrs * plic.context_stride := by
    rw [Nat.mod_eq_of_lt (show plic.num_addrs * plic.context_stride < 2 ^ 32 by omega),
      Nat.mod_eq_of_lt hw]
  refine ⟨⟨?_, ⟨?_, ?_⟩, ?_, ?_⟩, ⟨?_, ⟨?_, ?_⟩, ?_, ?_⟩⟩
  · rw [and_three]; exact hal0
  · omega
  · rw [hwin]; omega
  · rw [hmask]; exact hmod0
  · unfold context_addrid
    rw [hdiv0]
    exact Nat.mod_eq_of_lt htlt
  · rw [and_three]; omega
  · omega
  · rw [hwin]; omega
  · rw [hmask]; exact hmod4
  · unfold context_addrid
    rw [hdiv4]
    exact Nat.mod_eq_of_lt htlt

/-- C19 (amended): on a device whose context stride is a power of two of at least 8, whose
context base is a multiple of the stride and whose context window does not wrap past
`2 ^ 32`, for every target `t < num_addrs` whose two addresses lie in none of the
priority, pending and enable windows: `context_base + t * context_stride` is the threshold
register of `t` (a write of `v <= num_priorities` followed by a read returns `v`), and
`context_base + t * context_stride + 4` is the claim register of `t` on read and the
complete register on write. -/
theorem context_registers (plic : SiFivePLICState) (t v size k : Nat)
    (hk : plic.context_stride = 2 ^ k) (h3 : 3 ≤ k)
    (hbase : plic.context_base % plic.context_stride = 0) (ht : t < plic.num_addrs)
    (hw : plic.context_base + plic.num_addrs * plic.context_stride < 2 ^ 32)
    (hn : plic.num_sources < 2 ^ 32)
    (hfree0 : ¬ in_priority_window plic (plic.context_base + t * plic.context_stride) ∧
      ¬ in_pending_window plic (plic.context_base + t * plic.context_stride) ∧
      ¬ in_enable_window plic (plic.context_base + t * plic.context_stride))
    (hfree4 : ¬ in_priority_window plic (plic.context_base + t * plic.context_stride + 4) ∧
      ¬ in_pending_window plic (plic.context_base + t * plic.context_stride + 4) ∧
      ¬ in_enable_window plic (plic.context_base + t * plic.context_stride + 4)) :
    (v ≤ plic.num_priorities →
        (sifive_plic_read
          (sifive_plic_write plic (plic.context_base + t * plic.context_stride) v size).1
          (plic.context_base + t * plic.context_stride) size).1 = v) ∧
      sifive_plic_read plic (plic.context_base + t * plic.context_stride + 4) size =
        ((sifive_plic_claim plic t).1, (sifive_plic_claim plic t).2, []) ∧
      (v < plic.num_sources →
        sifive_plic_write plic (plic.context_base + t * plic.context_stride + 4) v size =
          sifive_plic_lower_irq plic v) ∧
      (v ≥ plic.num_sources →
        sifive_plic_write plic (plic.context_base + t * plic.context_stride + 4) v size =
          (plic, [])) := by
  obtain ⟨⟨hal0, hwin0, hid0, hadr0⟩, ⟨hal4, hwin4, hid4, hadr4⟩⟩ :=
    context_slot_decodes plic t k hk h3 hbase ht hw
  have hthr : decodes_to_threshold plic (plic.context_base + t * plic.context_stride) :=
    ⟨hal0, hfree0.1, hfree0.2.1, hfree0.2.2, hwin0, hid0⟩
  have hcl : decodes_to_claim_complete plic (plic.context_base + t * plic.context_stride + 4) :=
    ⟨hal4, hfree4.1, hfree4.2.1, hfree4.2.2, hwin4, hid4⟩
  refine ⟨fun hv => ?_, ?_, fun hv => ?_, fun hv => ?_⟩
  · have hst := write_threshold_unfold plic _ v size hthr
    rw [if_pos hv, hadr0] at hst
    have hthr' : decodes_to_threshold
        (sifive_plic_write plic (plic.context_base + t * plic.context_stride) v size).1
        (plic.context_base + t * plic.context_stride) := by
      rw [hst]; exact hthr
    rw [read_threshold_unfold _ _ size hthr', hst]
    show Function.update plic.target_priority t v
      (context_addrid plic (plic.context_base + t * plic.context_stride)) = v
    rw [hadr0]
    exact Function.update_same _ _ _
  · rw [read_claim_unfold plic _ size hcl, hadr4]
  · rw [write_complete_unfold plic _ v size hcl, if_pos hv, Nat.mod_eq_of_lt (by omega)]
  · rw [write_complete_unfold plic _ v size hcl, if_neg (by omega)]

/-- Witness for the amended C19: target 0 of the demo device, whose context slot is the
0x1000 bytes at 0x200000. -/
theorem context_registers_witness :
    (demo_plic.context_stride = 2 ^ 12 ∧
        demo_plic.context_base % demo_plic.context_stride = 0 ∧
        0 < demo_plic.num_addrs ∧
        demo_plic.context_base + demo_plic.num_addrs * demo_plic.context_stride < 2 ^ 32 ∧
        demo_plic.num_sources < 2 ^ 32 ∧ 5 ≤ demo_plic.num_priorities) ∧
      (sifive_plic_read
        (sifive_plic_write demo_plic
          (demo_plic.context_base + 0 * demo_plic.context_stride) 5 4).1
        (demo_plic.context_base + 0 * demo_plic.context_stride) 4).1 = 5 :=
  ⟨by decide,
    (context_registers demo_plic 0 5 4 12 (by decide) (by decide) (by decide) (by decide)
      (by decide) (by decide) (by decide) (by decide)).1 (by decide)⟩

/-! ## Hart configuration parser: characters and modes -/

theorem char_to_mode_ok (c : Char) (md : PLICMode) (h : char_to_mode c = Except.ok md) :
    c = mode_letter md := by
  unfold char_to_mode at h
  by_cases hU : c = 'U'
  · rw [if_pos hU] at h
    cases h
    exact hU
  · rw [if_neg hU] at h
    by_cases hS : c = 'S'
    · rw [if_pos hS] at h
      cases h
      exact hS
    · rw [if_neg hS] at h
      by_cases hH : c = 'H'
      · rw [if_pos hH] at h
        cases h
        exact hH
      · rw [if_neg hH] at h
        by_cases hM : c = 'M'
        · rw [if_pos hM] at h
          cases h
          exact hM
        · rw [if_neg hM] at h
          cases h

theorem char_to_mode_letter (md : PLICMode) :
    char_to_mode (mode_letter md) = Except.ok md := by
  cases md <;> rfl

theorem is_mode_letter_iff (c : Char) : is_mode_letter c ↔ ∃ md, c = mode_letter md := by
  constructor
  · rintro (h | h | h | h)
    · exact ⟨PLICMode.U, h⟩
    · exact ⟨PLICMode.S, h⟩
    · exact ⟨PLICMode.H, h⟩
    · exact ⟨PLICMode.M, h⟩
  · rintro ⟨md, h⟩
    cases md
    · exact Or.inl h
    · exact Or.inr (Or.inl h)
    · exact Or.inr (Or.inr (Or.inl h))
    · exact Or.inr (Or.inr (Or.inr h))

theorem char_to_mode_of_letter (c : Char) (h : is_mode_letter c) :
    ∃ md, char_to_mode c = Except.ok md := by
  obtain ⟨md, hmd⟩ := (is_mode_letter_iff c).mp h
  exact ⟨md, by rw [hmd]; exact char_to_mode_letter md⟩

theorem char_to_mode_of_not_letter (c : Char) (h : ¬ is_mode_letter c) :
    char_to_mode c = Except.error (ConfigError.invalid_mode c) := by
  unfold char_to_mode
  have hU : ¬ c = 'U' := fun e => h (Or.inl e)
  have hS : ¬ c = 'S' := fun e => h (Or.inr (Or.inl e))
  have hH : ¬ c = 'H' := fun e => h (Or.inr (Or.inr (Or.inl e)))
  have hM : ¬ c = 'M' := fun e => h (Or.inr (Or.inr (Or.inr e)))
  rw [if_neg hU, if_neg hS, if_neg hH, if_neg hM]

theorem mode_letter_ne_comma (md : PLICMode) : mode_letter md ≠ ',' := by
  cases md <;> decide

theorem mode_index_lt (md : PLICMode) : mode_index md < 4 := by
  cases md <;> decide

theorem mode_index_inj (a b : PLICMode) (h : mode_index a = mode_index b) : a = b := by
  cases a <;> cases b <;> first | rfl | cases h

/-- Adding a new mode bit to a 4-bit mask: the bit was clear, the population count grows
by one and the mask stays below 16. -/
theorem mask_add_bit :
    ∀ m, m < 16 → ∀ i, i < 4 → m ≠ (m ||| 1 <<< i) →
      m.testBit i = false ∧ popcount (m ||| 1 <<< i) = popcount m + 1 ∧
        (m ||| 1 <<< i) < 16 := by
  decide

theorem mask_same_bit :
    ∀ m, m < 16 → ∀ i, i < 4 → m = (m ||| 1 <<< i) → m.testBit i = true := by
  decide

/-! ## The storing loop -/

theorem config_letters_cons_comma (c : Char) (p : List Char) (hc : c = ',') :
    config_letters (c :: p) = config_letters p := by
  simp [config_letters, hc]

theorem config_letters_cons_letter (c : Char) (p : List Char) (hc : ¬ c = ',') :
    config_letters (c :: p) = c :: config_letters p := by
  simp [config_letters, hc]

theorem count_comma_cons_comma (c : Char) (p : List Char) (hc : c = ',') :
    (c :: p).count ',' = p.count ',' + 1 := by
  rw [List.count_cons, hc]
  simp

theorem count_comma_cons_letter (c : Char) (p : List Char) (hc : ¬ c = ',') :
    (c :: p).count ',' = p.count ',' := by
  rw [List.count_cons]
  simp [hc]

/-- The storing loop writes one entry per non-comma character: entry `k` carries the next
address id, the hart id advanced by the commas before the `k`-th non-comma character, and
the mode that character names. -/
theorem store_pass_spec (s : List Char) :
    ∀ (addrid hartid : Nat) (entries : List PLICAddr),
      store_pass s addrid hartid = Except.ok entries →
        entries.length = (config_letters s).length ∧
          ∀ k, k < entries.length →
            ∃ i c mode, s[i]? = some c ∧ c ≠ ',' ∧
              (config_letters (s.take i)).length = k ∧
              char_to_mode c = Except.ok mode ∧
              entries[k]? = some
                { addrid := addrid + k, hartid := hartid + (s.take i).count ',',
                  mode := mode } := by
  induction s with
  | nil =>
    intro addrid hartid entries h
    cases h
    exact ⟨rfl, fun k hk => absurd hk (Nat.not_lt_zero k)⟩
  | cons c p ih =>
    intro addrid hartid entries h
    by_cases hc : c = ','
    · have hstep : store_pass (c :: p) addrid hartid = store_pass p addrid (hartid + 1) := by
        rw [store_pass, if_pos hc]
      rw [hstep] at h
      obtain ⟨hlen, hent⟩ := ih addrid (hartid + 1) entries h
      refine ⟨by rw [config_letters_cons_comma c p hc]; exact hlen, fun k hk => ?_⟩
      obtain ⟨i, c', mode, hi, hc', hk', hmode, hentry⟩ := hent k hk
      refine ⟨i + 1, c', mode, by simpa using hi, hc', ?_, hmode, ?_⟩
      · rw [List.take_succ_cons, config_letters_cons_comma c _ hc]
        exact hk'
      · rw [hentry, List.take_succ_cons, count_comma_cons_comma c _ hc]
        congr 2
        omega
    · rw [store_pass, if_neg hc] at h
      cases hm : char_to_mode c with
      | error e =>
        rw [hm] at h
        cases h
      | ok mode =>
        rw [hm] at h
        cases hrest : store_pass p (addrid + 1) hartid with
        | error e =>
          rw [hrest] at h
          cases h
        | ok rest =>
          rw [hrest] at h
          cases h
          obtain ⟨hlen, hent⟩ := ih (addrid + 1) hartid rest hrest
          refine ⟨by rw [config_letters_cons_letter c p hc]; simp [hlen], fun k hk => ?_⟩
          cases k with
          | zero =>
            exact ⟨0, c, mode, by simp, hc, rfl, hm, by simp⟩
          | succ k =>
            have hk' : k < rest.length := by simpa using hk
            obtain ⟨i, c', mode', hi, hc', hkk, hmode, hentry⟩ := hent k hk'
            refine ⟨i + 1, c', mode', by simpa using hi, hc', ?_, hmode, ?_⟩
            · rw [List.take_succ_cons, config_letters_cons_letter c _ hc, List.length_cons,
                hkk]
            · rw [List.getElem?_cons_succ, hentry, List.take_succ_cons,
                count_comma_cons_letter c _ hc]
              congr 2
              omega

/-! ## The counting loop -/

theorem popcount_zero : popcount 0 = 0 := by
  decide

theorem count_pass_comma (c : Char) (p : List Char) (a h m : Nat) (hc : c = ',') :
    count_pass (c :: p) a h m = count_pass p (a + popcount m) (h + 1) 0 := by
  rw [count_pass, if_pos hc]

theorem count_pass_invalid (c : Char) (p : List Char) (a h m : Nat) (hc : ¬ c = ',')
    (e : ConfigError) (hm : char_to_mode c = Except.error e) :
    count_pass (c :: p) a h m = Except.error e := by
  rw [count_pass, if_neg hc, hm]

theorem count_pass_duplicate (c : Char) (p : List Char) (a h m : Nat) (hc : ¬ c = ',')
    (md : PLICMode) (hm : char_to_mode c = Except.ok md)
    (hdup : m = (m ||| 1 <<< mode_index md)) :
    count_pass (c :: p) a h m = Except.error (ConfigError.duplicate_mode c) := by
  rw [count_pass, if_neg hc, hm]
  dsimp only
  rw [if_pos hdup]

theorem count_pass_letter (c : Char) (p : List Char) (a h m : Nat) (hc : ¬ c = ',')
    (md : PLICMode) (hm : char_to_mode c = Except.ok md)
    (hdup : ¬ m = (m ||| 1 <<< mode_index md)) :
    count_pass (c :: p) a h m = count_pass p a h (m ||| 1 <<< mode_index md) := by
  rw [count_pass, if_neg hc, hm]
  dsimp only
  rw [if_neg hdup]

/-- When the counting loop runs to the end, the address count plus the population count
of the open group has grown by the number of non-comma characters, the hart count by the
number of commas, and the mask is a 4-bit mask. -/
theorem count_pass_totals (s : List Char) :
    ∀ (a h m : Nat) (r : Nat × Nat × Nat),
      count_pass s a h m = Except.ok r → m < 16 →
        r.1 + popcount r.2.2 = a + popcount m + (config_letters s).length ∧
          r.2.1 = h + s.count ',' ∧ r.2.2 < 16 := by
  induction s with
  | nil =>
    intro a h m r hr hm
    cases hr
    exact ⟨rfl, rfl, hm⟩
  | cons c p ih =>
    intro a h m r hr hm
    by_cases hc : c = ','
    · rw [count_pass_comma c p a h m hc] at hr
      obtain ⟨h1, h2, h3⟩ := ih _ _ _ r hr (by norm_num)
      rw [config_letters_cons_comma c p hc, count_comma_cons_comma c p hc]
      rw [popcount_zero] at h1
      exact ⟨by omega, by omega, h3⟩
    · cases hmd : char_to_mode c with
      | error e =>
        rw [count_pass_invalid c p a h m hc e hmd] at hr
        cases hr
      | ok md =>
        by_cases hdup : m = (m ||| 1 <<< mode_index md)
        · rw [count_pass_duplicate c p a h m hc md hmd hdup] at hr
          cases hr
        · rw [count_pass_letter c p a h m hc md hmd hdup] at hr
          obtain ⟨-, hpop, hlt⟩ := mask_add_bit m hm (mode_index md) (mode_index_lt md) hdup
          obtain ⟨h1, h2, h3⟩ := ih _ _ _ r hr hlt
          rw [config_letters_cons_letter c p hc, count_comma_cons_letter c p hc,
            List.length_cons]
          rw [hpop] at h1
          exact ⟨by omega, h2, h3⟩

/-- Unfolding of the parser after a counting loop that ran to the end. -/
theorem parse_of_count_ok (s : List Char) (num_harts a h m : Nat)
    (hc : count_pass s 0 0 0 = Except.ok (a, h, m)) :
    parse_hart_config s num_harts =
      if h + 1 ≠ num_harts then
        Except.error (ConfigError.hart_count_mismatch (h + 1) num_harts)
      else
        match store_pass s 0 0 with
        | Except.error e => Except.error e
        | Except.ok entries =>
          Except.ok ((if m ≠ 0 then a + popcount m else a), entries) := by
  unfold parse_hart_config
  rw [hc]

/-- Unfolding of the parser after a counting loop that stopped with an error. -/
theorem parse_of_count_error (s : List Char) (num_harts : Nat) (e : ConfigError)
    (hc : count_pass s 0 0 0 = Except.error e) :
    parse_hart_config s num_harts = Except.error e := by
  unfold parse_hart_config
  rw [hc]

/-- An accepted string went through both loops. -/
theorem parse_ok_inv (s : List Char) (num_harts n : Nat) (entries : List PLICAddr)
    (h : parse_hart_config s num_harts = Except.ok (n, entries)) :
    ∃ a hc m, count_pass s 0 0 0 = Except.ok (a, hc, m) ∧ hc + 1 = num_harts ∧
      n = (if m ≠ 0 then a + popcount m else a) ∧
      store_pass s 0 0 = Except.ok entries := by
  cases hcp : count_pass s 0 0 0 with
  | error e =>
    rw [parse_of_count_error s num_harts e hcp] at h
    cases h
  | ok r =>
    obtain ⟨a, hc, m⟩ := r
    rw [parse_of_count_ok s num_harts a hc m hcp] at h
    by_cases hh : hc + 1 ≠ num_harts
    · rw [if_pos hh] at h
      cases h
    · rw [if_neg hh] at h
      cases hst : store_pass s 0 0 with
      | error e =>
        rw [hst] at h
        cases h
      | ok ents =>
        rw [hst] at h
        cases h
        exact ⟨a, hc, m, rfl, not_not.mp hh, rfl, rfl⟩

/-- C13: when `parse_hart_config` accepts a string, `num_addrs` is the number of its
non-comma characters, `addr_config` has that many entries, and entry `k` has `addrid = k`,
the mode named by the `k`-th non-comma character and `hartid` equal to the number of
commas before that character. -/
theorem parse_entries (s : List Char) (num_harts n : Nat) (entries : List PLICAddr)
    (h : parse_hart_config s num_harts = Except.ok (n, entries)) :
    n = (config_letters s).length ∧ entries.length = n ∧
      ∀ k, k < n →
        ∃ i c mode, s[i]? = some c ∧ c ≠ ',' ∧
          (config_letters (s.take i)).length = k ∧
          char_to_mode c = Except.ok mode ∧
          entries[k]? = some
            { addrid := k, hartid := (s.take i).count ',', mode := mode } := by
  obtain ⟨a, hc, m, hcount, -, hn, hstore⟩ := parse_ok_inv s num_harts n entries h
  obtain ⟨htot, -, -⟩ := count_pass_totals s 0 0 0 (a, hc, m) hcount (by norm_num)
  obtain ⟨hlen, hent⟩ := store_pass_spec s 0 0 entries hstore
  have hn' : n = (config_letters s).length := by
    rw [hn]
    rw [popcount_zero] at htot
    dsimp only at htot
    by_cases hm : m ≠ 0
    · rw [if_pos hm]; omega
    · rw [if_neg hm]
      have : m = 0 := not_not.mp hm
      rw [this, popcount_zero] at htot
      omega
  refine ⟨hn', by rw [hlen, hn'], fun k hk => ?_⟩
  obtain ⟨i, c, mode, hi, hcc, hkk, hmode, hentry⟩ := hent k (by rw [hlen, ← hn']; exact hk)
  refine ⟨i, c, mode, hi, hcc, hkk, hmode, ?_⟩
  rw [hentry]
  congr 2 <;> omega

/-- Witness for C13: `"M,MS,MS"` with 3 harts yields `(0,M), (1,M), (1,S), (2,M), (2,S)`. -/
theorem parse_entries_witness :
    parse_hart_config "M,MS,MS".toList 3 =
        Except.ok (5,
          [{ addrid := 0, hartid := 0, mode := PLICMode.M },
            { addrid := 1, hartid := 1, mode := PLICMode.M },
            { addrid := 2, hartid := 1, mode := PLICMode.S },
            { addrid := 3, hartid := 2, mode := PLICMode.M },
            { addrid := 4, hartid := 2, mode := PLICMode.S }]) ∧
      5 = (config_letters "M,MS,MS".toList).length :=
  ⟨rfl, (parse_entries "M,MS,MS".toList 3 5 _ rfl).1⟩

/-! ## Groups of a configuration string -/

theorem groups_comma (c : Char) (p : List Char) (hc : c = ',') :
    groups (c :: p) = [] :: groups p := by
  rw [groups, if_pos hc]

theorem groups_ne_nil (s : List Char) : groups s ≠ [] := by
  cases s with
  | nil => simp [groups]
  | cons c p =>
    by_cases hc : c = ','
    · rw [groups_comma c p hc]; simp
    · rw [groups, if_neg hc]
      cases groups p <;> simp

theorem groups_letter (c : Char) (p : List Char) (hc : ¬ c = ',') :
    ∃ g gs, groups p = g :: gs ∧ groups (c :: p) = (c :: g) :: gs := by
  cases hg : groups p with
  | nil => exact absurd hg (groups_ne_nil p)
  | cons g gs =>
    refine ⟨g, gs, rfl, ?_⟩
    rw [groups, if_neg hc, hg]

theorem groups_length (s : List Char) : (groups s).length = s.count ',' + 1 := by
  induction s with
  | nil => rfl
  | cons c p ih =>
    by_cases hc : c = ','
    · rw [groups_comma c p hc, count_comma_cons_comma c p hc, List.length_cons, ih]
    · obtain ⟨g, gs, hg, hcons⟩ := groups_letter c p hc
      rw [hcons, count_comma_cons_letter c p hc, ← ih, hg]
      rfl

theorem mode_letter_inj (a b : PLICMode) (h : mode_letter a = mode_letter b) : a = b := by
  cases a <;> cases b <;> first | rfl | (exfalso; revert h; decide)

/-! ## The counting loop on clean strings -/

/-- The counting loop commutes with a prefix that it scans to the end. -/
theorem count_pass_append (pre rest : List Char) :
    ∀ (a h m a1 h1 m1 : Nat), count_pass pre a h m = Except.ok (a1, h1, m1) →
      count_pass (pre ++ rest) a h m = count_pass rest a1 h1 m1 := by
  induction pre with
  | nil =>
    intro a h m a1 h1 m1 hp
    cases hp
    rfl
  | cons c p ih =>
    intro a h m a1 h1 m1 hp
    rw [List.cons_append]
    by_cases hc : c = ','
    · rw [count_pass_comma c p a h m hc] at hp
      rw [count_pass_comma c _ a h m hc]
      exact ih _ _ _ _ _ _ hp
    · cases hmd : char_to_mode c with
      | error e =>
        rw [count_pass_invalid c p a h m hc e hmd] at hp
        cases hp
      | ok md =>
        by_cases hdup : m = (m ||| 1 <<< mode_index md)
        · rw [count_pass_duplicate c p a h m hc md hmd hdup] at hp
          cases hp
        · rw [count_pass_letter c p a h m hc md hmd hdup] at hp
          rw [count_pass_letter c _ a h m hc md hmd hdup]
          exact ih _ _ _ _ _ _ hp

/-- On a string of valid characters whose groups have no repeated letter, the counting
loop runs to the end; `seen` lists the letters of the open group already scanned. -/
theorem count_pass_clean (s : List Char) :
    ∀ (seen : List Char) (a h m : Nat), m < 16 →
      (∀ i, m.testBit i = true → ∃ md, mode_index md = i ∧ mode_letter md ∈ seen) →
      (∀ x, x ∈ s → valid_config_char x) →
      (∀ g gs, groups s = g :: gs → (seen ++ g).Nodup ∧ ∀ g', g' ∈ gs → g'.Nodup) →
      ∃ a' m', count_pass s a h m = Except.ok (a', h + s.count ',', m') := by
  induction s with
  | nil =>
    intro seen a h m _ _ _ _
    exact ⟨a, m, rfl⟩
  | cons c p ih =>
    intro seen a h m hm hinv hv hg
    by_cases hc : c = ','
    · rw [count_pass_comma c p a h m hc, count_comma_cons_comma c p hc]
      have hgs := (hg [] (groups p) (groups_comma c p hc)).2
      obtain ⟨a', m', hok⟩ := ih [] (a + popcount m) (h + 1) 0 (by norm_num)
        (fun i hi => by rw [Nat.zero_testBit] at hi; cases hi)
        (fun x hx => hv x (List.mem_cons_of_mem _ hx))
        (fun g gs hgg => ⟨by
            rw [List.nil_append]
            exact hgs g (by rw [hgg]; exact List.mem_cons_self _ _),
          fun g' hg' => hgs g' (by rw [hgg]; exact List.mem_cons_of_mem _ hg')⟩)
      refine ⟨a', m', ?_⟩
      rw [hok]
      congr 3
      omega
    · have hlet : is_mode_letter c := by
        rcases hv c (List.mem_cons_self _ _) with h1 | h1
        · exact h1
        · exact absurd h1 hc
      obtain ⟨md, hmdc⟩ := (is_mode_letter_iff c).mp hlet
      have hmd : char_to_mode c = Except.ok md := by
        rw [hmdc]; exact char_to_mode_letter md
      obtain ⟨g, gs, hgp, hgc⟩ := groups_letter c p hc
      obtain ⟨hnd, hgs⟩ := hg (c :: g) gs hgc
      have hdup : ¬ m = (m ||| 1 <<< mode_index md) := by
        intro heq
        have hbit := mask_same_bit m hm (mode_index md) (mode_index_lt md) heq
        obtain ⟨md', hidx, hmem⟩ := hinv _ hbit
        have : md' = md := mode_index_inj md' md hidx
        rw [this, ← hmdc] at hmem
        have hdisj := (List.nodup_append.mp hnd).2.2
        exact hdisj hmem (List.mem_cons_self _ _) 
      rw [count_pass_letter c p a h m hc md hmd hdup, count_comma_cons_letter c p hc]
      obtain ⟨-, -, hlt⟩ := mask_add_bit m hm (mode_index md) (mode_index_lt md) hdup
      apply ih (seen ++ [c]) a h _ hlt
      · intro i hi
        rw [testBit_set_bit] at hi
        rcases Bool.or_eq_true _ _ ▸ hi with h1 | h1
        · obtain ⟨md', hidx, hmem⟩ := hinv i h1
          exact ⟨md', hidx, List.mem_append_left _ hmem⟩
        · have hidx : mode_index md = i := of_decide_eq_true h1
          exact ⟨md, hidx, by rw [← hmdc]; simp⟩
      · exact fun x hx => hv x (List.mem_cons_of_mem _ hx)
      · intro g0 gs0 hgg
        obtain ⟨hg1, hg2⟩ := List.cons.inj (hgp.symm.trans hgg)
        subst hg1
        subst hg2
        refine ⟨?_, hgs⟩
        rw [List.append_assoc]
        exact hnd

/-- When the counting loop runs to the end, no group repeats a character, and every
character of the open group is a mode letter whose bit was clear at the start. -/
theorem count_pass_ok_clean (s : List Char) :
    ∀ (a h m : Nat) (r : Nat × Nat × Nat), count_pass s a h m = Except.ok r → m < 16 →
      ∀ g gs, groups s = g :: gs →
        (∀ x, x ∈ g → ∃ md, x = mode_letter md ∧ m.testBit (mode_index md) = false) ∧
          g.Nodup ∧ ∀ g', g' ∈ gs → g'.Nodup := by
  induction s with
  | nil =>
    intro a h m r _ _ g gs hg
    cases hg
    exact ⟨fun x hx => absurd hx (List.not_mem_nil x), List.nodup_nil,
      fun g' hg' => absurd hg' (List.not_mem_nil g')⟩
  | cons c p ih =>
    intro a h m r hr hm g gs hg
    by_cases hc : c = ','
    · rw [count_pass_comma c p a h m hc] at hr
      rw [groups_comma c p hc] at hg
      cases hg
      refine ⟨fun x hx => absurd hx (List.not_mem_nil x), List.nodup_nil, ?_⟩
      intro g' hg'
      cases hgp : groups p with
      | nil => exact absurd hgp (groups_ne_nil p)
      | cons g0 gs0 =>
        obtain ⟨-, h2, h3⟩ := ih _ _ _ r hr (by norm_num) g0 gs0 hgp
        rw [hgp] at hg'
        rcases List.mem_cons.mp hg' with h' | h'
        · rw [h']; exact h2
        · exact h3 g' h'
    · cases hmd : char_to_mode c with
      | error e =>
        rw [count_pass_invalid c p a h m hc e hmd] at hr
        cases hr
      | ok md =>
        by_cases hdup : m = (m ||| 1 <<< mode_index md)
        · rw [count_pass_duplicate c p a h m hc md hmd hdup] at hr
          cases hr
        · rw [count_pass_letter c p a h m hc md hmd hdup] at hr
          obtain ⟨hclear, -, hlt⟩ :=
            mask_add_bit m hm (mode_index md) (mode_index_lt md) hdup
          obtain ⟨g0, gs0, hgp, hgc⟩ := groups_letter c p hc
          obtain ⟨hg1, hg2⟩ := List.cons.inj (hgc.symm.trans hg)
          subst hg1
          subst hg2
          obtain ⟨h1, h2, h3⟩ := ih _ _ _ r hr hlt g0 gs0 hgp
          have hcl : c = mode_letter md := char_to_mode_ok c md hmd
          refine ⟨?_, ?_, h3⟩
          · intro x hx
            rcases List.mem_cons.mp hx with h' | h'
            · exact ⟨md, by rw [h']; exact hcl, hclear⟩
            · obtain ⟨md', hx', hbit⟩ := h1 x h'
              refine ⟨md', hx', ?_⟩
              rw [testBit_set_bit] at hbit
              cases hb : m.testBit (mode_index md') with
              | false => rfl
              | true => rw [hb] at hbit; simp at hbit
          · refine List.nodup_cons.mpr ⟨?_, h2⟩
            intro hmem
            obtain ⟨md', hx', hbit⟩ := h1 c hmem
            have : md' = md := mode_letter_inj md' md (by rw [← hx', hcl])
            rw [this, testBit_set_bit] at hbit
            simp at hbit

/-- On a string of valid characters the counting loop can only stop on a repeated mode
letter. -/
theorem count_pass_error_valid (s : List Char) :
    ∀ (a h m : Nat) (e : ConfigError), (∀ x, x ∈ s → valid_config_char x) →
      count_pass s a h m = Except.error e →
      ∃ c, is_mode_letter c ∧ c ∈ s ∧ e = ConfigError.duplicate_mode c := by
  induction s with
  | nil =>
    intro a h m e _ he
    cases he
  | cons c p ih =>
    intro a h m e hv he
    have hvp : ∀ x, x ∈ p → valid_config_char x := fun x hx => hv x (List.mem_cons_of_mem _ hx)
    by_cases hc : c = ','
    · rw [count_pass_comma c p a h m hc] at he
      obtain ⟨c', h1, h2, h3⟩ := ih _ _ _ e hvp he
      exact ⟨c', h1, List.mem_cons_of_mem _ h2, h3⟩
    · have hlet : is_mode_letter c := by
        rcases hv c (List.mem_cons_self _ _) with h1 | h1
        · exact h1
        · exact absurd h1 hc
      obtain ⟨md, hmd⟩ := char_to_mode_of_letter c hlet
      by_cases hdup : m = (m ||| 1 <<< mode_index md)
      · rw [count_pass_duplicate c p a h m hc md hmd hdup] at he
        cases he
        exact ⟨c, hlet, List.mem_cons_self _ _, rfl⟩
      · rw [count_pass_letter c p a h m hc md hmd hdup] at he
        obtain ⟨c', h1, h2, h3⟩ := ih _ _ _ e hvp he
        exact ⟨c', h1, List.mem_cons_of_mem _ h2, h3⟩

/-- A string with a character that is neither a mode letter nor a comma stops the
counting loop. -/
theorem count_pass_fails_of_invalid (s : List Char) :
    ∀ (a h m : Nat), (∃ c, c ∈ s ∧ ¬ valid_config_char c) →
      ∃ e, count_pass s a h m = Except.error e := by
  induction s with
  | nil =>
    rintro a h m ⟨c, hc, -⟩
    exact absurd hc (List.not_mem_nil c)
  | cons c p ih =>
    rintro a h m ⟨x, hx, hbad⟩
    by_cases hc : c = ','
    · rw [count_pass_comma c p a h m hc]
      rcases List.mem_cons.mp hx with h' | h'
      · exact absurd (Or.inr (h'.trans hc)) hbad
      · exact ih _ _ _ ⟨x, h', hbad⟩
    · cases hmd : char_to_mode c with
      | error e => exact ⟨e, count_pass_invalid c p a h m hc e hmd⟩
      | ok md =>
        by_cases hdup : m = (m ||| 1 <<< mode_index md)
        · exact ⟨_, count_pass_duplicate c p a h m hc md hmd hdup⟩
        · rw [count_pass_letter c p a h m hc md hmd hdup]
          rcases List.mem_cons.mp hx with h' | h'
          · have hcl : c = mode_letter md := char_to_mode_ok c md hmd
            exact absurd (Or.inl ((is_mode_letter_iff x).mpr ⟨md, h'.trans hcl⟩)) hbad
          · exact ih _ _ _ ⟨x, h', hbad⟩

/-- On a string of valid characters the storing loop runs to the end. -/
theorem store_pass_valid (s : List Char) :
    ∀ (a h : Nat), (∀ x, x ∈ s → valid_config_char x) →
      ∃ entries, store_pass s a h = Except.ok entries := by
  induction s with
  | nil => exact fun _ _ _ => ⟨[], rfl⟩
  | cons c p ih =>
    intro a h hv
    have hvp : ∀ x, x ∈ p → valid_config_char x := fun x hx => hv x (List.mem_cons_of_mem _ hx)
    by_cases hc : c = ','
    · rw [store_pass, if_pos hc]
      exact ih _ _ hvp
    · have hlet : is_mode_letter c := by
        rcases hv c (List.mem_cons_self _ _) with h1 | h1
        · exact h1
        · exact absurd h1 hc
      obtain ⟨md, hmd⟩ := char_to_mode_of_letter c hlet
      obtain ⟨rest, hrest⟩ := ih (a + 1) h hvp
      rw [store_pass, if_neg hc, hmd]
      dsimp only
      rw [hrest]
      exact ⟨_, rfl⟩

/-- The counting loop on a clean string, from the start. -/
theorem count_pass_clean_start (s : List Char)
    (hv : ∀ x, x ∈ s → valid_config_char x) (hnd : ∀ g, g ∈ groups s → g.Nodup) :
    ∃ a m, count_pass s 0 0 0 = Except.ok (a, s.count ',', m) := by
  obtain ⟨a, m, h⟩ := count_pass_clean s [] 0 0 0 (by norm_num)
    (fun i hi => by rw [Nat.zero_testBit] at hi; cases hi) hv
    (fun g gs hg => ⟨by
        rw [List.nil_append]
        exact hnd g (by rw [hg]; exact List.mem_cons_self _ _),
      fun g' hg' => hnd g' (by rw [hg]; exact List.mem_cons_of_mem _ hg')⟩)
  rw [Nat.zero_add] at h
  exact ⟨a, m, h⟩

/-- The parser on a clean string: a hart-count mismatch or success, decided by the number
of commas. -/
theorem parse_clean (s : List Char) (num_harts : Nat)
    (hv : ∀ x, x ∈ s → valid_config_char x) (hnd : ∀ g, g ∈ groups s → g.Nodup) :
    (s.count ',' + 1 ≠ num_harts →
        parse_hart_config s num_harts =
          Except.error (ConfigError.hart_count_mismatch (s.count ',' + 1) num_harts)) ∧
      (s.count ',' + 1 = num_harts → ∃ r, parse_hart_config s num_harts = Except.ok r) := by
  obtain ⟨a, m, hcount⟩ := count_pass_clean_start s hv hnd
  obtain ⟨entries, hstore⟩ := store_pass_valid s 0 0 hv
  rw [parse_of_count_ok s num_harts a _ m hcount]
  constructor
  · intro hne
    rw [if_pos hne]
  · intro heq
    rw [if_neg (not_not.mpr heq), hstore]
    exact ⟨_, rfl⟩

/-! ## Errors of the hart configuration parser -/

/-- Counterexample to C14 as stated: `"MMx"` contains the character `x`, yet the parser
stops earlier, on the second `M`, with the duplicate-mode error. -/
theorem invalid_char_after_duplicate :
    ('x' ∈ "MMx".toList ∧ ¬ valid_config_char 'x') ∧
      parse_hart_config "MMx".toList 1 =
        Except.error (ConfigError.duplicate_mode 'M') :=
  ⟨by decide, rfl⟩

/-- C14 (amended): a string that contains a character other than the four mode letters
and the comma is rejected for every hart count, with no target list; the error is the
invalid-mode error, naming that character, when the characters before it are valid and
repeat no mode letter within a group. -/
theorem invalid_char_fails (s : List Char) (num_harts : Nat) :
    ((∃ c, c ∈ s ∧ ¬ valid_config_char c) →
        ∃ e, parse_hart_config s num_harts = Except.error e) ∧
      (∀ pre c post, s = pre ++ c :: post → (∀ x, x ∈ pre → valid_config_char x) →
        (∀ g, g ∈ groups pre → g.Nodup) → ¬ valid_config_char c →
        parse_hart_config s num_harts = Except.error (ConfigError.invalid_mode c)) := by
  constructor
  · intro hbad
    obtain ⟨e, he⟩ := count_pass_fails_of_invalid s 0 0 0 hbad
    exact ⟨e, parse_of_count_error s num_harts e he⟩
  · intro pre c post hs hv hnd hbad
    obtain ⟨a, m, hpre⟩ := count_pass_clean_start pre hv hnd
    have hc : ¬ c = ',' := fun h => hbad (Or.inr h)
    have hnl : ¬ is_mode_letter c := fun h => hbad (Or.inl h)
    apply parse_of_count_error
    rw [hs, count_pass_append pre (c :: post) 0 0 0 a _ m hpre]
    exact count_pass_invalid c post a _ m hc _ (char_to_mode_of_not_letter c hnl)

/-- Witness for the amended C14: `"M,x"` for two harts is rejected with the invalid-mode
error for `x`. -/
theorem invalid_char_fails_witness :
    ((∃ c, c ∈ "M,x".toList ∧ ¬ valid_config_char c) ∧
        "M,x".toList = "M,".toList ++ 'x' :: [] ∧
        (∀ x, x ∈ "M,".toList → valid_config_char x) ∧
        (∀ g, g ∈ groups "M,".toList → g.Nodup) ∧ ¬ valid_config_char 'x') ∧
      (∃ e, parse_hart_config "M,x".toList 2 = Except.error e) ∧
      parse_hart_config "M,x".toList 2 = Except.error (ConfigError.invalid_mode 'x') :=
  ⟨by decide,
    (invalid_char_fails "M,x".toList 2).1 (by decide),
    (invalid_char_fails "M,x".toList 2).2 "M,".toList 'x' [] rfl (by decide) (by decide)
      (by decide)⟩

/-- Counterexample to C15 as stated: in `"xMM"` the letter `M` occurs twice in the only
group, yet the parser stops earlier, on `x`, with the invalid-mode error. -/
theorem duplicate_after_invalid_char :
    (groups "xMM".toList = ["xMM".toList] ∧ "xMM".toList.count 'M' = 2 ∧
        is_mode_letter 'M') ∧
      parse_hart_config "xMM".toList 1 = Except.error (ConfigError.invalid_mode 'x') :=
  ⟨by decide, rfl⟩

/-- C15 (amended): for a string made only of mode letters and commas and for every hart
count, the parser fails with the duplicate-mode error exactly when some group repeats a
letter; a letter that recurs only in different groups is no duplicate. -/
theorem duplicate_letter_fails (s : List Char) (num_harts : Nat)
    (hv : ∀ x, x ∈ s → valid_config_char x) :
    (∃ c, is_mode_letter c ∧
        parse_hart_config s num_harts = Except.error (ConfigError.duplicate_mode c)) ↔
      ∃ g, g ∈ groups s ∧ ¬ g.Nodup := by
  constructor
  · rintro ⟨c, -, hc⟩
    by_contra hno
    have hnd : ∀ g, g ∈ groups s → g.Nodup := by
      intro g hg
      by_contra hg'
      exact hno ⟨g, hg, hg'⟩
    obtain ⟨h1, h2⟩ := parse_clean s num_harts hv hnd
    by_cases hn : s.count ',' + 1 = num_harts
    · obtain ⟨r, hr⟩ := h2 hn
      rw [hr] at hc
      cases hc
    · rw [h1 hn] at hc
      cases hc
  · rintro ⟨g, hg, hdup⟩
    cases hcp : count_pass s 0 0 0 with
    | ok r =>
      exfalso
      cases hgs : groups s with
      | nil => exact groups_ne_nil s hgs
      | cons g0 gs0 =>
        obtain ⟨-, h2, h3⟩ := count_pass_ok_clean s 0 0 0 r hcp (by norm_num) g0 gs0 hgs
        rw [hgs] at hg
        rcases List.mem_cons.mp hg with h' | h'
        · rw [h'] at hdup; exact hdup h2
        · exact hdup (h3 g h')
    | error e =>
      obtain ⟨c, hlet, -, he⟩ := count_pass_error_valid s 0 0 0 e hv hcp
      refine ⟨c, hlet, ?_⟩
      rw [parse_of_count_error s num_harts e hcp, he]

/-- Witness for the amended C15: `"MSM"` is rejected with the duplicate-mode error, and
`"M,M"` for two harts is accepted. -/
theorem duplicate_letter_fails_witness :
    ((∀ x, x ∈ "MSM".toList → valid_config_char x) ∧
        (∃ g, g ∈ groups "MSM".toList ∧ ¬ g.Nodup)) ∧
      (∃ c, is_mode_letter c ∧
        parse_hart_config "MSM".toList 1 = Except.error (ConfigError.duplicate_mode c)) ∧
      parse_hart_config "M,M".toList 2 =
        Except.ok (2,
          [{ addrid := 0, hartid := 0, mode := PLICMode.M },
            { addrid := 1, hartid := 1, mode := PLICMode.M }]) :=
  ⟨by decide, (duplicate_letter_fails "MSM".toList 1 (by decide)).mpr (by decide), rfl⟩

/-- C16: for a string made only of mode letters and commas whose groups repeat no letter,
the number of groups is the number of commas plus one, and the parser fails with the
hart-count-mismatch error if and only if that number differs from `num_harts`; otherwise
it accepts the string. -/
theorem hart_count_mismatch_iff (s : List Char) (num_harts : Nat)
    (hv : ∀ x, x ∈ s → valid_config_char x) (hnd : ∀ g, g ∈ groups s → g.Nodup) :
    (groups s).length = s.count ',' + 1 ∧
      ((∃ found required, parse_hart_config s num_harts =
          Except.error (ConfigError.hart_count_mismatch found required)) ↔
        (groups s).length ≠ num_harts) ∧
      ((groups s).length ≠ num_harts →
        parse_hart_config s num_harts =
          Except.error (ConfigError.hart_count_mismatch (groups s).length num_harts)) ∧
      ((groups s).length = num_harts → ∃ r, parse_hart_config s num_harts = Except.ok r) := by
  obtain ⟨h1, h2⟩ := parse_clean s num_harts hv hnd
  rw [groups_length]
  refine ⟨rfl, ⟨?_, ?_⟩, h1, h2⟩
  · rintro ⟨found, required, hf⟩ heq
    obtain ⟨r, hr⟩ := h2 heq
    rw [hr] at hf
    cases hf
  · intro hne
    exact ⟨_, _, h1 hne⟩

/-- Witness for C16: `"MS,M"` has two groups and is rejected for a machine with one hart. -/
theorem hart_count_mismatch_iff_witness :
    ((∀ x, x ∈ "MS,M".toList → valid_config_char x) ∧
        (∀ g, g ∈ groups "MS,M".toList → g.Nodup) ∧
        (groups "MS,M".toList).length ≠ 1) ∧
      parse_hart_config "MS,M".toList 1 =
        Except.error (ConfigError.hart_count_mismatch (groups "MS,M".toList).length 1) :=
  ⟨by decide,
    (hart_count_mismatch_iff "MS,M".toList 1 (by decide) (by decide)).2.2.1 (by decide)⟩

/-! ## Enable words past the end of the bitset -/

/-- Counterexample to C21 as stated: on the demo device (one bitset word, enable stride
`0x80`) the aligned address `0x2004` of the enable window has word index 1; the write and
the read leave the state unchanged and the read returns 0, but each reports an error. -/
theorem enable_word_out_of_range_reports :
    (0x2004 &&& 0x3 = 0 ∧ ¬ in_priority_window demo_plic 0x2004 ∧
        ¬ in_pending_window demo_plic 0x2004 ∧ in_enable_window demo_plic 0x2004 ∧
        (0x2004 % demo_plic.enable_stride) / 4 ≥ demo_plic.bitfield_words) ∧
      sifive_plic_write demo_plic 0x2004 1 4 =
        (demo_plic, [Effect.error_report (PlicError.invalid_register_write 0x2004)]) ∧
      sifive_plic_read demo_plic 0x2004 4 =
        (0, demo_plic, [Effect.error_report (PlicError.invalid_register_read 0x2004)]) ∧
      (sifive_plic_write demo_plic 0x2004 1 4).2 ≠ [] ∧
      (sifive_plic_read demo_plic 0x2004 4).2.2 ≠ [] := by
  refine ⟨by decide, rfl, rfl, by decide, by decide⟩

/-- C21 (amended): for every 4-aligned address in the enable window, outside the priority
and pending windows, whose word index `(addr mod enable_stride) / 4` is at least
`bitfield_words` (the stride being a power of two below `2 ^ 32`), a write leaves the
whole state unchanged and reports an invalid register write, and a read returns 0, leaves
the state unchanged and reports an invalid register read. -/
theorem enable_word_out_of_range (plic : SiFivePLICState) (addr value size k : Nat)
    (ha : addr &&& 0x3 = 0) (h1 : ¬ in_priority_window plic addr)
    (h2 : ¬ in_pending_window plic addr) (he : in_enable_window plic addr)
    (hk : plic.enable_stride = 2 ^ k) (hlt : plic.enable_stride < 2 ^ 32)
    (hw : (addr % plic.enable_stride) / 4 ≥ plic.bitfield_words) :
    sifive_plic_write plic addr value size =
        (plic,
          [Effect.error_report (PlicError.invalid_register_write (addr % 2 ^ 32))]) ∧
      sifive_plic_read plic addr size =
        (0, plic,
          [Effect.error_report (PlicError.invalid_register_read (addr % 2 ^ 32))]) := by
  have hword : ¬ enable_wordid plic addr < plic.bitfield_words := by
    rw [(enable_indices plic addr k hk hlt he).2]
    omega
  have hal : ¬ addr &&& 0x3 ≠ 0 := not_not.mpr ha
  constructor
  · unfold sifive_plic_write
    dsimp only
    rw [if_neg hal, if_neg h1, if_neg h2, if_pos he, if_neg hword]
  · unfold sifive_plic_read
    dsimp only
    rw [if_neg hal, if_neg h1, if_neg h2, if_pos he, if_neg hword]

/-- Witness for C21: the demo device at address `0x2004`, word index 1 of target 0. -/
theorem enable_word_out_of_range_witness :
    sifive_plic_write demo_plic 0x2004 1 4 =
        (demo_plic,
          [Effect.error_report (PlicError.invalid_register_write (0x2004 % 2 ^ 32))]) ∧
      sifive_plic_read demo_plic 0x2004 4 =
        (0, demo_plic,
          [Effect.error_report (PlicError.invalid_register_read (0x2004 % 2 ^ 32))]) :=
  enable_word_out_of_range demo_plic 0x2004 1 4 7 (by decide) (by decide) (by decide)
    (by decide) (by decide) (by decide) (by decide)

/-! ## Reads of the pending window -/

/-- A read in the pending window returns the word of the pending bitset whose index is
computed from `priority_base` (line 265), and leaves the state unchanged. -/
theorem read_pending_unfold (plic : SiFivePLICState) (addr size : Nat)
    (ha : addr &&& 0x3 = 0) (h1 : ¬ in_priority_window plic addr)
    (h2 : in_pending_window plic addr) :
    sifive_plic_read plic addr size =
      (plic.pending ((((addr + 2 ^ 64 - plic.priority_base) % 2 ^ 64) >>> 2) % 2 ^ 32),
        plic, []) := by
  have hal : ¬ addr &&& 0x3 ≠ 0 := not_not.mpr ha
  unfold sifive_plic_read
  dsimp only
  rw [if_neg hal, if_neg h1, if_pos h2]

/-- C22 at the failing input: on the 64-source device with source 1 pending, the aligned
address `0x1000 = pending_base` lies in the pending window and outside the priority
window; word `(0x1000 - pending_base) / 4 = 0` of the pending bitset is 2 (bit 1 is the
pending bit of source 1), but the read returns the cell `pending[(0x1000 - priority_base)
/ 4] = pending[1024]`, which is 0 here. -/
theorem pending_read_wrong_word :
    (0x1000 &&& 0x3 = 0 ∧ in_pending_window wide_plic 0x1000 ∧
        ¬ in_priority_window wide_plic 0x1000) ∧
      (0x1000 - wide_plic.pending_base) / 4 = 0 ∧
      wide_plic.pending ((0x1000 - wide_plic.pending_base) / 4) = 2 ∧
      is_pending wide_plic (32 * ((0x1000 - wide_plic.pending_base) / 4) + 1) = true ∧
      (sifive_plic_read wide_plic 0x1000 4).1 = wide_plic.pending 1024 ∧
      (sifive_plic_read wide_plic 0x1000 4).1 = 0 ∧
      (sifive_plic_read wide_plic 0x1000 4).1.testBit 1 = false := by
  refine ⟨by decide, by decide, by decide, by decide, rfl, by decide, by decide⟩

/-! ## Rejected accesses -/

theorem read_invalid (plic : SiFivePLICState) (addr size : Nat)
    (h : invalid_access plic addr) :
    sifive_plic_read plic addr size =
      (0, plic, [Effect.error_report (PlicError.invalid_register_read (addr % 2 ^ 32))]) := by
  unfold sifive_plic_read
  dsimp only
  by_cases ha : addr &&& 0x3 ≠ 0
  · rw [if_pos ha]
  · rw [if_neg ha]
    rcases h with h | ⟨h1, h2, h3, h4⟩ | ⟨_, h1, h2, h3, h4, h5, h6⟩
    · exact absurd h ha
    · rw [if_neg h1, if_neg h2, if_neg h3, if_neg h4]
    · rw [if_neg h1, if_neg h2, if_neg h3, if_pos h4, if_neg h5, if_neg h6]

theorem write_invalid (plic : SiFivePLICState) (addr value size : Nat)
    (h : invalid_access plic addr) :
    sifive_plic_write plic addr value size =
      (plic, [Effect.error_report (PlicError.invalid_register_write (addr % 2 ^ 32))]) := by
  unfold sifive_plic_write
  dsimp only
  by_cases ha : addr &&& 0x3 ≠ 0
  · rw [if_pos ha]
  · rw [if_neg ha]
    rcases h with h | ⟨h1, h2, h3, h4⟩ | ⟨_, h1, h2, h3, h4, h5, h6⟩
    · exact absurd h ha
    · rw [if_neg h1, if_neg h2, if_neg h3, if_neg h4]
    · rw [if_neg h1, if_neg h2, if_neg h3, if_pos h4, if_neg h5, if_neg h6]

/-- C23: for every state and every address that is not 4-byte aligned, or lies in none of
the four windows, or is an aligned context-window address whose offset in its slot is
neither 0 nor 4, a read returns 0 and a write stores nothing; both leave the whole state
unchanged (no claim is performed) and report the invalid access. -/
theorem invalid_access_inert (plic : SiFivePLICState) (addr value size : Nat)
    (h : invalid_access plic addr) :
    sifive_plic_read plic addr size =
        (0, plic,
          [Effect.error_report (PlicError.invalid_register_read (addr % 2 ^ 32))]) ∧
      sifive_plic_write plic addr value size =
        (plic, [Effect.error_report (PlicError.invalid_register_write (addr % 2 ^ 32))]) :=
  ⟨read_invalid plic addr size h, write_invalid plic addr value size h⟩

/-- Witness for C23: the armed demo device after a raise of source 1, at the unaligned
address `0x200006` of the context window. -/
theorem invalid_access_inert_witness :
    invalid_access (sifive_plic_raise_irq armed_plic 1).1 0x200006 ∧
      sifive_plic_read (sifive_plic_raise_irq armed_plic 1).1 0x200006 4 =
        (0, (sifive_plic_raise_irq armed_plic 1).1,
          [Effect.error_report (PlicError.invalid_register_read (0x200006 % 2 ^ 32))]) ∧
      sifive_plic_write (sifive_plic_raise_irq armed_plic 1).1 0x200006 1 4 =
        ((sifive_plic_raise_irq armed_plic 1).1,
          [Effect.error_report (PlicError.invalid_register_write (0x200006 % 2 ^ 32))]) :=
  ⟨by decide, invalid_access_inert (sifive_plic_raise_irq armed_plic 1).1 0x200006 1 4
    (by decide)⟩

/-! ## The stride assertions -/

/-- A nonzero number that shares no bit with its predecessor is a power of two. -/
theorem pow_two_of_no_common_bit (x : Nat) :
    x ≠ 0 → (∀ i, x.testBit i = true → (x - 1).testBit i = false) → ∃ k, x = 2 ^ k := by
  induction x using Nat.strong_induction_on with
  | _ x ih =>
    intro hx hbits
    by_cases hodd : x % 2 = 1
    · have hq : x / 2 = 0 := by
        apply Nat.eq_of_testBit_eq
        intro j
        rw [Nat.zero_testBit]
        cases hj : (x / 2).testBit j
        · rfl
        · have h1 : x.testBit (j + 1) = true := by
            rw [Nat.testBit_succ]
            exact hj
          have h2 := hbits (j + 1) h1
          rw [Nat.testBit_succ] at h2
          have h3 : (x - 1) / 2 = x / 2 := by omega
          rw [h3, hj] at h2
          cases h2
      exact ⟨0, by omega⟩
    · have hq0 : x / 2 ≠ 0 := by omega
      have hlt : x / 2 < x := by omega
      have hqbits : ∀ j, (x / 2).testBit j = true → (x / 2 - 1).testBit j = false := by
        intro j hj
        have h1 : x.testBit (j + 1) = true := by
          rw [Nat.testBit_succ]
          exact hj
        have h2 := hbits (j + 1) h1
        rw [Nat.testBit_succ] at h2
        have h3 : (x - 1) / 2 = x / 2 - 1 := by omega
        rw [h3] at h2
        exact h2
      obtain ⟨k, hk⟩ := ih (x / 2) hlt hq0 hqbits
      refine ⟨k + 1, ?_⟩
      rw [pow_succ, ← hk]
      omega

theorem stride_assertion_pow : ∀ k, k < 32 → stride_assertion_holds (2 ^ k) := by
  decide

/-- The assertion `stride == (stride & -stride)` holds for 0 and for the powers of two
below `2 ^ 32`, and for no other value. -/
theorem stride_assertion_iff (stride : Nat) :
    stride_assertion_holds stride ↔ stride = 0 ∨ ∃ k, k < 32 ∧ stride = 2 ^ k := by
  constructor
  · intro h
    by_cases h0 : stride = 0
    · exact Or.inl h0
    · right
      have hlt : stride < 2 ^ 32 := by
        by_contra hge
        have hz : 2 ^ 32 - stride = 0 := by omega
        unfold stride_assertion_holds at h
        rw [hz, Nat.zero_mod, Nat.and_zero] at h
        exact h0 h
      have hmod : (2 ^ 32 - stride) % 2 ^ 32 = 2 ^ 32 - (stride - 1 + 1) := by
        rw [Nat.mod_eq_of_lt (by omega)]
        omega
      unfold stride_assertion_holds at h
      rw [hmod] at h
      have hbits : ∀ i, stride.testBit i = true → (stride - 1).testBit i = false := by
        intro i hi
        rw [h, Nat.testBit_and, Nat.testBit_two_pow_sub_succ (by omega)] at hi
        simp only [Bool.and_eq_true, Bool.not_eq_true', decide_eq_true_eq] at hi
        exact hi.2.2
      obtain ⟨k, hk⟩ := pow_two_of_no_common_bit stride h0 hbits
      refine ⟨k, ?_, hk⟩
      rw [hk] at hlt
      exact (Nat.pow_lt_pow_iff_right (by norm_num)).mp hlt
  · rintro (h0 | ⟨k, hk, hpow⟩)
    · rw [h0]
      decide
    · rw [hpow]
      exact stride_assertion_pow k hk

/-- Construction ends at the first stride assertion that does not hold. -/
theorem create_fails_of_stride (heap : HeapCells) (soc : RISCVHartArrayState)
    (hart_config : List Char) (num_sources num_priorities priority_base pending_base
      enable_base enable_stride context_base context_stride : Nat)
    (h : ¬ stride_assertion_holds enable_stride ∨ ¬ stride_assertion_holds context_stride) :
    ∃ x, sifive_plic_create heap soc hart_config num_sources num_priorities priority_base
        pending_base enable_base enable_stride context_base context_stride =
      Except.error (ConfigError.stride_assertion x) := by
  unfold sifive_plic_create
  by_cases he : ¬ stride_assertion_holds enable_stride
  · exact ⟨enable_stride, if_pos he⟩
  · rw [if_neg he]
    rcases h with h | h
    · exact absurd h he
    · exact ⟨context_stride, if_pos h⟩

/-- C24 at the failing input: 0 is not of the form `2 ^ k`, yet both stride assertions
hold for 0 and `sifive_plic_create` builds a device with `enable_stride = 0` and
`context_stride = 0`.  Every other value that is not a power of two fails the assertion,
and construction fails when it is given as either stride. -/
theorem create_accepts_zero_stride :
    (¬ ∃ k, (0 : Nat) = 2 ^ k) ∧ stride_assertion_holds 0 ∧
      (∃ st,
        sifive_plic_create zero_heap { num_harts := 1, mip := fun _ => 0 } "M".toList
            3 7 0x0 0x1000 0x2000 0 0x200000 0 = Except.ok st ∧
          st.enable_stride = 0 ∧ st.context_stride = 0) ∧
      ∀ stride, stride ≠ 0 → (¬ ∃ k, stride = 2 ^ k) →
        ¬ stride_assertion_holds stride ∧
          ∀ (heap : HeapCells) (soc : RISCVHartArrayState) (hart_config : List Char)
            (num_sources num_priorities priority_base pending_base enable_base context_base
              other : Nat),
            (∃ x, sifive_plic_create heap soc hart_config num_sources num_priorities
                priority_base pending_base enable_base stride context_base other =
              Except.error (ConfigError.stride_assertion x)) ∧
            ∃ x, sifive_plic_create heap soc hart_config num_sources num_priorities
                priority_base pending_base enable_base other context_base stride =
              Except.error (ConfigError.stride_assertion x) := by
  refine ⟨?_, by decide, ⟨_, rfl, rfl, rfl⟩, fun stride h0 hpow => ?_⟩
  · rintro ⟨k, hk⟩
    exact absurd hk.symm (Nat.pos_iff_ne_zero.mp (Nat.pow_pos (by norm_num)))
  · have hfail : ¬ stride_assertion_holds stride := by
      intro hass
      rcases (stride_assertion_iff stride).mp hass with h | ⟨k, _, hk⟩
      · exact h0 h
      · exact hpow ⟨k, hk⟩
    refine ⟨hfail, fun heap soc hart_config ns np pb peb eb cb other => ⟨?_, ?_⟩⟩
    · exact create_fails_of_stride heap soc hart_config ns np pb peb eb stride cb other
        (Or.inl hfail)
    · exact create_fails_of_stride heap soc hart_config ns np pb peb eb other cb stride
        (Or.inr hfail)

/-! ## Targets of a mode other than M and S -/

theorem error_reports_append (a b : List Effect) :
    error_reports (a ++ b) = error_reports a ++ error_reports b := by
  induction a with
  | nil => rfl
  | cons x a ih =>
    cases x with
    | irq_raise h md => exact ih
    | irq_lower h md => exact ih
    | error_report e =>
      show e :: error_reports (a ++ b) = e :: error_reports a ++ error_reports b
      rw [ih]
      rfl

/-- The raise loop body reports the mode of a target that is neither M nor S exactly when
the target has work, and reports nothing else. -/
theorem raise_target_reports (p : SiFivePLICState) (m : Nat → Nat) (e : List Effect)
    (t : Nat) :
    ∃ m' e', raise_target (with_mip p m, e) t = (with_mip p m', e') ∧
      error_reports e' = error_reports e ++
        (if ¬ ms_target p t ∧ sifive_plic_num_irqs_pending p t ≠ 0 then
          [PlicError.invalid_mode (target_mode p t)] else []) := by
  rw [raise_target_unfold]
  by_cases hc : sifive_plic_num_irqs_pending p t = 0
  · rw [if_pos hc]
    refine ⟨m, e, rfl, ?_⟩
    rw [if_neg (fun h => h.2 hc), List.append_nil]
  · rw [if_neg hc]
    unfold ms_target target_mode
    cases hmode : (p.addr_config t).mode
    · refine ⟨m, _, rfl, ?_⟩
      rw [if_pos ⟨by simp, hc⟩, error_reports_append]
      rfl
    · by_cases hb : m (p.addr_config t).hartid &&& MIP_SEIP = 0
      · refine ⟨_, _, if_pos hb, ?_⟩
        rw [if_neg (fun h => h.1 (Or.inr rfl)), error_reports_append, List.append_nil]
        exact List.append_nil _
      · refine ⟨m, e, if_neg hb, ?_⟩
        rw [if_neg (fun h => h.1 (Or.inr rfl)), List.append_nil]
    · refine ⟨m, _, rfl, ?_⟩
      rw [if_pos ⟨by simp, hc⟩, error_reports_append]
      rfl
    · by_cases hb : m (p.addr_config t).hartid &&& MIP_MEIP = 0
      · refine ⟨_, _, if_pos hb, ?_⟩
        rw [if_neg (fun h => h.1 (Or.inl rfl)), error_reports_append, List.append_nil]
        exact List.append_nil _
      · refine ⟨m, e, if_neg hb, ?_⟩
        rw [if_neg (fun h => h.1 (Or.inl rfl)), List.append_nil]

/-- The lower loop body reports the mode of a target that is neither M nor S exactly when
the target has no work, and reports nothing else. -/
theorem lower_target_reports (p : SiFivePLICState) (m : Nat → Nat) (e : List Effect)
    (t : Nat) :
    ∃ m' e', lower_target (with_mip p m, e) t = (with_mip p m', e') ∧
      error_reports e' = error_reports e ++
        (if ¬ ms_target p t ∧ sifive_plic_num_irqs_pending p t = 0 then
          [PlicError.invalid_mode (target_mode p t)] else []) := by
  rw [lower_target_unfold]
  by_cases hc : sifive_plic_num_irqs_pending p t > 0
  · rw [if_pos hc]
    refine ⟨m, e, rfl, ?_⟩
    rw [if_neg (fun h => absurd h.2 (by omega)), List.append_nil]
  · rw [if_neg hc]
    have hz : sifive_plic_num_irqs_pending p t = 0 := by omega
    unfold ms_target target_mode
    cases hmode : (p.addr_config t).mode
    · refine ⟨m, _, rfl, ?_⟩
      rw [if_pos ⟨by simp, hz⟩, error_reports_append]
      rfl
    · by_cases hb : m (p.addr_config t).hartid &&& MIP_SEIP ≠ 0
      · refine ⟨_, _, if_pos hb, ?_⟩
        rw [if_neg (fun h => h.1 (Or.inr rfl)), error_reports_append, List.append_nil]
        exact List.append_nil _
      · refine ⟨m, e, if_neg hb, ?_⟩
        rw [if_neg (fun h => h.1 (Or.inr rfl)), List.append_nil]
    · refine ⟨m, _, rfl, ?_⟩
      rw [if_pos ⟨by simp, hz⟩, error_reports_append]
      rfl
    · by_cases hb : m (p.addr_config t).hartid &&& MIP_MEIP ≠ 0
      · refine ⟨_, _, if_pos hb, ?_⟩
        rw [if_neg (fun h => h.1 (Or.inl rfl)), error_reports_append, List.append_nil]
        exact List.append_nil _
      · refine ⟨m, e, if_neg hb, ?_⟩
        rw [if_neg (fun h => h.1 (Or.inl rfl)), List.append_nil]

theorem raise_fold_reports (p : SiFivePLICState) (L : List Nat) (m : Nat → Nat)
    (e : List Effect) :
    error_reports (L.foldl raise_target (with_mip p m, e)).2 =
      error_reports e ++
        (L.filter (fun t =>
          decide (¬ ms_target p t ∧ sifive_plic_num_irqs_pending p t ≠ 0))).map
          (fun t => PlicError.invalid_mode (target_mode p t)) := by
  induction L generalizing m e with
  | nil => simp
  | cons t L ih =>
    obtain ⟨m1, e1, hstep, hrep⟩ := raise_target_reports p m e t
    rw [List.foldl_cons, hstep, ih m1 e1, hrep, List.filter_cons]
    by_cases hc : ¬ ms_target p t ∧ sifive_plic_num_irqs_pending p t ≠ 0
    · rw [if_pos hc, if_pos (decide_eq_true hc), List.map_cons, List.append_assoc]
      rfl
    · rw [if_neg hc, if_neg (by simpa using hc), List.append_nil]

theorem lower_fold_reports (p : SiFivePLICState) (L : List Nat) (m : Nat → Nat)
    (e : List Effect) :
    error_reports (L.foldl lower_target (with_mip p m, e)).2 =
      error_reports e ++
        (L.filter (fun t =>
          decide (¬ ms_target p t ∧ sifive_plic_num_irqs_pending p t = 0))).map
          (fun t => PlicError.invalid_mode (target_mode p t)) := by
  induction L generalizing m e with
  | nil => simp
  | cons t L ih =>
    obtain ⟨m1, e1, hstep, hrep⟩ := lower_target_reports p m e t
    rw [List.foldl_cons, hstep, ih m1 e1, hrep, List.filter_cons]
    by_cases hc : ¬ ms_target p t ∧ sifive_plic_num_irqs_pending p t = 0
    · rw [if_pos hc, if_pos (decide_eq_true hc), List.map_cons, List.append_assoc]
      rfl
    · rw [if_neg hc, if_neg (by simpa using hc), List.append_nil]

/-- The loop bodies leave the state as it is on a target that is neither M nor S. -/
theorem unsupported_target_state (acc : SiFivePLICState × List Effect) (t : Nat)
    (h : ¬ ms_target acc.1 t) :
    (raise_target acc t).1 = acc.1 ∧ (lower_target acc t).1 = acc.1 := by
  unfold ms_target target_mode at h
  unfold raise_target lower_target
  dsimp only
  constructor
  · by_cases hc : sifive_plic_num_irqs_pending acc.1 t = 0
    · rw [if_pos hc]
    · rw [if_neg hc]
      cases hmode : (acc.1.addr_config t).mode
      · rfl
      · exact absurd (Or.inr hmode) h
      · rfl
      · exact absurd (Or.inl hmode) h
  · by_cases hc : sifive_plic_num_irqs_pending acc.1 t > 0
    · rw [if_pos hc]
    · rw [if_neg hc]
      cases hmode : (acc.1.addr_config t).mode
      · rfl
      · exact absurd (Or.inr hmode) h
      · rfl
      · exact absurd (Or.inl hmode) h

/-- C25: for every configuration and every in-range source `s`, the error reports of a
raise of `s` are exactly the invalid-mode reports of the targets, in target order, whose
mode is neither M nor S and whose strict eligibility count (taken with `s` pending) is
nonzero; the error reports of a lower of `s` are exactly those of the targets whose mode
is neither M nor S and whose count (taken with `s` unclaimed) is zero; and the loop body
of raise and of lower leaves the whole state, `mip` included, as it is on such a
target. -/
theorem unsupported_mode_reports (plic : SiFivePLICState) (s : Nat)
    (hs : ¬ (s = 0 ∨ s > plic.num_sources)) :
    error_reports (sifive_plic_raise_irq plic s).2 =
        ((List.range plic.num_addrs).filter (fun t =>
          decide (¬ ms_target plic t ∧
            sifive_plic_num_irqs_pending (sifive_plic_set_pending plic s true) t ≠ 0))).map
          (fun t => PlicError.invalid_mode (target_mode plic t)) ∧
      error_reports (sifive_plic_lower_irq plic s).2 =
        ((List.range plic.num_addrs).filter (fun t =>
          decide (¬ ms_target plic t ∧
            sifive_plic_num_irqs_pending (sifive_plic_set_claimed plic s false) t = 0))).map
          (fun t => PlicError.invalid_mode (target_mode plic t)) ∧
      ∀ (acc : SiFivePLICState × List Effect) (t : Nat), ¬ ms_target acc.1 t →
        (raise_target acc t).1 = acc.1 ∧ (lower_target acc t).1 = acc.1 := by
  refine ⟨?_, ?_, unsupported_target_state⟩
  · unfold sifive_plic_raise_irq
    rw [if_neg hs]
    exact raise_fold_reports (sifive_plic_set_pending plic s true)
      (List.range plic.num_addrs) (sifive_plic_set_pending plic s true).soc.mip []
  · unfold sifive_plic_lower_irq
    rw [if_neg hs]
    exact lower_fold_reports (sifive_plic_set_claimed plic s false)
      (List.range plic.num_addrs) (sifive_plic_set_claimed plic s false).soc.mip []

/-- Witness for C25: the device with a U-mode target 0 and an M-mode target 1, at
source 1: the raise reports the invalid mode once and asserts the M-mode line, the lower
of the idle device reports it once. -/
theorem unsupported_mode_reports_witness :
    (sifive_plic_raise_irq user_plic 1).2 =
        [Effect.error_report (PlicError.invalid_mode PLICMode.U),
          Effect.irq_raise 0 PLICMode.M] ∧
      (sifive_plic_lower_irq user_plic 1).2 =
        [Effect.error_report (PlicError.invalid_mode PLICMode.U)] ∧
      (error_reports (sifive_plic_raise_irq user_plic 1).2 =
          ((List.range user_plic.num_addrs).filter (fun t =>
            decide (¬ ms_target user_plic t ∧
              sifive_plic_num_irqs_pending
                (sifive_plic_set_pending user_plic 1 true) t ≠ 0))).map
            (fun t => PlicError.invalid_mode (target_mode user_plic t)) ∧
        error_reports (sifive_plic_lower_irq user_plic 1).2 =
          ((List.range user_plic.num_addrs).filter (fun t =>
            decide (¬ ms_target user_plic t ∧
              sifive_plic_num_irqs_pending
                (sifive_plic_set_claimed user_plic 1 false) t = 0))).map
            (fun t => PlicError.invalid_mode (target_mode user_plic t)) ∧
        ∀ (acc : SiFivePLICState × List Effect) (t : Nat), ¬ ms_target acc.1 t →
          (raise_target acc t).1 = acc.1 ∧ (lower_target acc t).1 = acc.1) :=
  ⟨by decide, by decide, unsupported_mode_reports user_plic 1 (by decide)⟩

/-! ## The shapes of the state after one call -/

theorem raise_cases (plic : SiFivePLICState) (irq : Nat) :
    (sifive_plic_raise_irq plic irq).1 = plic ∨
      ∃ m, (sifive_plic_raise_irq plic irq).1 =
        with_mip (sifive_plic_set_pending plic irq true) m := by
  by_cases hs : irq = 0 ∨ irq > plic.num_sources
  · left
    unfold sifive_plic_raise_irq
    rw [if_pos hs]
  · right
    obtain ⟨m', e', h, _⟩ := raise_irq_state plic irq hs
    exact ⟨m', by rw [h]⟩

theorem lower_cases (plic : SiFivePLICState) (irq : Nat) :
    (sifive_plic_lower_irq plic irq).1 = plic ∨
      ∃ m, (sifive_plic_lower_irq plic irq).1 =
        with_mip (sifive_plic_set_claimed plic irq false) m := by
  by_cases hs : irq = 0 ∨ irq > plic.num_sources
  · left
    unfold sifive_plic_lower_irq
    rw [if_pos hs]
  · right
    obtain ⟨m', e', h, _⟩ := lower_irq_state plic irq hs
    exact ⟨m', by rw [h]⟩

/-- The index decoded in the priority window is below `num_sources`. -/
theorem priority_index_lt (plic : SiFivePLICState) (addr : Nat)
    (h : in_priority_window plic addr) :
    ((addr - plic.priority_base) >>> 2) % 2 ^ 32 < plic.num_sources := by
  obtain ⟨h1, h2⟩ := h
  rw [shiftLeft_two] at h2
  have h3 : (plic.priority_base + 4 * plic.num_sources % 2 ^ 32) % 2 ^ 32 ≤
      plic.priority_base + 4 * plic.num_sources % 2 ^ 32 := Nat.mod_le _ _
  have h4 : 4 * plic.num_sources % 2 ^ 32 ≤ 4 * plic.num_sources := Nat.mod_le _ _
  rw [shiftRight_two]
  have h5 : (addr - plic.priority_base) / 4 % 2 ^ 32 ≤ (addr - plic.priority_base) / 4 :=
    Nat.mod_le _ _
  omega

/-- A read returns the state it was given, or is a claim read that found a claimable
source and marked it. -/
theorem read_cases (plic : SiFivePLICState) (addr size : Nat) :
    (sifive_plic_read plic addr size).2.1 = plic ∨
      (decodes_to_claim_complete plic addr ∧
        claimable plic (context_addrid plic addr) (sifive_plic_read plic addr size).1 = true ∧
        (sifive_plic_read plic addr size).2.1 =
          sifive_plic_set_claimed
            (sifive_plic_set_pending plic (sifive_plic_read plic addr size).1 false)
            (sifive_plic_read plic addr size).1 true) := by
  by_cases hdec : decodes_to_claim_complete plic addr
  · rw [read_claim_unfold plic addr size hdec]
    rcases claim_cases plic (context_addrid plic addr) with
      ⟨irq, _, hc, _, heq⟩ | ⟨_, heq⟩
    · right
      rw [heq]
      exact ⟨hdec, hc, rfl⟩
    · left
      rw [heq]
  · exact Or.inl (read_state_of_not_claim plic addr size hdec)

/-- A write stores nothing, or one priority, or one enable word, or one threshold, or is a
complete write that runs the lower path. -/
theorem write_cases (plic : SiFivePLICState) (addr value size : Nat) :
    (sifive_plic_write plic addr value size).1 = plic ∨
      (∃ irq, irq < plic.num_sources ∧
        (sifive_plic_write plic addr value size).1 =
          { plic with
            source_priority := (Function.update plic.source_priority irq (value &&& 7)) }) ∨
      (∃ i, (sifive_plic_write plic addr value size).1 =
          { plic with enable := (Function.update plic.enable i (value % 2 ^ 32)) }) ∨
      (∃ t, value ≤ plic.num_priorities ∧
        (sifive_plic_write plic addr value size).1 =
          { plic with target_priority := (Function.update plic.target_priority t value) }) ∨
      (decodes_to_claim_complete plic addr ∧
        (sifive_plic_write plic addr value size).1 =
          (sifive_plic_lower_irq plic (value % 2 ^ 32)).1) := by
  by_cases hdec : decodes_to_claim_complete plic addr
  · rw [write_complete_unfold plic addr value size hdec]
    by_cases hv : value < plic.num_sources
    · rw [if_pos hv]
      exact Or.inr (Or.inr (Or.inr (Or.inr ⟨hdec, rfl⟩)))
    · rw [if_neg hv]
      exact Or.inl rfl
  · unfold sifive_plic_write
    dsimp only
    by_cases h1 : addr &&& 0x3 ≠ 0
    · rw [if_pos h1]
      exact Or.inl rfl
    · rw [if_neg h1]
      have hal : addr &&& 0x3 = 0 := not_not.mp h1
      by_cases h2 : in_priority_window plic addr
      · rw [if_pos h2]
        exact Or.inr (Or.inl ⟨_, priority_index_lt plic addr h2, rfl⟩)
      · rw [if_neg h2]
        by_cases h3 : in_pending_window plic addr
        · rw [if_pos h3]
          exact Or.inl rfl
        · rw [if_neg h3]
          by_cases h4 : in_enable_window plic addr
          · rw [if_pos h4]
            by_cases h5 : enable_wordid plic addr < plic.bitfield_words
            · rw [if_pos h5]
              exact Or.inr (Or.inr (Or.inl ⟨_, rfl⟩))
            · rw [if_neg h5]
              exact Or.inl rfl
          · rw [if_neg h4]
            by_cases h6 : in_context_window plic addr
            · rw [if_pos h6]
              by_cases h7 : context_contextid plic addr = 0
              · rw [if_pos h7]
                by_cases h9 : value ≤ plic.num_priorities
                · rw [if_pos h9]
                  exact Or.inr (Or.inr (Or.inr (Or.inl ⟨_, h9, rfl⟩)))
                · rw [if_neg h9]
                  exact Or.inl rfl
              · rw [if_neg h7]
                by_cases h8 : context_contextid plic addr = 4
                · exact absurd ⟨hal, h2, h3, h4, h6, h8⟩ hdec
                · rw [if_neg h8]
                  exact Or.inl rfl
            · rw [if_neg h6]
              exact Or.inl rfl

/-- The state after one entry-point call has one of seven shapes. -/
theorem step_cases (plic : SiFivePLICState) (op : Op) :
    step plic op = plic ∨
      (∃ irq m, op = Op.raise irq ∧
        step plic op = with_mip (sifive_plic_set_pending plic irq true) m) ∨
      (∃ irq m, releases plic irq op = true ∧
        step plic op = with_mip (sifive_plic_set_claimed plic irq false) m) ∨
      (∃ addr size irq, op = Op.read addr size ∧ decodes_to_claim_complete plic addr ∧
        (sifive_plic_read plic addr size).1 = irq ∧
        claimable plic (context_addrid plic addr) irq = true ∧
        step plic op =
          sifive_plic_set_claimed (sifive_plic_set_pending plic irq false) irq true) ∨
      (∃ irq v, irq < plic.num_sources ∧ v ≤ 7 ∧
        step plic op =
          { plic with source_priority := (Function.update plic.source_priority irq v) }) ∨
      (∃ i v, step plic op = { plic with enable := (Function.update plic.enable i v) }) ∨
      (∃ t v, v ≤ plic.num_priorities ∧
        step plic op =
          { plic with target_priority := (Function.update plic.target_priority t v) }) := by
  cases op with
  | raise irq =>
    rcases raise_cases plic irq with h | ⟨m, h⟩
    · exact Or.inl h
    · exact Or.inr (Or.inl ⟨irq, m, rfl, h⟩)
  | lower irq =>
    rcases lower_cases plic irq with h | ⟨m, h⟩
    · exact Or.inl h
    · refine Or.inr (Or.inr (Or.inl ⟨irq, m, ?_, h⟩))
      simp [releases]
  | read addr size =>
    rcases read_cases plic addr size with h | ⟨hdec, hc, h⟩
    · exact Or.inl h
    · exact Or.inr (Or.inr (Or.inr (Or.inl ⟨addr, size, _, rfl, hdec, rfl, hc, h⟩)))
  | write addr value size =>
    rcases write_cases plic addr value size with
      h | ⟨irq, hirq, h⟩ | ⟨i, h⟩ | ⟨t, hv, h⟩ | ⟨hdec, h⟩
    · exact Or.inl h
    · exact Or.inr (Or.inr (Or.inr (Or.inr (Or.inl
        ⟨irq, value &&& 7, hirq, Nat.and_le_right, h⟩))))
    · exact Or.inr (Or.inr (Or.inr (Or.inr (Or.inr (Or.inl ⟨i, _, h⟩)))))
    · exact Or.inr (Or.inr (Or.inr (Or.inr (Or.inr (Or.inr ⟨t, value, hv, h⟩)))))
    · rcases lower_cases plic (value % 2 ^ 32) with hl | ⟨m, hl⟩
      · left
        show (sifive_plic_write plic addr value size).1 = plic
        rw [h, hl]
      · refine Or.inr (Or.inr (Or.inl ⟨value % 2 ^ 32, m, ?_, ?_⟩))
        · show decide (decodes_to_claim_complete plic addr ∧
            value % 2 ^ 32 = value % 2 ^ 32) = true
          exact decide_eq_true ⟨hdec, rfl⟩
        · show (sifive_plic_write plic addr value size).1 = _
          rw [h, hl]

/-- The fields that size and configure the device are the same after every call. -/
theorem step_config (plic : SiFivePLICState) (op : Op) :
    (step plic op).num_sources = plic.num_sources ∧
      (step plic op).num_priorities = plic.num_priorities ∧
      (step plic op).num_addrs = plic.num_addrs ∧
      (step plic op).bitfield_words = plic.bitfield_words ∧
      (step plic op).addr_config = plic.addr_config ∧
      (step plic op).priority_base = plic.priority_base ∧
      (step plic op).pending_base = plic.pending_base ∧
      (step plic op).enable_base = plic.enable_base ∧
      (step plic op).enable_stride = plic.enable_stride ∧
      (step plic op).context_base = plic.context_base ∧
      (step plic op).context_stride = plic.context_stride := by
  rcases step_cases plic op with
    h | ⟨irq, m, _, h⟩ | ⟨irq, m, _, h⟩ | ⟨_, _, irq, _, _, _, _, h⟩ | ⟨_, _, _, _, h⟩ |
      ⟨_, _, h⟩ | ⟨_, _, _, h⟩
  · rw [h]
    exact ⟨rfl, rfl, rfl, rfl, rfl, rfl, rfl, rfl, rfl, rfl, rfl⟩
  · rw [h]
    exact ⟨rfl, rfl, rfl, rfl, rfl, rfl, rfl, rfl, rfl, rfl, rfl⟩
  · rw [h]
    exact ⟨rfl, rfl, rfl, rfl, rfl, rfl, rfl, rfl, rfl, rfl, rfl⟩
  · rw [h, set_claimed_frame, set_pending_frame]
    exact ⟨rfl, rfl, rfl, rfl, rfl, rfl, rfl, rfl, rfl, rfl, rfl⟩
  · rw [h]
    exact ⟨rfl, rfl, rfl, rfl, rfl, rfl, rfl, rfl, rfl, rfl, rfl⟩
  · rw [h]
    exact ⟨rfl, rfl, rfl, rfl, rfl, rfl, rfl, rfl, rfl, rfl, rfl⟩
  · rw [h]
    exact ⟨rfl, rfl, rfl, rfl, rfl, rfl, rfl, rfl, rfl, rfl, rfl⟩

/-- The decoding of an address is the same after every call. -/
theorem step_decodes (plic : SiFivePLICState) (op : Op) (addr : Nat) :
    decodes_to_claim_complete (step plic op) addr ↔ decodes_to_claim_complete plic addr := by
  obtain ⟨h1, _, h3, _, _, h6, h7, h8, h9, h10, h11⟩ := step_config plic op
  unfold decodes_to_claim_complete in_priority_window in_pending_window in_enable_window
    in_context_window context_contextid
  rw [h1, h3, h6, h7, h8, h9, h10, h11]

/-! ## Runs keep the configuration -/

theorem run_nil (plic : SiFivePLICState) : run plic [] = plic := rfl

theorem run_cons (plic : SiFivePLICState) (op : Op) (ops : List Op) :
    run plic (op :: ops) = run (step plic op) ops := rfl

theorem run_append (plic : SiFivePLICState) (ops1 ops2 : List Op) :
    run plic (ops1 ++ ops2) = run (run plic ops1) ops2 := by
  unfold run
  rw [List.foldl_append]

theorem run_config (plic : SiFivePLICState) (ops : List Op) :
    (run plic ops).num_sources = plic.num_sources ∧
      (run plic ops).num_priorities = plic.num_priorities ∧
      (run plic ops).num_addrs = plic.num_addrs ∧
      (run plic ops).bitfield_words = plic.bitfield_words ∧
      (run plic ops).addr_config = plic.addr_config ∧
      (run plic ops).priority_base = plic.priority_base ∧
      (run plic ops).pending_base = plic.pending_base ∧
      (run plic ops).enable_base = plic.enable_base ∧
      (run plic ops).enable_stride = plic.enable_stride ∧
      (run plic ops).context_base = plic.context_base ∧
      (run plic ops).context_stride = plic.context_stride := by
  induction ops generalizing plic with
  | nil => exact ⟨rfl, rfl, rfl, rfl, rfl, rfl, rfl, rfl, rfl, rfl, rfl⟩
  | cons op ops ih =>
    rw [run_cons]
    obtain ⟨a1, a2, a3, a4, a5, a6, a7, a8, a9, a10, a11⟩ := ih (step plic op)
    obtain ⟨b1, b2, b3, b4, b5, b6, b7, b8, b9, b10, b11⟩ := step_config plic op
    exact ⟨a1.trans b1, a2.trans b2, a3.trans b3, a4.trans b4, a5.trans b5, a6.trans b6,
      a7.trans b7, a8.trans b8, a9.trans b9, a10.trans b10, a11.trans b11⟩

/-! ## Claimed against pending -/

/-- A call that sets the claimed bit of `s` is a claim read that returns `s`; the source
was pending before the read and is not pending after it. -/
theorem claimed_bit_set_by_claim (plic : SiFivePLICState) (op : Op) (s : Nat)
    (h0 : is_claimed plic s = false) (h1 : is_claimed (step plic op) s = true) :
    ∃ addr size, op = Op.read addr size ∧ decodes_to_claim_complete plic addr ∧
      (sifive_plic_read plic addr size).1 = s ∧ is_pending plic s = true ∧
      is_pending (step plic op) s = false := by
  rcases step_cases plic op with
    h | ⟨irq, m, _, h⟩ | ⟨irq, m, _, h⟩ | ⟨addr, size, irq, hop, hdec, hres, hc, h⟩ |
      ⟨_, _, _, _, h⟩ | ⟨_, _, h⟩ | ⟨_, _, _, h⟩
  · rw [h, h0] at h1
    cases h1
  · rw [h] at h1
    have : is_claimed (sifive_plic_set_pending plic irq true) s = true := h1
    rw [is_claimed_set_pending, h0] at this
    cases this
  · rw [h] at h1
    have : is_claimed (sifive_plic_set_claimed plic irq false) s = true := h1
    rw [is_claimed_set_claimed, h0] at this
    by_cases hs : s = irq
    · rw [if_pos hs] at this
      cases this
    · rw [if_neg hs] at this
      cases this
  · obtain ⟨hp, hcl, _⟩ := claimed_state_keeps plic irq
    rw [h, hcl] at h1
    by_cases hs : s = irq
    · subst hs
      refine ⟨addr, size, hop, hdec, hres, ?_, ?_⟩
      · unfold claimable at hc
        simp only [Bool.and_eq_true] at hc
        exact hc.1.1.1
      · rw [h, hp, if_pos rfl]
    · rw [if_neg hs, h0] at h1
      cases h1
  · rw [h] at h1
    have : is_claimed plic s = true := h1
    rw [h0] at this
    cases this
  · rw [h] at h1
    have : is_claimed plic s = true := h1
    rw [h0] at this
    cases this
  · rw [h] at h1
    have : is_claimed plic s = true := h1
    rw [h0] at this
    cases this

/-- Counterexample to C26 as stated: from the all-zero demo device, the register writes
that arm source 1, a raise of source 1 and a claim read lead to a state in which source 1
is claimed and not pending. -/
theorem claimed_and_not_pending :
    nothing_pending_or_claimed demo_plic ∧
      (sifive_plic_read
        (run demo_plic [Op.write 0x4 5 4, Op.write 0x2000 0xe 4, Op.raise 1])
        0x200004 4).1 = 1 ∧
      is_claimed
        (run demo_plic
          [Op.write 0x4 5 4, Op.write 0x2000 0xe 4, Op.raise 1, Op.read 0x200004 4]) 1 =
        true ∧
      is_pending
        (run demo_plic
          [Op.write 0x4 5 4, Op.write 0x2000 0xe 4, Op.raise 1, Op.read 0x200004 4]) 1 =
        false := by
  decide

/-- C26 (amended): in every state reached from a state in which source `s` is not claimed
by any sequence of raise, lower, register reads and register writes, if `s` is claimed
then the sequence contains a claim read that returned `s`, and `s` was pending right
before that read and not pending right after it. -/
theorem claimed_was_pending_at_claim (plic : SiFivePLICState) (ops : List Op) (s : Nat)
    (h0 : is_claimed plic s = false) (h1 : is_claimed (run plic ops) s = true) :
    ∃ pre addr size post, ops = pre ++ Op.read addr size :: post ∧
      decodes_to_claim_complete (run plic pre) addr ∧
      (sifive_plic_read (run plic pre) addr size).1 = s ∧
      is_pending (run plic pre) s = true ∧
      is_pending (run plic (pre ++ [Op.read addr size])) s = false := by
  induction ops generalizing plic with
  | nil =>
    rw [run_nil, h0] at h1
    cases h1
  | cons op ops ih =>
    by_cases hst : is_claimed (step plic op) s = true
    · obtain ⟨addr, size, hop, hdec, hres, hp, hq⟩ := claimed_bit_set_by_claim plic op s h0 hst
      refine ⟨[], addr, size, ops, ?_, hdec, hres, hp, ?_⟩
      · rw [hop]
        rfl
      · rw [← hop]
        exact hq
    · have hst' : is_claimed (step plic op) s = false := by
        cases hb : is_claimed (step plic op) s
        · rfl
        · exact absurd hb hst
      rw [run_cons] at h1
      obtain ⟨pre, addr, size, post, hops, hdec, hres, hp, hq⟩ := ih (step plic op) hst' h1
      refine ⟨op :: pre, addr, size, post, ?_, hdec, hres, hp, hq⟩
      rw [hops]
      rfl

/-- Witness for C26: the run of the counterexample, in which source 1 ends claimed. -/
theorem claimed_was_pending_at_claim_witness :
    ∃ pre addr size post,
      [Op.write 0x4 5 4, Op.write 0x2000 0xe 4, Op.raise 1, Op.read 0x200004 4] =
        pre ++ Op.read addr size :: post ∧
      decodes_to_claim_complete (run demo_plic pre) addr ∧
      (sifive_plic_read (run demo_plic pre) addr size).1 = 1 ∧
      is_pending (run demo_plic pre) 1 = true ∧
      is_pending (run demo_plic (pre ++ [Op.read addr size])) 1 = false :=
  claimed_was_pending_at_claim demo_plic
    [Op.write 0x4 5 4, Op.write 0x2000 0xe 4, Op.raise 1, Op.read 0x200004 4] 1
    (by decide) (by decide)

/-! ## Stored priorities -/

/-- A call keeps each stored priority, or stores a value of at most 7 for a source below
`num_sources`. -/
theorem step_source_priority (plic : SiFivePLICState) (op : Op) (i : Nat) :
    (step plic op).source_priority i = plic.source_priority i ∨
      ((step plic op).source_priority i ≤ 7 ∧ i < plic.num_sources) := by
  rcases step_cases plic op with
    h | ⟨irq, m, _, h⟩ | ⟨irq, m, _, h⟩ | ⟨_, _, irq, _, _, _, _, h⟩ | ⟨irq, v, hirq, hv, h⟩ |
      ⟨_, _, h⟩ | ⟨_, _, _, h⟩
  · rw [h]
    exact Or.inl rfl
  · rw [h]
    exact Or.inl rfl
  · rw [h]
    exact Or.inl rfl
  · rw [h, set_claimed_frame, set_pending_frame]
    exact Or.inl rfl
  · rw [h]
    show Function.update plic.source_priority irq v i = plic.source_priority i ∨
      (Function.update plic.source_priority irq v i ≤ 7 ∧ i < plic.num_sources)
    rw [Function.update_apply]
    by_cases hi : i = irq
    · rw [if_pos hi, hi]
      exact Or.inr ⟨hv, hirq⟩
    · rw [if_neg hi]
      exact Or.inl rfl
  · rw [h]
    exact Or.inl rfl
  · rw [h]
    exact Or.inl rfl

theorem run_source_priority (plic : SiFivePLICState) (ops : List Op) (i : Nat) :
    (run plic ops).source_priority i = plic.source_priority i ∨
      ((run plic ops).source_priority i ≤ 7 ∧ i < plic.num_sources) := by
  induction ops generalizing plic with
  | nil => exact Or.inl rfl
  | cons op ops ih =>
    rw [run_cons]
    rcases ih (step plic op) with h | ⟨h, hi⟩
    · rw [h]
      exact step_source_priority plic op i
    · exact Or.inr ⟨h, by rw [← (step_config plic op).1]; exact hi⟩

/-- Counterexample to C27 as stated: on the demo device configured with
`num_priorities = 3`, all priorities 0, a write of 7 to the priority register of source 1
stores 7, which is above `num_priorities`. -/
theorem priority_above_num_priorities :
    (∀ i, low_plic.source_priority i = 0) ∧ low_plic.num_priorities = 3 ∧
      (1 ≤ 1 ∧ 1 < low_plic.num_sources) ∧
      (run low_plic [Op.write 0x4 7 4]).source_priority 1 = 7 ∧
      ¬ (run low_plic [Op.write 0x4 7 4]).source_priority 1 ≤
        (run low_plic [Op.write 0x4 7 4]).num_priorities := by
  refine ⟨fun _ => rfl, rfl, by decide, by decide, by decide⟩

/-- C27 (amended): in every state reached from a state whose stored priorities (the
entries of `source_priority` below `num_sources`) are at most 7, such as the initial state
in which they are 0, by any sequence of raise, lower, register reads and register writes,
every stored priority is at most 7, whatever `num_priorities` is; it is therefore at most
`num_priorities` when `num_priorities` is at least 7. -/
theorem stored_priority_le_seven (plic : SiFivePLICState) (ops : List Op)
    (h0 : ∀ i, i < plic.num_sources → plic.source_priority i ≤ 7) :
    ∀ i, i < (run plic ops).num_sources →
      (run plic ops).source_priority i ≤ 7 ∧
        (7 ≤ plic.num_priorities →
          (run plic ops).source_priority i ≤ (run plic ops).num_priorities) := by
  intro i hi
  rw [(run_config plic ops).1] at hi
  have h7 : (run plic ops).source_priority i ≤ 7 := by
    rcases run_source_priority plic ops i with h | ⟨h, _⟩
    · rw [h]
      exact h0 i hi
    · exact h
  refine ⟨h7, fun hn => ?_⟩
  rw [(run_config plic ops).2.1]
  exact le_trans h7 hn

/-- Witness for C27: the device with `num_priorities = 3`, after the write of 7 to the
priority register of source 1: the stored priority of source 1 is 7, at most 7. -/
theorem stored_priority_le_seven_witness :
    (1 < (run low_plic [Op.write 0x4 7 4]).num_sources ∧
        (run low_plic [Op.write 0x4 7 4]).source_priority 1 = 7) ∧
      (run low_plic [Op.write 0x4 7 4]).source_priority 1 ≤ 7 :=
  ⟨by decide,
    (stored_priority_le_seven low_plic [Op.write 0x4 7 4] (fun _ _ => Nat.zero_le 7) 1
      (by decide)).1⟩

/-! ## One claimant per source -/

/-- A claim that returns a nonzero id returns a claimable source. -/
theorem claim_result_claimable (plic : SiFivePLICState) (t : Nat)
    (h : (sifive_plic_claim plic t).1 ≠ 0) :
    claimable plic t (sifive_plic_claim plic t).1 = true := by
  rcases claim_cases plic t with ⟨irq, _, hc, _, heq⟩ | ⟨_, heq⟩
  · rw [heq]
    exact hc
  · rw [heq] at h
    exact absurd rfl h

theorem not_claimed_of_claimable (plic : SiFivePLICState) (t s : Nat)
    (h : claimable plic t s = true) : is_claimed plic s = false := by
  unfold claimable at h
  simp only [Bool.and_eq_true, Bool.not_eq_true'] at h
  exact h.1.1.2

/-- A claim does not return a nonzero source whose claimed bit is set. -/
theorem claim_ne_of_claimed (plic : SiFivePLICState) (t s : Nat) (hs : s ≠ 0)
    (h : is_claimed plic s = true) : (sifive_plic_claim plic t).1 ≠ s := by
  intro heq
  have hne : (sifive_plic_claim plic t).1 ≠ 0 := by
    rw [heq]
    exact hs
  have hc := not_claimed_of_claimable plic t _ (claim_result_claimable plic t hne)
  rw [heq, h] at hc
  cases hc

/-- A call that is not a lower or a complete of `s` keeps the claimed bit of `s` set. -/
theorem step_keeps_claimed (plic : SiFivePLICState) (op : Op) (s : Nat)
    (h : is_claimed plic s = true) (hr : releases plic s op = false) :
    is_claimed (step plic op) s = true := by
  rcases step_cases plic op with
    h' | ⟨irq, m, _, h'⟩ | ⟨irq, m, hrel, h'⟩ | ⟨_, _, irq, _, _, _, _, h'⟩ |
      ⟨_, _, _, _, h'⟩ | ⟨_, _, h'⟩ | ⟨_, _, _, h'⟩
  · rw [h']
    exact h
  · rw [h']
    show is_claimed (sifive_plic_set_pending plic irq true) s = true
    rw [is_claimed_set_pending]
    exact h
  · rw [h']
    show is_claimed (sifive_plic_set_claimed plic irq false) s = true
    rw [is_claimed_set_claimed]
    by_cases hs : s = irq
    · rw [hs, hrel] at hr
      cases hr
    · rw [if_neg hs]
      exact h
  · rw [h', (claimed_state_keeps plic irq).2.1]
    by_cases hs : s = irq
    · rw [if_pos hs]
    · rw [if_neg hs]
      exact h
  · rw [h']
    exact h
  · rw [h']
    exact h
  · rw [h']
    exact h

theorem run_keeps_claimed (plic : SiFivePLICState) (ops : List Op) (s : Nat)
    (h : is_claimed plic s = true) (hfree : release_free s plic ops = true) :
    is_claimed (run plic ops) s = true := by
  induction ops generalizing plic with
  | nil => exact h
  | cons op ops ih =>
    have hf : (!releases plic s op && release_free s (step plic op) ops) = true := hfree
    rw [Bool.and_eq_true, Bool.not_eq_true'] at hf
    rw [run_cons]
    exact ih (step plic op) (step_keeps_claimed plic op s h hf.1) hf.2

/-- C28: when a claim by target `t` returns the source `s`, the claimed bit of `s` was
clear; after the claim, along every sequence of raise, lower, register reads and register
writes that contains no lower and no complete of `s` (raises of `s` and claim reads by any
target included), the claimed bit of `s` stays set, and no claim by any target and no
claim read returns `s`. -/
theorem one_claimant (plic : SiFivePLICState) (t s : Nat) (ops : List Op)
    (hs : s ≠ 0) (hc : (sifive_plic_claim plic t).1 = s)
    (hfree : release_free s (sifive_plic_claim plic t).2 ops = true) :
    is_claimed plic s = false ∧
      is_claimed (run (sifive_plic_claim plic t).2 ops) s = true ∧
      (∀ t', (sifive_plic_claim (run (sifive_plic_claim plic t).2 ops) t').1 ≠ s) ∧
      ∀ addr size, decodes_to_claim_complete (run (sifive_plic_claim plic t).2 ops) addr →
        (sifive_plic_read (run (sifive_plic_claim plic t).2 ops) addr size).1 ≠ s := by
  have hne : (sifive_plic_claim plic t).1 ≠ 0 := by
    rw [hc]
    exact hs
  have hcl := claim_result_claimable plic t hne
  rw [hc] at hcl
  have hafter : is_claimed (sifive_plic_claim plic t).2 s = true := by
    rw [claim_result_state plic t hne, hc, (claimed_state_keeps plic s).2.1, if_pos rfl]
  have hrun := run_keeps_claimed (sifive_plic_claim plic t).2 ops s hafter hfree
  refine ⟨not_claimed_of_claimable plic t s hcl, hrun, fun t' => ?_, fun addr size hdec => ?_⟩
  · exact claim_ne_of_claimed _ t' s hs hrun
  · rw [read_claim_unfold _ addr size hdec]
    exact claim_ne_of_claimed _ _ s hs hrun

/-- Witness for C28: on the armed demo device source 1 is raised and claimed, then
raised again and a second claim read is made. -/
theorem one_claimant_witness :
    is_claimed (sifive_plic_raise_irq armed_plic 1).1 1 = false ∧
      is_claimed
        (run (sifive_plic_claim (sifive_plic_raise_irq armed_plic 1).1 0).2
          [Op.raise 1, Op.read 0x200004 4]) 1 = true ∧
      (∀ t', (sifive_plic_claim
        (run (sifive_plic_claim (sifive_plic_raise_irq armed_plic 1).1 0).2
          [Op.raise 1, Op.read 0x200004 4]) t').1 ≠ 1) ∧
      ∀ addr size,
        decodes_to_claim_complete
          (run (sifive_plic_claim (sifive_plic_raise_irq armed_plic 1).1 0).2
            [Op.raise 1, Op.read 0x200004 4]) addr →
        (sifive_plic_read
          (run (sifive_plic_claim (sifive_plic_raise_irq armed_plic 1).1 0).2
            [Op.raise 1, Op.read 0x200004 4]) addr size).1 ≠ 1 :=
  one_claimant (sifive_plic_raise_irq armed_plic 1).1 0 1 [Op.raise 1, Op.read 0x200004 4]
    (by decide) (by decide) (by decide)

/-! ## Distinct (hart, mode) pairs -/

/-- Entries stored by the storing loop carry a hart id that is at least the running one, and
those of the running hart carry the letters of the first group. -/
theorem store_pass_head (s : List Char) :
    ∀ (a h : Nat) (entries : List PLICAddr), store_pass s a h = Except.ok entries →
      ∀ g gs, groups s = g :: gs →
        ∀ e, e ∈ entries → h ≤ e.hartid ∧ (e.hartid = h → mode_letter e.mode ∈ g) := by
  induction s with
  | nil =>
    intro a h entries hs g gs _ e he
    cases hs
    cases he
  | cons c p ih =>
    intro a h entries hs g gs hg e he
    by_cases hc : c = ','
    · have hstep : store_pass (c :: p) a h = store_pass p a (h + 1) := by
        rw [store_pass, if_pos hc]
      rw [hstep] at hs
      obtain ⟨g', gs', hg'⟩ := List.exists_cons_of_ne_nil (groups_ne_nil p)
      have h1 := (ih a (h + 1) entries hs g' gs' hg' e he).1
      exact ⟨by omega, fun heq => by omega⟩
    · rw [store_pass, if_neg hc] at hs
      cases hm : char_to_mode c with
      | error err =>
        rw [hm] at hs
        cases hs
      | ok mode =>
        rw [hm] at hs
        cases hrest : store_pass p (a + 1) h with
        | error err =>
          rw [hrest] at hs
          cases hs
        | ok rest =>
          rw [hrest] at hs
          cases hs
          obtain ⟨g', gs', hg', hcons⟩ := groups_letter c p hc
          obtain ⟨hg1, _⟩ := List.cons.inj (hcons.symm.trans hg)
          rcases List.mem_cons.mp he with heq | hmem
          · rw [heq]
            refine ⟨le_refl h, fun _ => ?_⟩
            rw [← hg1]
            show mode_letter mode ∈ c :: g'
            rw [← char_to_mode_ok c mode hm]
            exact List.mem_cons_self _ _
          · obtain ⟨h1, h2⟩ := ih (a + 1) h rest hrest g' gs' hg' e hmem
            refine ⟨h1, fun heq => ?_⟩
            rw [← hg1]
            exact List.mem_cons_of_mem _ (h2 heq)

/-- On a string none of whose groups repeats a character, the storing loop writes entries
with pairwise different (hart, mode) pairs. -/
theorem store_pass_nodup (s : List Char) :
    ∀ (a h : Nat) (entries : List PLICAddr), store_pass s a h = Except.ok entries →
      (∀ g, g ∈ groups s → g.Nodup) →
        (entries.map (fun e => (e.hartid, e.mode))).Nodup := by
  induction s with
  | nil =>
    intro a h entries hs _
    cases hs
    exact List.nodup_nil
  | cons c p ih =>
    intro a h entries hs hnd
    by_cases hc : c = ','
    · have hstep : store_pass (c :: p) a h = store_pass p a (h + 1) := by
        rw [store_pass, if_pos hc]
      rw [hstep] at hs
      refine ih a (h + 1) entries hs (fun g hg => hnd g ?_)
      rw [groups_comma c p hc]
      exact List.mem_cons_of_mem _ hg
    · rw [store_pass, if_neg hc] at hs
      cases hm : char_to_mode c with
      | error err =>
        rw [hm] at hs
        cases hs
      | ok mode =>
        rw [hm] at hs
        cases hrest : store_pass p (a + 1) h with
        | error err =>
          rw [hrest] at hs
          cases hs
        | ok rest =>
          rw [hrest] at hs
          cases hs
          obtain ⟨g', gs', hg', hcons⟩ := groups_letter c p hc
          have hhead : (c :: g').Nodup :=
            hnd (c :: g') (by rw [hcons]; exact List.mem_cons_self _ _)
          have hrestnd : ∀ g, g ∈ groups p → g.Nodup := by
            intro g hg
            rw [hg'] at hg
            rcases List.mem_cons.mp hg with heq | hmem
            · rw [heq]
              exact (List.nodup_cons.mp hhead).2
            · exact hnd g (by rw [hcons]; exact List.mem_cons_of_mem _ hmem)
          rw [List.map_cons, List.nodup_cons]
          refine ⟨?_, ih (a + 1) h rest hrest hrestnd⟩
          intro hmem
          obtain ⟨e, he, hkey⟩ := List.mem_map.mp hmem
          have hh : e.hartid = h := congrArg Prod.fst hkey
          have hmd : e.mode = mode := congrArg Prod.snd hkey
          have hin := (store_pass_head p (a + 1) h rest hrest g' gs' hg' e he).2 hh
          rw [hmd, ← char_to_mode_ok c mode hm] at hin
          exact (List.nodup_cons.mp hhead).1 hin

theorem index_eq_of_nodup {α : Type} (l : List α) (h : l.Nodup) (i j : Nat) (x : α)
    (hi : l[i]? = some x) (hj : l[j]? = some x) : i = j := by
  rw [List.nodup_iff_getElem?_ne_getElem?] at h
  have hil : i < l.length := by
    by_contra hn
    rw [List.getElem?_eq_none (by omega)] at hi
    cases hi
  have hjl : j < l.length := by
    by_contra hn
    rw [List.getElem?_eq_none (by omega)] at hj
    cases hj
  rcases Nat.lt_trichotomy i j with hlt | heq | hgt
  · exact absurd (hi.trans hj.symm) (h i j hlt hjl)
  · exact heq
  · exact absurd (hj.trans hi.symm) (h j i hgt hil)

/-- The entries of an accepted string have pairwise different (hart, mode) pairs. -/
theorem parse_nodup (s : List Char) (num_harts n : Nat) (entries : List PLICAddr)
    (h : parse_hart_config s num_harts = Except.ok (n, entries)) :
    (entries.map (fun e => (e.hartid, e.mode))).Nodup := by
  obtain ⟨a, hc, m, hcount, _, _, hstore⟩ := parse_ok_inv s num_harts n entries h
  refine store_pass_nodup s 0 0 entries hstore (fun g hg => ?_)
  obtain ⟨g0, gs0, hgs⟩ := List.exists_cons_of_ne_nil (groups_ne_nil s)
  obtain ⟨_, hnd0, hnds⟩ := count_pass_ok_clean s 0 0 0 _ hcount (by decide) g0 gs0 hgs
  rw [hgs] at hg
  rcases List.mem_cons.mp hg with heq | hmem
  · rw [heq]
    exact hnd0
  · exact hnds g hmem

/-- C29: for every hart-config string that `parse_hart_config` accepts, entry `k` of
`addr_config` carries the address id `k`, and no two distinct entries share the same
(hartid, mode) pair. -/
theorem parse_targets_distinct (s : List Char) (num_harts n : Nat)
    (entries : List PLICAddr)
    (h : parse_hart_config s num_harts = Except.ok (n, entries)) :
    (∀ (k : Nat) (e : PLICAddr), entries[k]? = some e → e.addrid = k) ∧
      ∀ (k1 k2 : Nat) (e1 e2 : PLICAddr), entries[k1]? = some e1 → entries[k2]? = some e2 →
        e1.hartid = e2.hartid → e1.mode = e2.mode → k1 = k2 := by
  constructor
  · intro k e hk
    obtain ⟨_, _, _, _, _, _, hstore⟩ := parse_ok_inv s num_harts n entries h
    have hkl : k < entries.length := by
      by_contra hn
      rw [List.getElem?_eq_none (by omega)] at hk
      cases hk
    obtain ⟨_, _, _, _, _, _, _, hentry⟩ := (store_pass_spec s 0 0 entries hstore).2 k hkl
    rw [hk] at hentry
    cases hentry
    exact Nat.zero_add k
  · intro k1 k2 e1 e2 h1 h2 hh hm
    refine index_eq_of_nodup _ (parse_nodup s num_harts n entries h) k1 k2
      (e1.hartid, e1.mode) ?_ ?_
    · rw [List.getElem?_map, h1]
      rfl
    · rw [List.getElem?_map, h2, hh, hm]
      rfl

/-- Witness for C29: the string `MS,MS` for two harts. -/
theorem parse_targets_distinct_witness :
    parse_hart_config "MS,MS".toList 2 =
        Except.ok (4,
          [{ addrid := 0, hartid := 0, mode := PLICMode.M },
            { addrid := 1, hartid := 0, mode := PLICMode.S },
            { addrid := 2, hartid := 1, mode := PLICMode.M },
            { addrid := 3, hartid := 1, mode := PLICMode.S }]) ∧
      ((∀ (k : Nat) (e : PLICAddr),
          [({ addrid := 0, hartid := 0, mode := PLICMode.M } : PLICAddr),
            { addrid := 1, hartid := 0, mode := PLICMode.S },
            { addrid := 2, hartid := 1, mode := PLICMode.M },
            { addrid := 3, hartid := 1, mode := PLICMode.S }][k]? = some e →
          e.addrid = k) ∧
        ∀ (k1 k2 : Nat) (e1 e2 : PLICAddr),
          [({ addrid := 0, hartid := 0, mode := PLICMode.M } : PLICAddr),
            { addrid := 1, hartid := 0, mode := PLICMode.S },
            { addrid := 2, hartid := 1, mode := PLICMode.M },
            { addrid := 3, hartid := 1, mode := PLICMode.S }][k1]? = some e1 →
          [({ addrid := 0, hartid := 0, mode := PLICMode.M } : PLICAddr),
            { addrid := 1, hartid := 0, mode := PLICMode.S },
            { addrid := 2, hartid := 1, mode := PLICMode.M },
            { addrid := 3, hartid := 1, mode := PLICMode.S }][k2]? = some e2 →
          e1.hartid = e2.hartid → e1.mode = e2.mode → k1 = k2) :=
  ⟨rfl, parse_targets_distinct "MS,MS".toList 2 4 _ rfl⟩

/-! ## The word-grouped count against the per-source count -/

theorem num_irqs_word_unskipped_eq (plic : SiFivePLICState) (t c i : Nat) :
    num_irqs_word_unskipped plic t c i = num_irqs_word plic t c i := by
  unfold num_irqs_word num_irqs_word_unskipped
  by_cases hmask : pending_enabled_not_claimed plic t i = 0
  · simp only [hmask, if_true]
    rw [foldl_count_range
      (fun j => 0 &&& (1 <<< j) ≠ 0 ∧
        plic.source_priority ((i <<< 5) + j) > plic.target_priority t)]
    have hz : (List.range 32).countP
        (fun j => decide (0 &&& (1 <<< j) ≠ 0 ∧
          plic.source_priority ((i <<< 5) + j) > plic.target_priority t)) = 0 := by
      rw [List.countP_eq_zero]
      intro j _
      simp
    rw [hz]
    rfl
  · simp only [hmask, if_false]

theorem num_irqs_fold_unskipped_eq (plic : SiFivePLICState) (t n c : Nat) :
    (List.range n).foldl (num_irqs_word_unskipped plic t) c =
      (List.range n).foldl (num_irqs_word plic t) c := by
  induction n generalizing c with
  | zero => rfl
  | succ n ih =>
    rw [List.range_succ, List.foldl_append, List.foldl_append, ih, List.foldl_cons,
      List.foldl_nil, List.foldl_cons, List.foldl_nil, num_irqs_word_unskipped_eq]

/-- C30: the word-grouped scan `sifive_plic_num_irqs_pending` of target `t` equals the
number of source ids below `32 * bitfield_words` that are pending, unclaimed, enabled for
`t` and of priority above the threshold of `t`, and it equals the scan that tests every
word, zero masks included. -/
theorem num_irqs_pending_refines_count (plic : SiFivePLICState) (t : Nat) :
    sifive_plic_num_irqs_pending plic t = eligible_count plic t ∧
      sifive_plic_num_irqs_pending plic t = num_irqs_pending_unskipped plic t := by
  constructor
  · rw [num_irqs_pending_eq, List.countP_eq_length_filter]
    rfl
  · unfold num_irqs_pending_unskipped sifive_plic_num_irqs_pending
    rw [num_irqs_fold_unskipped_eq]

/-! ## Raise and lower as maps on states -/

theorem set_pending_with_mip (p : SiFivePLICState) (m : Nat → Nat) (s : Nat) (b : Bool) :
    sifive_plic_set_pending (with_mip p m) s b = with_mip (sifive_plic_set_pending p s b) m := by
  cases b <;> rfl

theorem set_claimed_with_mip (p : SiFivePLICState) (m : Nat → Nat) (s : Nat) (b : Bool) :
    sifive_plic_set_claimed (with_mip p m) s b = with_mip (sifive_plic_set_claimed p s b) m := by
  cases b <;> rfl

/-- Setting a pending bit that is set changes nothing. -/
theorem set_pending_idem (p : SiFivePLICState) (s : Nat) :
    sifive_plic_set_pending (sifive_plic_set_pending p s true) s true =
      sifive_plic_set_pending p s true := by
  unfold sifive_plic_set_pending
  simp only [if_true]
  congr 1
  funext w
  simp only [Function.update_apply]
  by_cases hw : w = s >>> 5
  · simp [hw, Nat.or_assoc]
  · simp [hw]

/-- Clearing a claimed bit that is clear changes nothing. -/
theorem set_claimed_idem (p : SiFivePLICState) (s : Nat) :
    sifive_plic_set_claimed (sifive_plic_set_claimed p s false) s false =
      sifive_plic_set_claimed p s false := by
  unfold sifive_plic_set_claimed
  simp only [Bool.false_eq_true, if_false]
  congr 1
  funext w
  simp only [Function.update_apply]
  by_cases hw : w = s >>> 5
  · simp only [hw, if_true]
    apply Nat.eq_of_testBit_eq
    intro i
    simp only [testBit_clear_bits, Nat.testBit_and]
    cases (p.claimed (s >>> 5)).testBit i <;> cases (1 <<< (s &&& 31)).testBit i <;> rfl
  · simp [hw]

/-- Setting two pending bits gives the same bitset in either order. -/
theorem set_pending_comm (p : SiFivePLICState) (s1 s2 : Nat) :
    sifive_plic_set_pending (sifive_plic_set_pending p s1 true) s2 true =
      sifive_plic_set_pending (sifive_plic_set_pending p s2 true) s1 true := by
  unfold sifive_plic_set_pending
  simp only [if_true]
  congr 1
  funext w
  simp only [Function.update_apply]
  by_cases h1 : w = s1 >>> 5 <;> by_cases h2 : w = s2 >>> 5
  · have h12 : s1 >>> 5 = s2 >>> 5 := h1.symm.trans h2
    simp [h1, h12, Nat.or_assoc, Nat.or_comm (1 <<< (s1 &&& 31))]
  · have h21 : ¬ s1 >>> 5 = s2 >>> 5 := fun h => h2 (h1.trans h)
    have h21' : ¬ s2 >>> 5 = s1 >>> 5 := fun h => h21 h.symm
    simp [h1, h21, h21']
  · have h12 : ¬ s2 >>> 5 = s1 >>> 5 := fun h => h1 (h2.trans h)
    have h12' : ¬ s1 >>> 5 = s2 >>> 5 := fun h => h12 h.symm
    simp [h2, h12, h12']
  · simp [h1, h2]

/-- Two `mip` maps with the same bits are equal. -/
theorem mip_ext (m1 m2 : Nat → Nat)
    (h : ∀ h b, (m1 h).testBit b = true ↔ (m2 h).testBit b = true) : m1 = m2 := by
  funext x
  apply Nat.eq_of_testBit_eq
  intro b
  exact Bool.eq_iff_iff.mpr (h x b)

/-- State after two in-range raises: both pending bits are set and `mip` gains the line
bits of the targets that have work once both sources are pending. -/
theorem raise_raise_state (plic : SiFivePLICState) (s1 s2 : Nat)
    (h1 : ¬ (s1 = 0 ∨ s1 > plic.num_sources)) (h2 : ¬ (s2 = 0 ∨ s2 > plic.num_sources)) :
    ∃ m, (sifive_plic_raise_irq (sifive_plic_raise_irq plic s1).1 s2).1 =
        with_mip (sifive_plic_set_pending (sifive_plic_set_pending plic s1 true) s2 true) m ∧
      ∀ h b, (m h).testBit b = true ↔
        (plic.soc.mip h).testBit b = true ∨
          ∃ t, t < plic.num_addrs ∧
            sifive_plic_num_irqs_pending
              (sifive_plic_set_pending (sifive_plic_set_pending plic s1 true) s2 true) t ≠ 0 ∧
            target_hart plic t = h ∧ mode_mask (target_mode plic t) = 1 <<< b := by
  obtain ⟨m1, e1, hst1, hbits1⟩ := raise_irq_state plic s1 h1
  have h2' : ¬ (s2 = 0 ∨
      s2 > (with_mip (sifive_plic_set_pending plic s1 true) m1).num_sources) := h2
  obtain ⟨m2, e2, hst2, hbits2⟩ :=
    raise_irq_state (with_mip (sifive_plic_set_pending plic s1 true) m1) s2 h2'
  refine ⟨m2, ?_, fun h b => ?_⟩
  · rw [hst1]
    show (sifive_plic_raise_irq (with_mip (sifive_plic_set_pending plic s1 true) m1) s2).1 = _
    rw [hst2, set_pending_with_mip]
    rfl
  · rw [hbits2]
    have hm : (with_mip (sifive_plic_set_pending plic s1 true) m1).soc.mip h = m1 h := rfl
    rw [hm, hbits1, set_pending_with_mip]
    constructor
    · rintro ((hb | ⟨t, ht, hc, hh, hmask⟩) | ⟨t, ht, hc, hh, hmask⟩)
      · exact Or.inl hb
      · exact Or.inr ⟨t, ht, num_irqs_pending_mono_set_pending _ s2 t hc, hh, hmask⟩
      · exact Or.inr ⟨t, ht, hc, hh, hmask⟩
    · rintro (hb | ⟨t, ht, hc, hh, hmask⟩)
      · exact Or.inl (Or.inl hb)
      · exact Or.inr ⟨t, ht, hc, hh, hmask⟩

/-- C31: for every state and every source id `s`, raising `s` twice leaves the same state
(bitsets, `mip` of every hart and all other fields) as raising it once, and lowering `s`
twice leaves the same state as lowering it once. -/
theorem raise_lower_idempotent (plic : SiFivePLICState) (s : Nat) :
    (sifive_plic_raise_irq (sifive_plic_raise_irq plic s).1 s).1 =
        (sifive_plic_raise_irq plic s).1 ∧
      (sifive_plic_lower_irq (sifive_plic_lower_irq plic s).1 s).1 =
        (sifive_plic_lower_irq plic s).1 := by
  by_cases hs : s = 0 ∨ s > plic.num_sources
  · obtain ⟨hr, hl⟩ := raise_lower_out_of_range_aux plic s hs
    constructor
    · rw [hr]
      show (sifive_plic_raise_irq plic s).1 = plic
      rw [hr]
    · rw [hl]
      show (sifive_plic_lower_irq plic s).1 = plic
      rw [hl]
  · constructor
    · obtain ⟨m, hst, hbits⟩ := raise_raise_state plic s s hs hs
      obtain ⟨m1, e1, hst1, hbits1⟩ := raise_irq_state plic s hs
      rw [hst, hst1, set_pending_idem]
      congr 1
      apply mip_ext
      intro h b
      rw [hbits, hbits1, set_pending_idem]
    · obtain ⟨m1, e1, hst1, hbits1⟩ := lower_irq_state plic s hs
      have hs' : ¬ (s = 0 ∨
          s > (with_mip (sifive_plic_set_claimed plic s false) m1).num_sources) := hs
      obtain ⟨m2, e2, hst2, hbits2⟩ :=
        lower_irq_state (with_mip (sifive_plic_set_claimed plic s false) m1) s hs'
      rw [hst1]
      show (sifive_plic_lower_irq (with_mip (sifive_plic_set_claimed plic s false) m1) s).1 =
        with_mip (sifive_plic_set_claimed plic s false) m1
      rw [hst2, set_claimed_with_mip, set_claimed_idem]
      show with_mip (sifive_plic_set_claimed plic s false) m2 =
        with_mip (sifive_plic_set_claimed plic s false) m1
      congr 1
      apply mip_ext
      intro h b
      rw [hbits2]
      have hm : (with_mip (sifive_plic_set_claimed plic s false) m1).soc.mip h = m1 h := rfl
      rw [hm, hbits1, set_claimed_with_mip, set_claimed_idem]
      constructor
      · rintro ⟨hb, _⟩
        exact hb
      · rintro ⟨hb, hn⟩
        exact ⟨⟨hb, hn⟩, hn⟩

/-! ## The priority array against the source ids -/

/-- The scan reads `source_priority` at every index of a word whose mask is not zero. -/
theorem priority_reads_of_mask (plic : SiFivePLICState) (t i j : Nat)
    (hi : i < plic.bitfield_words) (hj : j < 32)
    (hmask : pending_enabled_not_claimed plic t i ≠ 0) :
    (i <<< 5) + j ∈ num_irqs_priority_reads plic t := by
  unfold num_irqs_priority_reads
  have hgen : ∀ (n : Nat) (init : List Nat), i < n →
      (i <<< 5) + j ∈ (List.range n).foldl
        (fun reads i =>
          if pending_enabled_not_claimed plic t i = 0 then reads
          else reads ++ (List.range 32).map (fun j => (i <<< 5) + j))
        init := by
    intro n
    induction n with
    | zero =>
      intro init h
      exact absurd h (Nat.not_lt_zero i)
    | succ n ih =>
      intro init h
      have hrange : List.range (n + 1) = List.range n ++ [n] := List.range_succ n
      rw [hrange, List.foldl_append, List.foldl_cons, List.foldl_nil]
      by_cases hn : pending_enabled_not_claimed plic t n = 0
      · rw [if_pos hn]
        have hne : i ≠ n := by
          intro heq
          rw [heq] at hmask
          exact hmask hn
        exact ih init (by omega)
      · rw [if_neg hn]
        by_cases hin : i < n
        · exact List.mem_append_left _ (ih init hin)
        · have heq : i = n := by omega
          rw [← heq]
          exact List.mem_append_right _
            (List.mem_map.mpr ⟨j, List.mem_range.mpr hj, rfl⟩)
  exact hgen plic.bitfield_words [] hi

/-- C32 at the failing input: `sifive_plic_create` with 3 sources clears the 3 entries
`source_priority[0..2]`; index 3, the valid source id `num_sources`, is the memory cell
that follows the array.  After source 3 is enabled for target 0, the threshold is set to 1
and source 3 is raised, the scan of `sifive_plic_num_irqs_pending` reads `source_priority`
at the indices 3 to 31, and the count and the claim differ with the content of that
cell. -/
theorem priority_lookup_past_array :
    ∃ st st',
      sifive_plic_create zero_heap { num_harts := 1, mip := fun _ => 0 } "M".toList
          3 7 0x0 0x1000 0x2000 0x80 0x200000 0x1000 = Except.ok st ∧
      sifive_plic_create dirty_heap { num_harts := 1, mip := fun _ => 0 } "M".toList
          3 7 0x0 0x1000 0x2000 0x80 0x200000 0x1000 = Except.ok st' ∧
      (1 ≤ 3 ∧ 3 ≤ st.num_sources) ∧
      ((∀ i, i < 3 → st'.source_priority i = 0) ∧
        st.source_priority 3 = zero_heap.source_priority 3 ∧
        st'.source_priority 3 = dirty_heap.source_priority 3) ∧
      (3 ∈ num_irqs_priority_reads
          (run st [Op.write 0x2000 0x8 4, Op.write 0x200000 1 4, Op.raise 3]) 0 ∧
        31 ∈ num_irqs_priority_reads
          (run st [Op.write 0x2000 0x8 4, Op.write 0x200000 1 4, Op.raise 3]) 0 ∧
        ¬ 3 < (run st [Op.write 0x2000 0x8 4, Op.write 0x200000 1 4, Op.raise 3]).num_sources) ∧
      (sifive_plic_num_irqs_pending
          (run st [Op.write 0x2000 0x8 4, Op.write 0x200000 1 4, Op.raise 3]) 0 = 0 ∧
        sifive_plic_num_irqs_pending
          (run st' [Op.write 0x2000 0x8 4, Op.write 0x200000 1 4, Op.raise 3]) 0 = 1) ∧
      (sifive_plic_claim
          (run st [Op.write 0x2000 0x8 4, Op.write 0x200000 1 4, Op.raise 3]) 0).1 = 0 ∧
      (sifive_plic_claim
          (run st' [Op.write 0x2000 0x8 4, Op.write 0x200000 1 4, Op.raise 3]) 0).1 = 3 := by
  refine ⟨_, _, rfl, rfl, by decide, ⟨by decide, rfl, rfl⟩, by decide, by decide,
    by decide, by decide⟩

/-! ## The bitset words against the source ids -/

/-- The word of a source id accepted by the range guard is inside the bitsets sized by
`(num_sources + 31) >> 5`, except for the id `num_sources` when it is a multiple of 32. -/
theorem source_word_lt_iff (n s : Nat) (hn : n + 31 < 2 ^ 32) (hs : s ≤ n) :
    s >>> 5 < ((n + 31) % 2 ^ 32) >>> 5 ↔ ¬ (s = n ∧ n % 32 = 0) := by
  rw [Nat.mod_eq_of_lt hn, shiftRight_five, shiftRight_five]
  omega

/-- C33 at the failing input: `sifive_plic_create` with 32 sources sizes the bitsets at
one word; the id 32 passes the range guard of raise and lower, its word index `32 >> 5`
is 1, which is not below `bitfield_words`, and the raise sets bit 0 of the cell
`pending[1]` that follows the array.  For every other accepted id the word index is below
`bitfield_words`. -/
theorem bitset_word_past_array :
    (∃ st,
      sifive_plic_create zero_heap { num_harts := 1, mip := fun _ => 0 } "M".toList
          32 7 0x0 0x1000 0x2000 0x80 0x200000 0x1000 = Except.ok st ∧
      st.bitfield_words = 1 ∧ (1 ≤ 32 ∧ 32 ≤ st.num_sources) ∧
      ¬ (32 >>> 5 < st.bitfield_words) ∧
      st.pending 1 = 0 ∧ (sifive_plic_raise_irq st 32).1.pending 1 = 1 ∧
      is_pending (sifive_plic_raise_irq st 32).1 32 = true) ∧
      ∀ (st : SiFivePLICState) (s : Nat), realized_words st → st.num_sources + 31 < 2 ^ 32 →
        1 ≤ s → s ≤ st.num_sources →
        (s >>> 5 < st.bitfield_words ↔ ¬ (s = st.num_sources ∧ st.num_sources % 32 = 0)) := by
  refine ⟨⟨_, rfl, by decide, by decide, by decide, by decide, by decide, by decide⟩,
    fun st s hr hn _ hs => ?_⟩
  unfold realized_words at hr
  rw [hr]
  exact source_word_lt_iff st.num_sources s hn hs

/-! ## Frame of the register writes -/

/-- What a write other than a complete write keeps. -/
theorem write_keeps_bitsets (plic : SiFivePLICState) (addr value size : Nat)
    (h : ¬ decodes_to_claim_complete plic addr) :
    (sifive_plic_write plic addr value size).1.pending = plic.pending ∧
      (sifive_plic_write plic addr value size).1.claimed = plic.claimed ∧
      (sifive_plic_write plic addr value size).1.soc = plic.soc ∧
      (sifive_plic_write plic addr value size).1.addr_config = plic.addr_config := by
  rcases write_cases plic addr value size with
    hw | ⟨irq, _, hw⟩ | ⟨i, hw⟩ | ⟨t, _, hw⟩ | ⟨hdec, _⟩
  · rw [hw]
    exact ⟨rfl, rfl, rfl, rfl⟩
  · rw [hw]
    exact ⟨rfl, rfl, rfl, rfl⟩
  · rw [hw]
    exact ⟨rfl, rfl, rfl, rfl⟩
  · rw [hw]
    exact ⟨rfl, rfl, rfl, rfl⟩
  · exact absurd hdec h

/-- A write decoded in the pending window reports an error and stores nothing. -/
theorem write_pending_unfold (plic : SiFivePLICState) (addr value size : Nat)
    (ha : addr &&& 0x3 = 0) (h1 : ¬ in_priority_window plic addr)
    (h2 : in_pending_window plic addr) :
    sifive_plic_write plic addr value size =
      (plic, [Effect.error_report (PlicError.invalid_pending_write (addr % 2 ^ 32))]) := by
  have hal : ¬ addr &&& 0x3 ≠ 0 := not_not.mpr ha
  unfold sifive_plic_write
  dsimp only
  rw [if_neg hal, if_neg h1, if_pos h2]

/-- C34: for every state, address and value, a register write that is not decoded as a
write to a complete register leaves every pending bit, every claimed bit, the `mip` of
every hart and the line of every target unchanged; a write decoded in the pending window
leaves the whole state unchanged, priorities, enables and thresholds included, and reports
the invalid pending write. -/
theorem non_complete_write_frame (plic : SiFivePLICState) (addr value size : Nat)
    (h : ¬ decodes_to_claim_complete plic addr) :
    (∀ s, is_pending (sifive_plic_write plic addr value size).1 s = is_pending plic s) ∧
      (∀ s, is_claimed (sifive_plic_write plic addr value size).1 s = is_claimed plic s) ∧
      (sifive_plic_write plic addr value size).1.pending = plic.pending ∧
      (sifive_plic_write plic addr value size).1.claimed = plic.claimed ∧
      (sifive_plic_write plic addr value size).1.soc.mip = plic.soc.mip ∧
      (∀ t, line_asserted (sifive_plic_write plic addr value size).1 t =
        line_asserted plic t) ∧
      (addr &&& 0x3 = 0 → ¬ in_priority_window plic addr → in_pending_window plic addr →
        sifive_plic_write plic addr value size =
          (plic,
            [Effect.error_report (PlicError.invalid_pending_write (addr % 2 ^ 32))])) := by
  obtain ⟨hp, hc, hsoc, hcfg⟩ := write_keeps_bitsets plic addr value size h
  refine ⟨fun s => ?_, fun s => ?_, hp, hc, by rw [hsoc], fun t => ?_,
    write_pending_unfold plic addr value size⟩
  · unfold is_pending
    rw [hp]
  · unfold is_claimed
    rw [hc]
  · unfold line_asserted target_hart target_mode
    rw [hsoc, hcfg]

/-- Witness for C34: on the armed demo device with source 1 raised, a write of 7 to the
priority register of source 2 and a write to the pending window. -/
theorem non_complete_write_frame_witness :
    ¬ decodes_to_claim_complete (sifive_plic_raise_irq armed_plic 1).1 0x8 ∧
      is_pending (sifive_plic_raise_irq armed_plic 1).1 1 = true ∧
      is_pending (sifive_plic_write (sifive_plic_raise_irq armed_plic 1).1 0x8 7 4).1 1 =
        true ∧
      line_asserted (sifive_plic_write (sifive_plic_raise_irq armed_plic 1).1 0x8 7 4).1 0 =
        line_asserted (sifive_plic_raise_irq armed_plic 1).1 0 :=
  ⟨by decide, by decide,
    ((non_complete_write_frame (sifive_plic_raise_irq armed_plic 1).1 0x8 7 4
      (by decide)).1 1).trans (by decide),
    (non_complete_write_frame (sifive_plic_raise_irq armed_plic 1).1 0x8 7 4
      (by decide)).2.2.2.2.2.1 0⟩

/-! ## Bits outside the source range -/

/-- A call leaves an id outside `[1, num_sources]` neither pending nor claimed. -/
theorem step_keeps_outside_quiet (plic : SiFivePLICState) (op : Op) (s : Nat)
    (hs : s = 0 ∨ s > plic.num_sources)
    (hq : is_pending plic s = false ∧ is_claimed plic s = false) :
    is_pending (step plic op) s = false ∧ is_claimed (step plic op) s = false := by
  obtain ⟨hp, hc⟩ := hq
  have hlower : ∀ irq,
      is_pending (sifive_plic_lower_irq plic irq).1 s = false ∧
        is_claimed (sifive_plic_lower_irq plic irq).1 s = false := by
    intro irq
    rcases lower_cases plic irq with h | ⟨m, h⟩
    · rw [h]
      exact ⟨hp, hc⟩
    · rw [h]
      constructor
      · show is_pending (sifive_plic_set_claimed plic irq false) s = false
        rw [is_pending_set_claimed]
        exact hp
      · show is_claimed (sifive_plic_set_claimed plic irq false) s = false
        rw [is_claimed_set_claimed]
        by_cases hsi : s = irq
        · rw [if_pos hsi]
        · rw [if_neg hsi]
          exact hc
  cases op with
  | raise irq =>
    show is_pending (sifive_plic_raise_irq plic irq).1 s = false ∧
      is_claimed (sifive_plic_raise_irq plic irq).1 s = false
    by_cases hr : irq = 0 ∨ irq > plic.num_sources
    · rw [(raise_lower_out_of_range_aux plic irq hr).1]
      exact ⟨hp, hc⟩
    · obtain ⟨hpend, hclaim, _⟩ := raise_keeps plic irq hr
      have hne : ¬ s = irq := by
        intro heq
        rw [heq] at hs
        exact hr hs
      rw [hpend, hclaim, if_neg hne]
      exact ⟨hp, hc⟩
  | lower irq => exact hlower irq
  | read addr size =>
    show is_pending (sifive_plic_read plic addr size).2.1 s = false ∧
      is_claimed (sifive_plic_read plic addr size).2.1 s = false
    rcases read_cases plic addr size with h | ⟨_, hcl, h⟩
    · rw [h]
      exact ⟨hp, hc⟩
    · have hne : ¬ s = (sifive_plic_read plic addr size).1 := by
        intro heq
        rw [← heq, claimable_of_not_pending plic _ s hp] at hcl
        cases hcl
      obtain ⟨hpend, hclaim, _⟩ := claimed_state_keeps plic (sifive_plic_read plic addr size).1
      rw [h, hpend, hclaim, if_neg hne, if_neg hne]
      exact ⟨hp, hc⟩
  | write addr value size =>
    show is_pending (sifive_plic_write plic addr value size).1 s = false ∧
      is_claimed (sifive_plic_write plic addr value size).1 s = false
    rcases write_cases plic addr value size with
      hw | ⟨irq, _, hw⟩ | ⟨i, hw⟩ | ⟨t, _, hw⟩ | ⟨_, hw⟩
    · rw [hw]
      exact ⟨hp, hc⟩
    · rw [hw]
      exact ⟨hp, hc⟩
    · rw [hw]
      exact ⟨hp, hc⟩
    · rw [hw]
      exact ⟨hp, hc⟩
    · rw [hw]
      exact hlower _

theorem run_keeps_outside_quiet (plic : SiFivePLICState) (ops : List Op) (s : Nat)
    (hs : s = 0 ∨ s > plic.num_sources)
    (hq : is_pending plic s = false ∧ is_claimed plic s = false) :
    is_pending (run plic ops) s = false ∧ is_claimed (run plic ops) s = false := by
  induction ops generalizing plic with
  | nil => exact hq
  | cons op ops ih =>
    rw [run_cons]
    refine ih (step plic op) ?_ (step_keeps_outside_quiet plic op s hs hq)
    rw [(step_config plic op).1]
    exact hs

/-- With `num_sources` not a multiple of 32, the bitsets sized by `sifive_plic_realize`
hold a bit for every id up to `num_sources`. -/
theorem source_le_in_scan (p : SiFivePLICState) (s : Nat) (hr : realized_words p)
    (hn : p.num_sources + 31 < 2 ^ 32) (hm : p.num_sources % 32 ≠ 0)
    (hs : s ≤ p.num_sources) : s < 32 * p.bitfield_words := by
  unfold realized_words at hr
  rw [hr, Nat.mod_eq_of_lt hn, shiftRight_five]
  omega

/-- C35: in every state reached from an initial state whose pending and claimed bitsets
are zero by any sequence of raise, lower, register reads and register writes, on a device
sized by `sifive_plic_realize` whose `num_sources` is not a multiple of 32: every id in
`[1, num_sources]` has a bit in the bitsets, every bit of the pending and claimed bitsets
that is set belongs to an id in `[1, num_sources]`, and every claim, hence every claim
read, returns 0 or an id in `[1, num_sources]`. -/
theorem bits_within_sources (plic : SiFivePLICState) (ops : List Op)
    (hr : realized_words plic) (hn : plic.num_sources + 31 < 2 ^ 32)
    (hm : plic.num_sources % 32 ≠ 0) (h0 : nothing_pending_or_claimed plic) :
    (∀ s, s ≤ (run plic ops).num_sources → s < 32 * (run plic ops).bitfield_words) ∧
      (∀ s, s < 32 * (run plic ops).bitfield_words →
        is_pending (run plic ops) s = true ∨ is_claimed (run plic ops) s = true →
        1 ≤ s ∧ s ≤ (run plic ops).num_sources) ∧
      (∀ t, (sifive_plic_claim (run plic ops) t).1 = 0 ∨
        (1 ≤ (sifive_plic_claim (run plic ops) t).1 ∧
          (sifive_plic_claim (run plic ops) t).1 ≤ (run plic ops).num_sources)) ∧
      ∀ addr size, decodes_to_claim_complete (run plic ops) addr →
        (sifive_plic_read (run plic ops) addr size).1 = 0 ∨
          (1 ≤ (sifive_plic_read (run plic ops) addr size).1 ∧
            (sifive_plic_read (run plic ops) addr size).1 ≤ (run plic ops).num_sources) := by
  obtain ⟨hns, _, _, hbw, _⟩ := run_config plic ops
  have hbits : ∀ s, s < 32 * (run plic ops).bitfield_words →
      is_pending (run plic ops) s = true ∨ is_claimed (run plic ops) s = true →
      1 ≤ s ∧ s ≤ (run plic ops).num_sources := by
    intro s hs hset
    rw [hbw] at hs
    rw [hns]
    by_contra hout
    have hs' : s = 0 ∨ s > plic.num_sources := by omega
    obtain ⟨hp, hc⟩ := run_keeps_outside_quiet plic ops s hs'
      ⟨quiet_not_pending plic h0 s hs, quiet_not_claimed plic h0 s hs⟩
    rcases hset with h | h
    · rw [hp] at h
      cases h
    · rw [hc] at h
      cases h
  have hclaim : ∀ t, (sifive_plic_claim (run plic ops) t).1 = 0 ∨
      (1 ≤ (sifive_plic_claim (run plic ops) t).1 ∧
        (sifive_plic_claim (run plic ops) t).1 ≤ (run plic ops).num_sources) := by
    intro t
    rcases claim_cases (run plic ops) t with ⟨irq, hirq, hc, _, heq⟩ | ⟨_, heq⟩
    · right
      rw [heq]
      refine hbits irq hirq (Or.inl ?_)
      unfold claimable at hc
      simp only [Bool.and_eq_true] at hc
      exact hc.1.1.1
    · left
      rw [heq]
  refine ⟨fun s hs => ?_, hbits, hclaim, fun addr size hdec => ?_⟩
  · rw [hns] at hs
    rw [hbw]
    exact source_le_in_scan plic s hr hn hm hs
  · rw [read_claim_unfold _ addr size hdec]
    exact hclaim _

/-- Witness for C35: the demo device (3 sources, all arrays zero) after the writes that
arm source 1, a raise of source 1 and a raise of the out-of-range id 4; the claim read
returns 1. -/
theorem bits_within_sources_witness :
    (sifive_plic_read
        (run demo_plic [Op.write 0x4 5 4, Op.write 0x2000 0xe 4, Op.raise 1, Op.raise 4])
        0x200004 4).1 = 1 ∧
      ((sifive_plic_read
          (run demo_plic [Op.write 0x4 5 4, Op.write 0x2000 0xe 4, Op.raise 1, Op.raise 4])
          0x200004 4).1 = 0 ∨
        (1 ≤ (sifive_plic_read
            (run demo_plic
              [Op.write 0x4 5 4, Op.write 0x2000 0xe 4, Op.raise 1, Op.raise 4])
            0x200004 4).1 ∧
          (sifive_plic_read
            (run demo_plic
              [Op.write 0x4 5 4, Op.write 0x2000 0xe 4, Op.raise 1, Op.raise 4])
            0x200004 4).1 ≤
            (run demo_plic
              [Op.write 0x4 5 4, Op.write 0x2000 0xe 4, Op.raise 1, Op.raise 4]).num_sources)) :=
  ⟨by decide,
    (bits_within_sources demo_plic
      [Op.write 0x4 5 4, Op.write 0x2000 0xe 4, Op.raise 1, Op.raise 4]
      (by decide) (by decide) (by decide) (by decide)).2.2.2 0x200004 4 (by decide)⟩

/-! ## Raises commute -/

/-- C36: for every state and every two source ids `s1` and `s2`, a raise of `s1` followed
by a raise of `s2` leaves the same state (pending and claimed bitsets, `mip` of every hart
and all other fields) as the two raises in the opposite order. -/
theorem raise_commute (plic : SiFivePLICState) (s1 s2 : Nat) :
    (sifive_plic_raise_irq (sifive_plic_raise_irq plic s1).1 s2).1 =
      (sifive_plic_raise_irq (sifive_plic_raise_irq plic s2).1 s1).1 := by
  by_cases h1 : s1 = 0 ∨ s1 > plic.num_sources
  · have hr1 := (raise_lower_out_of_range_aux plic s1 h1).1
    have hn : (sifive_plic_raise_irq plic s2).1.num_sources = plic.num_sources :=
      (step_config plic (Op.raise s2)).1
    have h1' : s1 = 0 ∨ s1 > (sifive_plic_raise_irq plic s2).1.num_sources := by
      rw [hn]
      exact h1
    rw [hr1, (raise_lower_out_of_range_aux _ s1 h1').1]
  · by_cases h2 : s2 = 0 ∨ s2 > plic.num_sources
    · have hr2 := (raise_lower_out_of_range_aux plic s2 h2).1
      have hn : (sifive_plic_raise_irq plic s1).1.num_sources = plic.num_sources :=
        (step_config plic (Op.raise s1)).1
      have h2' : s2 = 0 ∨ s2 > (sifive_plic_raise_irq plic s1).1.num_sources := by
        rw [hn]
        exact h2
      rw [hr2, (raise_lower_out_of_range_aux _ s2 h2').1]
    · obtain ⟨m12, hst12, hbits12⟩ := raise_raise_state plic s1 s2 h1 h2
      obtain ⟨m21, hst21, hbits21⟩ := raise_raise_state plic s2 s1 h2 h1
      rw [hst12, hst21, set_pending_comm plic s1 s2]
      congr 1
      apply mip_ext
      intro h b
      rw [hbits12, hbits21, set_pending_comm plic s1 s2]

/-! ## Side effects of the register reads -/

/-- C37: for every state and address, a read of an address that does not decode to a
claim register (offset 4 of a context slot) leaves the whole state unchanged; a read that
does decode to a claim register leaves the state of the claim it performs. -/
theorem read_side_effect_free (plic : SiFivePLICState) (addr size : Nat) :
    (¬ decodes_to_claim_complete plic addr →
        (sifive_plic_read plic addr size).2.1 = plic) ∧
      (decodes_to_claim_complete plic addr →
        (sifive_plic_read plic addr size).2.1 =
          (sifive_plic_claim plic (context_addrid plic addr)).2) := by
  constructor
  · exact read_state_of_not_claim plic addr size
  · intro h
    rw [read_claim_unfold plic addr size h]

/-- Witness for C37: on the armed demo device with source 1 raised, the read of the
threshold register at `0x200000` changes nothing. -/
theorem read_side_effect_free_witness :
    ¬ decodes_to_claim_complete (sifive_plic_raise_irq armed_plic 1).1 0x200000 ∧
      (sifive_plic_read (sifive_plic_raise_irq armed_plic 1).1 0x200000 4).2.1 =
        (sifive_plic_raise_irq armed_plic 1).1 :=
  ⟨by decide,
    (read_side_effect_free (sifive_plic_raise_irq armed_plic 1).1 0x200000 4).1
      (by decide)⟩

/-! ## Divisors and enable indices -/

/-- An address inside a striped window `[base, base + n * stride)`, computed in `uint32_t`,
is less than `n` strides above the base; in particular the stride is not zero. -/
theorem window_index_lt (base n stride addr : Nat) (h1 : addr ≥ base)
    (h2 : addr < (base + (n * stride) % 2 ^ 32) % 2 ^ 32) :
    stride ≠ 0 ∧ (addr - base) / stride < n := by
  have h3 : (base + (n * stride) % 2 ^ 32) % 2 ^ 32 ≤ base + (n * stride) % 2 ^ 32 :=
    Nat.mod_le _ _
  have h4 : (n * stride) % 2 ^ 32 ≤ n * stride := Nat.mod_le _ _
  have h5 : addr - base < n * stride := by omega
  have h0 : stride ≠ 0 := by
    intro hz
    rw [hz, Nat.mul_zero] at h5
    exact Nat.not_lt_zero _ h5
  exact ⟨h0, (Nat.div_lt_iff_lt_mul (Nat.pos_of_ne_zero h0)).mpr h5⟩

theorem checked_div_of_ne_zero (a b : Nat) (h : b ≠ 0) : checked_div a b = some (a / b) := by
  unfold checked_div
  rw [if_neg h]

/-- No read executes a division by zero: the read with checked divisions always has a
result, the one of `sifive_plic_read`. -/
theorem read_checked_eq (plic : SiFivePLICState) (addr size : Nat) :
    sifive_plic_read_checked plic addr size = some (sifive_plic_read plic addr size) := by
  unfold sifive_plic_read_checked sifive_plic_read
  dsimp only
  by_cases h1 : addr &&& 0x3 ≠ 0
  · rw [if_pos h1, if_pos h1]
  · rw [if_neg h1, if_neg h1]
    by_cases h2 : in_priority_window plic addr
    · rw [if_pos h2, if_pos h2]
    · rw [if_neg h2, if_neg h2]
      by_cases h3 : in_pending_window plic addr
      · rw [if_pos h3, if_pos h3]
      · rw [if_neg h3, if_neg h3]
        by_cases h4 : in_enable_window plic addr
        · rw [if_pos h4, if_pos h4,
            checked_div_of_ne_zero _ _ (window_index_lt _ _ _ _ h4.1 h4.2).1]
          show (if enable_wordid plic addr < plic.bitfield_words then _ else _) = _
          by_cases h5 : enable_wordid plic addr < plic.bitfield_words
          · rw [if_pos h5, if_pos h5]
            rfl
          · rw [if_neg h5, if_neg h5]
        · rw [if_neg h4, if_neg h4]
          by_cases h6 : in_context_window plic addr
          · rw [if_pos h6, if_pos h6,
              checked_div_of_ne_zero _ _ (window_index_lt _ _ _ _ h6.1 h6.2).1]
            show (if context_contextid plic addr = 0 then _ else _) = _
            by_cases h7 : context_contextid plic addr = 0
            · rw [if_pos h7, if_pos h7]
              rfl
            · rw [if_neg h7, if_neg h7]
              by_cases h8 : context_contextid plic addr = 4
              · rw [if_pos h8, if_pos h8]
                rfl
              · rw [if_neg h8, if_neg h8]
          · rw [if_neg h6, if_neg h6]

/-- No write executes a division by zero: the write with checked divisions always has a
result, the one of `sifive_plic_write`. -/
theorem write_checked_eq (plic : SiFivePLICState) (addr value size : Nat) :
    sifive_plic_write_checked plic addr value size =
      some (sifive_plic_write plic addr value size) := by
  unfold sifive_plic_write_checked sifive_plic_write
  dsimp only
  by_cases h1 : addr &&& 0x3 ≠ 0
  · rw [if_pos h1, if_pos h1]
  · rw [if_neg h1, if_neg h1]
    by_cases h2 : in_priority_window plic addr
    · rw [if_pos h2, if_pos h2]
    · rw [if_neg h2, if_neg h2]
      by_cases h3 : in_pending_window plic addr
      · rw [if_pos h3, if_pos h3]
      · rw [if_neg h3, if_neg h3]
        by_cases h4 : in_enable_window plic addr
        · rw [if_pos h4, if_pos h4,
            checked_div_of_ne_zero _ _ (window_index_lt _ _ _ _ h4.1 h4.2).1]
          show (if enable_wordid plic addr < plic.bitfield_words then _ else _) = _
          by_cases h5 : enable_wordid plic addr < plic.bitfield_words
          · rw [if_pos h5, if_pos h5]
            rfl
          · rw [if_neg h5, if_neg h5]
        · rw [if_neg h4, if_neg h4]
          by_cases h6 : in_context_window plic addr
          · rw [if_pos h6, if_pos h6,
              checked_div_of_ne_zero _ _ (window_index_lt _ _ _ _ h6.1 h6.2).1]
            show (if context_contextid plic addr = 0 then _ else _) = _
            by_cases h7 : context_contextid plic addr = 0
            · rw [if_pos h7, if_pos h7]
              by_cases h9 : value ≤ plic.num_priorities
              · rw [if_pos h9, if_pos h9]
                rfl
              · rw [if_neg h9, if_neg h9]
            · rw [if_neg h7, if_neg h7]
              by_cases h8 : context_contextid plic addr = 4
              · rw [if_pos h8, if_pos h8]
                by_cases h10 : value < plic.num_sources
                · rw [if_pos h10, if_pos h10]
                · rw [if_neg h10, if_neg h10]
              · rw [if_neg h8, if_neg h8]
          · rw [if_neg h6, if_neg h6]

/-- C38: for every configuration, address and value, no read and no write executes a
division by zero (the handlers with checked divisions always return the result of
`sifive_plic_read` and `sifive_plic_write`): the divisions by `enable_stride` and
`context_stride` stand inside the window tests, and with a stride of 0, which passes the
assertion of `sifive_plic_create`, the window is empty.  The target index decoded in a
window is below `num_addrs`, and the index `addrid * bitfield_words + wordid` of an enable
word that is accessed is below `bitfield_words * num_addrs`. -/
theorem divisors_and_enable_index (plic : SiFivePLICState) (addr value size : Nat) :
    (sifive_plic_read_checked plic addr size = some (sifive_plic_read plic addr size) ∧
        sifive_plic_write_checked plic addr value size =
          some (sifive_plic_write plic addr value size)) ∧
      stride_assertion_holds 0 ∧
      (in_enable_window plic addr →
        plic.enable_stride ≠ 0 ∧ enable_addrid plic addr < plic.num_addrs ∧
          (enable_wordid plic addr < plic.bitfield_words →
            enable_addrid plic addr * plic.bitfield_words + enable_wordid plic addr <
              plic.bitfield_words * plic.num_addrs)) ∧
      (in_context_window plic addr →
        plic.context_stride ≠ 0 ∧ context_addrid plic addr < plic.num_addrs) ∧
      (plic.enable_stride = 0 → ¬ in_enable_window plic addr) ∧
      (plic.context_stride = 0 → ¬ in_context_window plic addr) := by
  have henable : in_enable_window plic addr →
      plic.enable_stride ≠ 0 ∧ enable_addrid plic addr < plic.num_addrs := by
    rintro ⟨h1, h2⟩
    obtain ⟨h0, hlt⟩ := window_index_lt _ _ _ _ h1 h2
    refine ⟨h0, ?_⟩
    unfold enable_addrid
    exact lt_of_le_of_lt (Nat.mod_le _ _) hlt
  have hcontext : in_context_window plic addr →
      plic.context_stride ≠ 0 ∧ context_addrid plic addr < plic.num_addrs := by
    rintro ⟨h1, h2⟩
    obtain ⟨h0, hlt⟩ := window_index_lt _ _ _ _ h1 h2
    refine ⟨h0, ?_⟩
    unfold context_addrid
    exact lt_of_le_of_lt (Nat.mod_le _ _) hlt
  refine ⟨⟨read_checked_eq plic addr size, write_checked_eq plic addr value size⟩,
    by decide, fun he => ?_, hcontext, fun hz he => (henable he).1 hz,
    fun hz hc => (hcontext hc).1 hz⟩
  obtain ⟨h0, hlt⟩ := henable he
  refine ⟨h0, hlt, fun hw => ?_⟩
  calc enable_addrid plic addr * plic.bitfield_words + enable_wordid plic addr
      < enable_addrid plic addr * plic.bitfield_words + plic.bitfield_words := by omega
    _ = (enable_addrid plic addr + 1) * plic.bitfield_words := by ring
    _ ≤ plic.num_addrs * plic.bitfield_words := Nat.mul_le_mul_right _ hlt
    _ = plic.bitfield_words * plic.num_addrs := Nat.mul_comm _ _

/-- Witness for C38: the enable word of target 0 of the demo device at `0x2000`. -/
theorem divisors_and_enable_index_witness :
    in_enable_window demo_plic 0x2000 ∧
      demo_plic.enable_stride ≠ 0 ∧ enable_addrid demo_plic 0x2000 < demo_plic.num_addrs ∧
      (enable_wordid demo_plic 0x2000 < demo_plic.bitfield_words →
        enable_addrid demo_plic 0x2000 * demo_plic.bitfield_words +
            enable_wordid demo_plic 0x2000 <
          demo_plic.bitfield_words * demo_plic.num_addrs) :=
  ⟨by decide, (divisors_and_enable_index demo_plic 0x2000 1 4).2.2.1 (by decide)⟩

/-! ## The two loops of the parser agree on the number of entries -/

/-- A string on which the counting loop runs to the end is made of mode letters and
commas. -/
theorem count_pass_ok_valid (s : List Char) (a h m : Nat) (r : Nat × Nat × Nat)
    (hc : count_pass s a h m = Except.ok r) : ∀ x, x ∈ s → valid_config_char x := by
  intro x hx
  by_contra hbad
  obtain ⟨e, he⟩ := count_pass_fails_of_invalid s a h m ⟨x, hx, hbad⟩
  rw [he] at hc
  cases hc

/-- The entries written by the storing loop carry consecutive address ids. -/
theorem store_pass_addrid (s : List Char) (a h : Nat) (entries : List PLICAddr)
    (hs : store_pass s a h = Except.ok entries) (k : Nat) (e : PLICAddr)
    (hk : entries[k]? = some e) : e.addrid = a + k := by
  have hkl : k < entries.length := by
    by_contra hn
    rw [List.getElem?_eq_none (by omega)] at hk
    cases hk
  obtain ⟨_, _, _, _, _, _, _, hentry⟩ := (store_pass_spec s a h entries hs).2 k hkl
  rw [hk] at hentry
  cases hentry
  rfl

/-- C39: for every hart-config string on which the first loop of `parse_hart_config` runs
to the end, the second loop runs to the end as well, and the target count computed by the
first loop (the running sum of the population counts of the group masks, plus that of the
last group when it is not zero) equals the number of entries the second loop writes, which
is the number of non-comma characters; entry `k` is written at index `k`, below that
count. -/
theorem passes_agree (s : List Char) (a h m : Nat)
    (hc : count_pass s 0 0 0 = Except.ok (a, h, m)) :
    ∃ entries, store_pass s 0 0 = Except.ok entries ∧
      entries.length = (if m ≠ 0 then a + popcount m else a) ∧
      entries.length = (config_letters s).length ∧
      ∀ (k : Nat) (e : PLICAddr), entries[k]? = some e →
        e.addrid = k ∧ k < (if m ≠ 0 then a + popcount m else a) := by
  obtain ⟨entries, hs⟩ := store_pass_valid s 0 0 (count_pass_ok_valid s 0 0 0 _ hc)
  obtain ⟨htot, _, _⟩ := count_pass_totals s 0 0 0 _ hc (by decide)
  have hlen := (store_pass_spec s 0 0 entries hs).1
  have hn : (if m ≠ 0 then a + popcount m else a) = (config_letters s).length := by
    have htot' : a + popcount m = 0 + popcount 0 + (config_letters s).length := htot
    rw [popcount_zero] at htot'
    by_cases hm : m ≠ 0
    · rw [if_pos hm]
      omega
    · rw [if_neg hm]
      have hm0 : m = 0 := not_not.mp hm
      rw [hm0, popcount_zero] at htot'
      omega
  refine ⟨entries, hs, by rw [hn]; exact hlen, hlen, fun k e hk => ?_⟩
  have hkl : k < entries.length := by
    by_contra hnlt
    rw [List.getElem?_eq_none (by omega)] at hk
    cases hk
  refine ⟨?_, by rw [hn, ← hlen]; exact hkl⟩
  rw [store_pass_addrid s 0 0 entries hs k e hk]
  exact Nat.zero_add k

/-- Witness for C39: the string `MS,M`; the first loop ends with 2 targets counted and the
mask of `M` open, the second loop writes 3 entries. -/
theorem passes_agree_witness :
    count_pass "MS,M".toList 0 0 0 = Except.ok (2, 1, 8) ∧
      ∃ entries, store_pass "MS,M".toList 0 0 = Except.ok entries ∧
        entries.length = (if 8 ≠ 0 then 2 + popcount 8 else 2) ∧
        entries.length = (config_letters "MS,M".toList).length ∧
        ∀ (k : Nat) (e : PLICAddr), entries[k]? = some e →
          e.addrid = k ∧ k < (if 8 ≠ 0 then 2 + popcount 8 else 2) :=
  ⟨rfl, passes_agree "MS,M".toList 2 1 8 rfl⟩

/-! ## Hart ids of the entries -/

/-- The hart ids written by the storing loop lie between the running hart id and that id
advanced by the number of commas. -/
theorem store_pass_hart_bounds (s : List Char) :
    ∀ (a h : Nat) (entries : List PLICAddr), store_pass s a h = Except.ok entries →
      ∀ e, e ∈ entries → h ≤ e.hartid ∧ e.hartid ≤ h + s.count ',' := by
  induction s with
  | nil =>
    intro a h entries hs e he
    cases hs
    cases he
  | cons c p ih =>
    intro a h entries hs e he
    by_cases hc : c = ','
    · have hstep : store_pass (c :: p) a h = store_pass p a (h + 1) := by
        rw [store_pass, if_pos hc]
      rw [hstep] at hs
      obtain ⟨h1, h2⟩ := ih a (h + 1) entries hs e he
      rw [count_comma_cons_comma c p hc]
      exact ⟨by omega, by omega⟩
    · rw [store_pass, if_neg hc] at hs
      cases hm : char_to_mode c with
      | error err =>
        rw [hm] at hs
        cases hs
      | ok mode =>
        rw [hm] at hs
        cases hrest : store_pass p (a + 1) h with
        | error err =>
          rw [hrest] at hs
          cases hs
        | ok rest =>
          rw [hrest] at hs
          cases hs
          rw [count_comma_cons_letter c p hc]
          rcases List.mem_cons.mp he with heq | hmem
          · rw [heq]
            exact ⟨le_refl h, Nat.le_add_right h _⟩
          · exact ih (a + 1) h rest hrest e hmem

/-- The hart ids written by the storing loop never decrease. -/
theorem store_pass_sorted (s : List Char) :
    ∀ (a h : Nat) (entries : List PLICAddr), store_pass s a h = Except.ok entries →
      entries.Pairwise (fun e1 e2 => e1.hartid ≤ e2.hartid) := by
  induction s with
  | nil =>
    intro a h entries hs
    cases hs
    exact List.Pairwise.nil
  | cons c p ih =>
    intro a h entries hs
    by_cases hc : c = ','
    · have hstep : store_pass (c :: p) a h = store_pass p a (h + 1) := by
        rw [store_pass, if_pos hc]
      rw [hstep] at hs
      exact ih a (h + 1) entries hs
    · rw [store_pass, if_neg hc] at hs
      cases hm : char_to_mode c with
      | error err =>
        rw [hm] at hs
        cases hs
      | ok mode =>
        rw [hm] at hs
        cases hrest : store_pass p (a + 1) h with
        | error err =>
          rw [hrest] at hs
          cases hs
        | ok rest =>
          rw [hrest] at hs
          cases hs
          rw [List.pairwise_cons]
          exact ⟨fun e he => (store_pass_hart_bounds p (a + 1) h rest hrest e he).1,
            ih (a + 1) h rest hrest⟩

/-- The number of addresses of an accepted string is the number of entries stored. -/
theorem parse_num_addrs (s : List Char) (num_harts n : Nat) (entries : List PLICAddr)
    (h : parse_hart_config s num_harts = Except.ok (n, entries)) : n = entries.length := by
  obtain ⟨a, hc, m, hcount, _, hn, hstore⟩ := parse_ok_inv s num_harts n entries h
  obtain ⟨htot, _, _⟩ := count_pass_totals s 0 0 0 _ hcount (by decide)
  have hlen := (store_pass_spec s 0 0 entries hstore).1
  have htot' : a + popcount m = 0 + popcount 0 + (config_letters s).length := htot
  rw [popcount_zero] at htot'
  rw [hn, hlen]
  by_cases hm : m ≠ 0
  · rw [if_pos hm]
    omega
  · rw [if_neg hm]
    have hm0 : m = 0 := not_not.mp hm
    rw [hm0, popcount_zero] at htot'
    omega

/-- What `sifive_plic_realize` makes of an accepted string. -/
theorem realize_ok_inv (heap : HeapCells) (soc : RISCVHartArrayState)
    (hart_config : List Char) (num_sources num_priorities priority_base pending_base
      enable_base enable_stride context_base context_stride : Nat) (st : SiFivePLICState)
    (h : sifive_plic_realize heap soc hart_config num_sources num_priorities priority_base
      pending_base enable_base enable_stride context_base context_stride = Except.ok st) :
    ∃ entries, parse_hart_config hart_config soc.num_harts =
        Except.ok (entries.length, entries) ∧
      st.num_addrs = entries.length ∧ st.soc = soc ∧
      (∀ k, st.addr_config k = entries.getD k (heap.addr_config k)) ∧
      st.num_sources = num_sources ∧
      st.bitfield_words = ((num_sources + 31) % 2 ^ 32) >>> 5 := by
  unfold sifive_plic_realize at h
  cases hp : parse_hart_config hart_config soc.num_harts with
  | error e =>
    rw [hp] at h
    cases h
  | ok r =>
    obtain ⟨n, entries⟩ := r
    rw [hp] at h
    have hn := parse_num_addrs hart_config soc.num_harts n entries hp
    subst hn
    cases h
    exact ⟨entries, rfl, rfl, rfl, fun _ => rfl, rfl, rfl⟩

/-- On a device built by `sifive_plic_realize`, no two targets below `num_addrs` share a
(hart, mode) pair. -/
theorem realize_distinct_targets (heap : HeapCells) (soc : RISCVHartArrayState)
    (hart_config : List Char) (num_sources num_priorities priority_base pending_base
      enable_base enable_stride context_base context_stride : Nat) (st : SiFivePLICState)
    (h : sifive_plic_realize heap soc hart_config num_sources num_priorities priority_base
      pending_base enable_base enable_stride context_base context_stride = Except.ok st) :
    distinct_targets st := by
  obtain ⟨entries, hparse, hna, _, hcfg, _, _⟩ :=
    realize_ok_inv heap soc hart_config num_sources num_priorities priority_base
      pending_base enable_base enable_stride context_base context_stride st h
  have hd := parse_nodup hart_config soc.num_harts entries.length entries hparse
  have hget : ∀ t, t < entries.length → entries[t]? = some (st.addr_config t) := by
    intro t ht
    rw [hcfg t, List.getD_eq_getElem?_getD, List.getElem?_eq_getElem ht]
    rfl
  intro t1 ht1 t2 ht2 hh hm
  rw [hna] at ht1 ht2
  unfold target_hart at hh
  unfold target_mode at hm
  refine index_eq_of_nodup _ hd t1 t2
    ((st.addr_config t1).hartid, (st.addr_config t1).mode) ?_ ?_
  · rw [List.getElem?_map, hget t1 ht1]
    rfl
  · rw [List.getElem?_map, hget t2 ht2, hh, hm]
    rfl

/-- C40: for every hart-config string that `parse_hart_config` accepts for a machine with
`num_harts` harts, every entry of `addr_config` has `hartid < num_harts` and the hart ids
do not decrease with the address id; on the device that `sifive_plic_realize` builds,
the hart of every target below `num_addrs` is below the number of harts of the machine. -/
theorem hart_ids_in_range (s : List Char) (num_harts n : Nat) (entries : List PLICAddr)
    (h : parse_hart_config s num_harts = Except.ok (n, entries)) :
    (∀ (k : Nat) (e : PLICAddr), entries[k]? = some e → e.hartid < num_harts) ∧
      (∀ (k1 k2 : Nat) (e1 e2 : PLICAddr), k1 ≤ k2 → entries[k1]? = some e1 →
        entries[k2]? = some e2 → e1.hartid ≤ e2.hartid) ∧
      ∀ (heap : HeapCells) (soc : RISCVHartArrayState)
        (num_sources num_priorities priority_base pending_base enable_base enable_stride
          context_base context_stride : Nat) (st : SiFivePLICState),
        soc.num_harts = num_harts →
        sifive_plic_realize heap soc s num_sources num_priorities priority_base
          pending_base enable_base enable_stride context_base context_stride =
            Except.ok st →
        ∀ t, t < st.num_addrs → target_hart st t < st.soc.num_harts := by
  obtain ⟨a, hc, m, hcount, hharts, _, hstore⟩ := parse_ok_inv s num_harts n entries h
  obtain ⟨_, hcommas, _⟩ := count_pass_totals s 0 0 0 _ hcount (by decide)
  have hcommas' : hc = 0 + s.count ',' := hcommas
  have hlt : ∀ (k : Nat) (e : PLICAddr), entries[k]? = some e → e.hartid < num_harts := by
    intro k e hk
    have hmem : e ∈ entries := List.getElem?_mem hk
    have hb := (store_pass_hart_bounds s 0 0 entries hstore e hmem).2
    omega
  refine ⟨hlt, ?_, ?_⟩
  · intro k1 k2 e1 e2 hle h1 h2
    rcases Nat.lt_or_eq_of_le hle with hlt12 | heq
    · have hsorted := store_pass_sorted s 0 0 entries hstore
      rw [List.pairwise_iff_getElem] at hsorted
      obtain ⟨hk1, he1⟩ := List.getElem?_eq_some.mp h1
      obtain ⟨hk2, he2⟩ := List.getElem?_eq_some.mp h2
      rw [← he1, ← he2]
      exact hsorted k1 k2 hk1 hk2 hlt12
    · rw [heq, h2] at h1
      cases h1
      exact le_refl _
  · intro heap soc ns np pb peb eb es cb cs st hsoc hreal t ht
    obtain ⟨entries', hparse, hna, hsoc', hcfg, _, _⟩ :=
      realize_ok_inv heap soc s ns np pb peb eb es cb cs st hreal
    rw [hsoc] at hparse
    rw [h] at hparse
    cases hparse
    rw [hna] at ht
    unfold target_hart
    rw [hcfg t, hsoc', hsoc]
    have hget : entries[t]? = some (entries.getD t (heap.addr_config t)) := by
      rw [List.getD_eq_getElem?_getD, List.getElem?_eq_getElem ht]
      rfl
    exact hlt t _ hget

/-- Witness for C40: the string `M,MS` for two harts; entries have hart ids 0, 1, 1. -/
theorem hart_ids_in_range_witness :
    parse_hart_config "M,MS".toList 2 =
        Except.ok (3,
          [{ addrid := 0, hartid := 0, mode := PLICMode.M },
            { addrid := 1, hartid := 1, mode := PLICMode.M },
            { addrid := 2, hartid := 1, mode := PLICMode.S }]) ∧
      ∀ (k : Nat) (e : PLICAddr),
        [({ addrid := 0, hartid := 0, mode := PLICMode.M } : PLICAddr),
          { addrid := 1, hartid := 1, mode := PLICMode.M },
          { addrid := 2, hartid := 1, mode := PLICMode.S }][k]? = some e → e.hartid < 2 :=
  ⟨rfl, (hart_ids_in_range "M,MS".toList 2 3 _ rfl).1⟩

end PLIC
